import Mathlib

/-!
# TinyNSGA2: dominance, front extraction, crowding distance, tournament, evolution

A shallow embedding of the four headers of the repository

* `nondominated_sort.h` : `dominates`, `get_front`, `assign_crowding_distance`,
  `assign_crowding_distances`, `get_better_half`;
* `tournament.h`        : `Tournament::fight`;
* `nsga2.h`             : class `TinyNSGA2` (list based bookkeeping);
* `tinynsga2.h`         : class `TinyNSGA2::Evolver` (swap based bookkeeping).

Conventions of the embedding.

* An objective vector (`std::array<float, N>`, or any `T` with
  `T().size() = N`) is a function `Fin N → V`.  Objective scores are real
  scores: `V` is a linearly ordered type, and it is `ℚ` wherever the code
  does arithmetic on scores.  Scores that are not numbers are outside the model.
* A crowding distance is an `XFloat`: a rational, `+∞`, `-∞` or `NaN`, with the
  IEEE rules for the three special values and exact arithmetic on the rest;
  rounding, overflow and underflow of `float` are outside the model.
* `std::vector<X>` is `List X`; `v[i]` is `v.getD i d` for a default `d` and is
  only meaningful for `i < v.length`.
* `std::strong_ordering` is `Ordering` (`less = .lt`, `equal = .eq`,
  `greater = .gt`).
* `std::sort` is a parameter `S : SortAlg`: any function that returns a
  permutation of its input which is ordered whenever the comparator is a strict
  weak ordering on the elements of the input.  `stdSort` is one such function
  (insertion sort).
* Loops whose trip count is not syntactically bounded carry a fuel argument and
  return `none` when it runs out or when the code would leave its arrays.
-/

/-! ## Dominance comparator (`nondominated_sort.h` 7-18, `tinynsga2.h` 26-36) -/

section Dominance

variable {V : Type} [LinearOrder V] {N : Nat}

/-- Loop body of `dominates`: `adb |= a[i] < b[i]; bda |= a[i] > b[i];`
on the pair of flags `(adb, bda)`. -/
def dominatesStep (a b : Fin N → V) (s : Bool × Bool) (i : Fin N) : Bool × Bool :=
  (s.1 || decide (a i < b i), s.2 || decide (a i > b i))

/-- The function `dominates` of `nondominated_sort.h`: both flags start at `0`, the loop
runs over `i = 0 .. T().size() - 1`, the result is `adb <=> bda` on `bool`
(`false < true`). -/
def dominates (a b : Fin N → V) : Ordering :=
  let s := (List.finRange N).foldl (dominatesStep a b) (false, false)
  compare s.1 s.2

/-- The static member `Evolver::dominates` of `tinynsga2.h`, the same loop over
`i = 0 .. N - 1`. -/
def Evolver.dominates (a b : Fin N → V) : Ordering :=
  let s := (List.finRange N).foldl
    (fun (s : Bool × Bool) i => (s.1 || decide (a i < b i), s.2 || decide (a i > b i)))
    (false, false)
  compare s.1 s.2

/-- Pareto dominance of the glossary: `a` is at least as good as `b` in every objective
and strictly better in at least one (lower is better). -/
def ParetoDom (a b : Fin N → V) : Prop :=
  (∀ i, a i ≤ b i) ∧ ∃ i, a i < b i

/-- The flag `adb` at the end of the loop of `dominates a b` (and `bda` of
`dominates b a`). -/
def adbFlag (a b : Fin N → V) : Bool := (List.finRange N).any fun i => decide (a i < b i)

end Dominance

/-! ## Tables, library routines -/

/-- Read `evaluations[i]` from the evaluation table. -/
def evalAt {V : Type} [Inhabited V] {N : Nat} (evaluations : List (Fin N → V)) (i : Nat) :
    Fin N → V :=
  evaluations.getD i (fun _ => default)

/-- Index `i` dominates index `j` in the table: `dominates(evaluations[i], evaluations[j])`
is `greater`. -/
def Dom {V : Type} [LinearOrder V] [Inhabited V] {N : Nat} (evaluations : List (Fin N → V))
    (i j : Nat) : Prop :=
  dominates (evalAt evaluations i) (evalAt evaluations j) = .gt

/-- A model of `std::sort` on a vector of indices with a comparator `comp`: the result is a
permutation of the input, and it is ordered by `comp` when `comp` is a strict weak
ordering on the elements of the vector (the routine compares no other values).  The order
of equivalent elements is left to the algorithm. -/
structure SortAlg where
  /-- The sorting routine. -/
  sort : (Nat → Nat → Bool) → List Nat → List Nat
  /-- The result is a rearrangement of the input. -/
  perm : ∀ comp l, (sort comp l).Perm l
  /-- No later element comes strictly before an earlier one. -/
  sorted : ∀ comp l, (∀ a ∈ l, ∀ b ∈ l, comp a b = true → comp b a = false) →
    (∀ a ∈ l, ∀ b ∈ l, ∀ c ∈ l, comp b a = false → comp c b = false → comp c a = false) →
    (sort comp l).Pairwise (fun a b => comp b a = false)

/-- Insertion sort as an instance of `SortAlg`; it keeps equivalent elements in their
input order. -/
def stdSort : SortAlg where
  sort comp l := l.insertionSort (fun a b => comp b a = false)
  perm comp l := List.perm_insertionSort _ l
  sorted comp l hasym htrans := by
    have hins : ∀ (a : Nat) (t : List Nat), a ∈ l → (∀ x ∈ t, x ∈ l) →
        t.Pairwise (fun a b => comp b a = false) →
        (t.orderedInsert (fun a b => comp b a = false) a).Pairwise
          (fun a b => comp b a = false) := by
      intro a t ha
      induction t with
      | nil => exact fun _ _ => List.pairwise_singleton _ _
      | cons b t ih =>
        intro ht hp
        have hb : b ∈ l := ht b (List.mem_cons_self _ _)
        have ht' : ∀ x ∈ t, x ∈ l := fun x hx => ht x (List.mem_cons_of_mem _ hx)
        rw [List.pairwise_cons] at hp
        by_cases hab : comp b a = false
        · rw [List.orderedInsert, if_pos hab]
          refine List.pairwise_cons.2 ⟨fun x hx => ?_, List.pairwise_cons.2 hp⟩
          rcases List.mem_cons.1 hx with rfl | hx
          · exact hab
          · exact htrans a ha b hb x (ht' x hx) hab (hp.1 x hx)
        · rw [List.orderedInsert, if_neg hab]
          refine List.pairwise_cons.2 ⟨fun x hx => ?_, ih ht' hp.2⟩
          rcases List.mem_cons.1
            ((List.perm_orderedInsert (fun a b => comp b a = false) a t).subset hx)
            with rfl | hx
          · exact hasym b hb x ha (by simpa using hab)
          · exact hp.1 x hx
    have hall : ∀ m : List Nat, (∀ x ∈ m, x ∈ l) →
        (m.insertionSort (fun a b => comp b a = false)).Pairwise
          (fun a b => comp b a = false) := by
      intro m
      induction m with
      | nil => exact fun _ => List.Pairwise.nil
      | cons a m ih =>
        intro hm
        have hm' : ∀ x ∈ m, x ∈ l := fun x hx => hm x (List.mem_cons_of_mem _ hx)
        exact hins a _ (hm a (List.mem_cons_self _ _))
          (fun x hx => hm' x ((List.perm_insertionSort _ m).subset hx)) (ih hm')
    exact hall l fun _ h => h

/-- The random source `RNG` with the two library routines that draw from it: a
`std::uniform_real_distribution<float>(0, 1)` sample, and `std::shuffle` of an index
vector, which returns a permutation of it.  `R` is the state of the source. -/
structure RandomSource (R : Type) where
  /-- One sample `perc(m_rng)` and the state after it. -/
  uniform01 : R → ℚ × R
  /-- The call `std::shuffle(first, last, rng)` on the range given as a list. -/
  shuffle : List Nat → R → List Nat × R
  /-- A shuffle rearranges. -/
  shuffle_perm : ∀ l r, (shuffle l r).1.Perm l

/-! ## Crowding distances as IEEE values -/

/-- A `float` crowding distance: a number, `+∞`, `-∞` or `NaN`.  Arithmetic on numbers is
exact (no rounding, no overflow, no signed zero). -/
inductive XFloat where
  | nan : XFloat
  | ninf : XFloat
  | pinf : XFloat
  | fin : ℚ → XFloat
  deriving DecidableEq

namespace XFloat

/-- IEEE addition. -/
def add : XFloat → XFloat → XFloat
  | nan, _ => nan
  | _, nan => nan
  | pinf, ninf => nan
  | ninf, pinf => nan
  | pinf, _ => pinf
  | _, pinf => pinf
  | ninf, _ => ninf
  | _, ninf => ninf
  | fin a, fin b => fin (a + b)

/-- Sign of a number as a distance times `+∞`: `0 * ∞` is `NaN`. -/
def mulInf (a : ℚ) : XFloat :=
  if a = 0 then nan else if 0 < a then pinf else ninf

/-- IEEE multiplication. -/
def mul : XFloat → XFloat → XFloat
  | nan, _ => nan
  | _, nan => nan
  | fin a, fin b => fin (a * b)
  | fin a, pinf => mulInf a
  | fin a, ninf => mulInf (-a)
  | pinf, fin b => mulInf b
  | ninf, fin b => mulInf (-b)
  | pinf, pinf => pinf
  | ninf, ninf => pinf
  | pinf, ninf => ninf
  | ninf, pinf => ninf

/-- IEEE division; a zero divisor is `+0`: `x / 0` is `+∞` for `x > 0`, `NaN` for `x = 0`. -/
def div : XFloat → XFloat → XFloat
  | nan, _ => nan
  | _, nan => nan
  | fin a, fin b => if b = 0 then mulInf a else fin (a / b)
  | fin _, pinf => fin 0
  | fin _, ninf => fin 0
  | pinf, fin b => if 0 ≤ b then pinf else ninf
  | ninf, fin b => if 0 ≤ b then ninf else pinf
  | pinf, pinf => nan
  | pinf, ninf => nan
  | ninf, pinf => nan
  | ninf, ninf => nan

/-- IEEE `x < y`: false as soon as one side is `NaN`. -/
def lt : XFloat → XFloat → Bool
  | nan, _ => false
  | _, nan => false
  | ninf, ninf => false
  | ninf, _ => true
  | _, ninf => false
  | pinf, _ => false
  | fin _, pinf => true
  | fin a, fin b => decide (a < b)

/-- IEEE `x > y`. -/
def gt (x y : XFloat) : Bool := lt y x

/-- IEEE `x != y`: true as soon as one side is `NaN`. -/
def ne : XFloat → XFloat → Bool
  | nan, _ => true
  | _, nan => true
  | x, y => decide (x ≠ y)

/-- The value is `NaN`. -/
def isNaN : XFloat → Bool
  | nan => true
  | _ => false

/-- IEEE `x >= y`: false as soon as one side is `NaN`. -/
def ge : XFloat → XFloat → Bool
  | nan, _ => false
  | _, nan => false
  | x, y => !(lt x y)

end XFloat

/-- Read `crowding_distances[i]`. -/
def distAt (crowding_distances : List XFloat) (i : Nat) : XFloat :=
  crowding_distances.getD i (XFloat.fin 0)

/-! ## List based front extraction (`nondominated_sort.h` 21-50) -/

section GetFront

variable {V : Type} [LinearOrder V] [Inhabited V] {N : Nat}

/-- Inner loop of `get_front` for the candidate `x = *it1`.  The first list is the part of
`front` from `it2` on, `pushed` is what has been pushed on the head of `orig`.  On
`greater` the member is pushed on `orig` and erased from `front` and the scan goes on with
the next member; on `less` the scan breaks with `dominated = true`.  Returns that part of
`front` after the loop, the new head of `orig`, and `dominated`. -/
def get_front_inner (evaluations : List (Fin N → V)) (x : Nat) :
    List Nat → List Nat → List Nat × List Nat × Bool
  | [], pushed => ([], pushed, false)
  | f :: rest, pushed =>
    match dominates (evalAt evaluations x) (evalAt evaluations f) with
    | .gt => get_front_inner evaluations x rest (f :: pushed)
    | .lt => (f :: rest, pushed, true)
    | .eq =>
      let r := get_front_inner evaluations x rest pushed
      (f :: r.1, r.2.1, r.2.2)

/-- Outer loop of `get_front`.  The list `orig` is, at every moment,
`pushed ++ kept ++ todo`: `todo` starts at `it1`, `kept` are the members the loop has gone
past and left in place, `pushed` the members evicted from `front`.  A member that is not
dominated is pushed on the head of `front` and erased from `orig`.  After
`it = l.erase(it); it--;` the `it++` of the loop is at the member that followed the erased
one, also when the erased member was the first one (the list is circular through its end
node); this holds for `it1` on `orig` and for `it2` on `front`. -/
def get_front_outer (evaluations : List (Fin N → V)) :
    List Nat → List Nat → List Nat → List Nat → List Nat × List Nat
  | [], front, pushed, kept => (front, pushed ++ kept)
  | x :: todo, front, pushed, kept =>
    let r := get_front_inner evaluations x front pushed
    if r.2.2 then get_front_outer evaluations todo r.1 r.2.1 (kept ++ [x])
    else get_front_outer evaluations todo (x :: r.1) r.2.1 kept

/-- The function `get_front`: returns the front (as the returned vector) and the contents
of `orig` after the call. -/
def get_front (evaluations : List (Fin N → V)) (orig : List Nat) : List Nat × List Nat :=
  get_front_outer evaluations orig [] [] []

/-- Calling `get_front` again and again on what it leaves in `orig`, as long as `orig` is not
empty: the list of the fronts, `none` when `fuel` calls did not empty `orig`. -/
def get_fronts (evaluations : List (Fin N → V)) : Nat → List Nat → Option (List (List Nat))
  | _, [] => some []
  | 0, _ :: _ => none
  | fuel + 1, x :: xs =>
    let r := get_front evaluations (x :: xs)
    (get_fronts evaluations fuel r.2).map (fun fs => r.1 :: fs)

end GetFront

/-! ## Crowding distance (`nondominated_sort.h` 52-83) -/

section Crowding

variable {N : Nat}

/-- The inner loop `for (j = 1; j < idxs.size() - 1; j++)` of `assign_crowding_distance`
for the objective `i`, on the sorted `idxs`. -/
def crowdingInterior (evaluations : List (Fin N → ℚ)) (i : Fin N) (idxs : List Nat)
    (evaluation_factor : XFloat) (crowding_distances : List XFloat) : List XFloat :=
  (List.range' 1 (idxs.length - 2)).foldl
    (fun cd j => cd.set (idxs.getD j 0)
      (XFloat.add (distAt cd (idxs.getD j 0))
        (XFloat.mul
          (XFloat.fin (evalAt evaluations (idxs.getD (j + 1) 0) i
            - evalAt evaluations (idxs.getD (j - 1) 0) i))
          evaluation_factor)))
    crowding_distances

/-- One round of the loop over the objectives in `assign_crowding_distance`: sort the
working copy by objective `i`, set both ends to `+∞`, compute
`evaluation_factor = 1.f / (last - first)`, update the interior.  `none` when `idxs` is
empty, where `idxs[0]` is outside the vector. -/
def crowdingDim (S : SortAlg) (evaluations : List (Fin N → ℚ))
    (st : List XFloat × List Nat) (i : Fin N) : Option (List XFloat × List Nat) :=
  let idxs := S.sort (fun a b => decide (evalAt evaluations a i < evalAt evaluations b i)) st.2
  if idxs.length = 0 then none
  else
    let cd1 := st.1.set (idxs.getD 0 0) XFloat.pinf
    let cd2 := cd1.set (idxs.getD (idxs.length - 1) 0) XFloat.pinf
    let evaluation_factor := XFloat.div (XFloat.fin 1)
      (XFloat.fin (evalAt evaluations (idxs.getD (idxs.length - 1) 0) i
        - evalAt evaluations (idxs.getD 0 0) i))
    some (crowdingInterior evaluations i idxs evaluation_factor cd2, idxs)

/-- The first loop of `assign_crowding_distance`: `crowding_distances[idxs[j]] = 0.0`. -/
def crowdingReset (crowding_distances : List XFloat) (idxs : List Nat) : List XFloat :=
  idxs.foldl (fun cd j => cd.set j (XFloat.fin 0)) crowding_distances

/-- The function `assign_crowding_distance` of `nondominated_sort.h`: returns the table
`crowding_distances` after the call (`idxs` is a working copy). -/
def assign_crowding_distance (S : SortAlg) (evaluations : List (Fin N → ℚ))
    (crowding_distances : List XFloat) (idxs : List Nat) : Option (List XFloat) :=
  ((List.finRange N).foldlM (crowdingDim S evaluations)
    (crowdingReset crowding_distances idxs, idxs)).map Prod.fst

/-- The loop of `assign_crowding_distances`: while `orig` is not empty, extract a front
and assign its distances. -/
def assign_crowding_distances_loop (S : SortAlg) (evaluations : List (Fin N → ℚ)) :
    Nat → List Nat → List XFloat → Option (List XFloat)
  | _, [], cd => some cd
  | 0, _ :: _, _ => none
  | fuel + 1, x :: xs, cd =>
    let r := get_front evaluations (x :: xs)
    match assign_crowding_distance S evaluations cd r.1 with
    | none => none
    | some cd1 => assign_crowding_distances_loop S evaluations fuel r.2 cd1

/-- The function `assign_crowding_distances`: `orig` is `0 .. evaluations.size() - 1`. -/
def assign_crowding_distances (S : SortAlg) (evaluations : List (Fin N → ℚ))
    (crowding_distances : List XFloat) : Option (List XFloat) :=
  assign_crowding_distances_loop S evaluations evaluations.length
    (List.range evaluations.length) crowding_distances

/-! ## Truncation to the better half (`nondominated_sort.h` 85-109) -/

/-- The loop `while (newpop_idx < mixed_evaluations.size() / 2)` of `get_better_half`.
The callback acts on a state `σ` and is given the table of distances as it is at the call.
Returns the distances and the callback state after the loop, `none` when an empty front is
handed to `assign_crowding_distance` or the fuel runs out. -/
def get_better_half_loop {σ : Type} (S : SortAlg) (mixed_evaluations : List (Fin N → ℚ))
    (callback : List XFloat → Nat → σ → σ) :
    Nat → List Nat → List XFloat → Nat → σ → Option (List XFloat × σ)
  | 0, _, cd, newpop_idx, s =>
    if newpop_idx < mixed_evaluations.length / 2 then none else some (cd, s)
  | fuel + 1, orig, cd, newpop_idx, s =>
    if newpop_idx < mixed_evaluations.length / 2 then
      let half_size := mixed_evaluations.length / 2
      let r := get_front mixed_evaluations orig
      match assign_crowding_distance S mixed_evaluations cd r.1 with
      | none => none
      | some cd1 =>
        let front :=
          if newpop_idx + r.1.length > half_size then
            S.sort (fun a b => XFloat.gt (distAt cd1 a) (distAt cd1 b)) r.1
          else r.1
        let taken := front.take (half_size - newpop_idx)
        get_better_half_loop S mixed_evaluations callback fuel r.2 cd1
          (newpop_idx + taken.length) (taken.foldl (fun s idx => callback cd1 idx s) s)
    else some (cd, s)

/-- The function `get_better_half`: `orig` is `0 .. mixed_evaluations.size() - 1`,
`newpop_idx` starts at `0`. -/
def get_better_half {σ : Type} (S : SortAlg) (fuel : Nat)
    (mixed_evaluations : List (Fin N → ℚ)) (mixed_crowding_distances : List XFloat)
    (callback : List XFloat → Nat → σ → σ) (s : σ) : Option (List XFloat × σ) :=
  get_better_half_loop S mixed_evaluations callback fuel
    (List.range mixed_evaluations.length) mixed_crowding_distances 0 s

end Crowding

/-! ## Tournament (`tournament.h`) -/

/-- The members of class `Tournament`: the three tables it refers to and the random
source. -/
structure Tournament (T : Type) (N : Nat) (R : Type) where
  /-- The population. -/
  m_population : List T
  /-- The evaluation table. -/
  m_evaluations : List (Fin N → ℚ)
  /-- The crowding distance table. -/
  m_crowding_distances : List XFloat
  /-- The random source. -/
  m_rng : R

/-- The member `Tournament::fight`: the winner and the object after the call. -/
def Tournament.fight {T : Type} [Inhabited T] {N : Nat} {R : Type} (G : RandomSource R)
    (self : Tournament T N R) (a b : Nat) : T × Tournament T N R :=
  let ordering := dominates (evalAt self.m_evaluations a) (evalAt self.m_evaluations b)
  if ordering ≠ .eq then
    (if ordering = .gt then self.m_population.getD a default
      else self.m_population.getD b default, self)
  else if XFloat.ne (distAt self.m_crowding_distances a) (distAt self.m_crowding_distances b) then
    (if XFloat.gt (distAt self.m_crowding_distances a) (distAt self.m_crowding_distances b)
      then self.m_population.getD a default
      else self.m_population.getD b default, self)
  else
    let p := G.uniform01 self.m_rng
    (if p.1 < 1 / 2 then self.m_population.getD a default
      else self.m_population.getD b default, { self with m_rng := p.2 })

/-! ## Class `TinyNSGA2` (`nsga2.h`) -/

/-- The caller's operators of class `TinyNSGA2`.  Each may draw from the random source, so
each takes and returns its state: `evaluationF(x)` returns the evaluation of `x`,
`crossF(p1, p2, c1, c2)` overwrites the two children, `mutationF(c)` overwrites `c`. -/
structure NSGA2Functions (T : Type) (N : Nat) (R : Type) where
  /-- The evaluator. -/
  evaluationF : T → R → (Fin N → ℚ) × R
  /-- The crossover: parents, then the two children as they are before the call. -/
  crossF : T → T → T → T → R → (T × T) × R
  /-- The mutator. -/
  mutationF : T → R → T × R

/-- The data members of class `TinyNSGA2`; `m_tournament` refers to the first three tables
and to `m_rng`, so it has no state of its own. -/
structure TinyNSGA2 (T : Type) (N : Nat) (R : Type) where
  /-- The caller's population vector. -/
  m_population : List T
  /-- Evaluations of the population. -/
  m_evaluations : List (Fin N → ℚ)
  /-- Crowding distances of the population. -/
  m_crowding_distances : List XFloat
  /-- The combined pool. -/
  m_mixed_population : List T
  /-- Evaluations of the combined pool. -/
  m_mixed_evaluations : List (Fin N → ℚ)
  /-- Crowding distances of the combined pool. -/
  m_mixed_crowding_distances : List XFloat
  /-- First index permutation. -/
  m_shuffle1 : List Nat
  /-- Second index permutation. -/
  m_shuffle2 : List Nat
  /-- The random source. -/
  m_rng : R

namespace TinyNSGA2

variable {T : Type} [Inhabited T] {N : Nat} {R : Type}

/-- The loop `m_evaluations[i] = m_evaluationF(m_population[i])` of the constructor. -/
def evaluateAll (F : NSGA2Functions T N R) (population : List T)
    (evaluations : List (Fin N → ℚ)) (rng : R) : List (Fin N → ℚ) × R :=
  (List.range population.length).foldl
    (fun (s : List (Fin N → ℚ) × R) i =>
      let e := F.evaluationF (population.getD i default) s.2
      (s.1.set i e.1, e.2))
    (evaluations, rng)

/-- The constructor `TinyNSGA2::TinyNSGA2`.  The member initialisers size the tables; then
`assert(population.size() % 4 == 0)` (here: `none`), the evaluation of the population,
`assign_crowding_distances`, and the two `std::iota`. -/
def construct (S : SortAlg) (F : NSGA2Functions T N R) (population : List T) (rng : R) :
    Option (TinyNSGA2 T N R) :=
  if population.length % 4 ≠ 0 then none
  else
    let e := evaluateAll F population (List.replicate population.length (fun _ => 0)) rng
    match assign_crowding_distances S e.1 (List.replicate population.length (XFloat.fin 0)) with
    | none => none
    | some cd =>
      some
        { m_population := population
          m_evaluations := e.1
          m_crowding_distances := cd
          m_mixed_population := List.replicate (population.length * 2) default
          m_mixed_evaluations := List.replicate (population.length * 2) (fun _ => 0)
          m_mixed_crowding_distances := List.replicate (population.length * 2) (XFloat.fin 0)
          m_shuffle1 := List.range population.length
          m_shuffle2 := List.range population.length
          m_rng := e.2 }

/-- The view `m_tournament` of the object. -/
def tournament (self : TinyNSGA2 T N R) : Tournament T N R :=
  { m_population := self.m_population
    m_evaluations := self.m_evaluations
    m_crowding_distances := self.m_crowding_distances
    m_rng := self.m_rng }

/-- One block `{ parent1 = fight(..); parent2 = fight(..); m_crossF(..) }` of `evolve`: the
parents come from positions `i .. i + 3` of `shuffle`, the children are the slots `c` and
`c + 1` of the combined pool. -/
def crossBlock (G : RandomSource R) (F : NSGA2Functions T N R) (self : TinyNSGA2 T N R)
    (shuffle : List Nat) (i c : Nat) : TinyNSGA2 T N R :=
  let f1 := self.tournament.fight G (shuffle.getD (i + 0) 0) (shuffle.getD (i + 1) 0)
  let s1 := { self with m_rng := f1.2.m_rng }
  let f2 := s1.tournament.fight G (shuffle.getD (i + 2) 0) (shuffle.getD (i + 3) 0)
  let r := F.crossF f1.1 f2.1 (self.m_mixed_population.getD c default)
    (self.m_mixed_population.getD (c + 1) default) f2.2.m_rng
  { self with
    m_mixed_population := (self.m_mixed_population.set c r.1.1).set (c + 1) r.1.2
    m_rng := r.2 }

/-- The loop `for (j = 0; j < 4; j++)` of `evolve` for the quadruple at `i`: mutate and
evaluate offspring `i * 2 + j`, copy parent `i + j` to slot `i * 2 + 4 + j`. -/
def mutateCopy (F : NSGA2Functions T N R) (i : Nat) (self : TinyNSGA2 T N R) (j : Nat) :
    TinyNSGA2 T N R :=
  let m := F.mutationF (self.m_mixed_population.getD (i * 2 + j) default) self.m_rng
  let pop1 := self.m_mixed_population.set (i * 2 + j) m.1
  let e := F.evaluationF (pop1.getD (i * 2 + j) default) m.2
  let ev1 := self.m_mixed_evaluations.set (i * 2 + j) e.1
  { self with
    m_mixed_population := pop1.set (i * 2 + 4 + j) (self.m_population.getD (i + j) default)
    m_mixed_evaluations := ev1.set (i * 2 + 4 + j) (evalAt self.m_evaluations (i + j))
    m_rng := e.2 }

/-- The body of the loop `for (i = 0; i < size; i += 4)` of `evolve`. -/
def quadruple (G : RandomSource R) (F : NSGA2Functions T N R) (self : TinyNSGA2 T N R)
    (i : Nat) : TinyNSGA2 T N R :=
  let s1 := crossBlock G F self self.m_shuffle1 i (i * 2 + 0)
  let s2 := crossBlock G F s1 s1.m_shuffle2 i (i * 2 + 2)
  (List.range 4).foldl (mutateCopy F i) s2

/-- The state the callback of `evolve` acts on: the three tables of the population and the
counter `i`. -/
structure Selection (T : Type) (N : Nat) where
  /-- The population being overwritten. -/
  population : List T
  /-- Its evaluations. -/
  evaluations : List (Fin N → ℚ)
  /-- Its crowding distances. -/
  crowding_distances : List XFloat
  /-- The counter `i` captured by the lambda. -/
  i : Nat

/-- The lambda handed to `get_better_half` in `evolve`. -/
def callback (mixed_population : List T) (mixed_evaluations : List (Fin N → ℚ))
    (mixed_crowding_distances : List XFloat) (idx : Nat) (s : Selection T N) :
    Selection T N :=
  { population := s.population.set s.i (mixed_population.getD idx default)
    evaluations := s.evaluations.set s.i (evalAt mixed_evaluations idx)
    crowding_distances := s.crowding_distances.set s.i (distAt mixed_crowding_distances idx)
    i := s.i + 1 }

/-- One round of the loop over `g` in `evolve`: two shuffles, the quadruples at
`i = 0, 4, 8, ..` below `size`, then `get_better_half` with the callback. -/
def generation (S : SortAlg) (G : RandomSource R) (F : NSGA2Functions T N R)
    (self : TinyNSGA2 T N R) : Option (TinyNSGA2 T N R) :=
  let sh1 := G.shuffle self.m_shuffle1 self.m_rng
  let sh2 := G.shuffle self.m_shuffle2 sh1.2
  let s0 := { self with m_shuffle1 := sh1.1, m_shuffle2 := sh2.1, m_rng := sh2.2 }
  let s1 := ((List.range ((self.m_population.length + 3) / 4)).map (· * 4)).foldl
    (quadruple G F) s0
  match get_better_half S s1.m_mixed_evaluations.length s1.m_mixed_evaluations
      s1.m_mixed_crowding_distances (callback s1.m_mixed_population s1.m_mixed_evaluations)
      { population := s1.m_population, evaluations := s1.m_evaluations,
        crowding_distances := s1.m_crowding_distances, i := 0 } with
  | none => none
  | some r =>
    some { s1 with
      m_population := r.2.population
      m_evaluations := r.2.evaluations
      m_crowding_distances := r.2.crowding_distances
      m_mixed_crowding_distances := r.1 }

/-- The member `TinyNSGA2::evolve(generations)`. -/
def evolve (S : SortAlg) (G : RandomSource R) (F : NSGA2Functions T N R) :
    Nat → TinyNSGA2 T N R → Option (TinyNSGA2 T N R)
  | 0, self => some self
  | g + 1, self =>
    match generation S G F self with
    | none => none
    | some s => evolve S G F g s

end TinyNSGA2

/-! ## Class `TinyNSGA2::Evolver` (`tinynsga2.h`) -/

/-- The call `std::swap(v[i], v[j])` on a vector of indices. -/
def swapAt (v : List Nat) (i j : Nat) : List Nat :=
  (v.set i (v.getD j 0)).set j (v.getD i 0)

/-- The call `std::sort(v.begin() + first, v.begin() + last, comp)`. -/
def sortRange (S : SortAlg) (comp : Nat → Nat → Bool) (v : List Nat) (first last : Nat) :
    List Nat :=
  v.take first ++ S.sort comp ((v.drop first).take (last - first)) ++ v.drop last

/-- The call `v.resize(n)`: keep the first `n` elements, fill up with value-initialised
ones. -/
def resize {α : Type} (d : α) (v : List α) (n : Nat) : List α :=
  v.take n ++ List.replicate (n - v.length) d

/-- The caller's functions of class `Evolver`, each with the state of the random source
passed through: `initF(x)` overwrites `x`, `evaluationF(x, e)` overwrites the evaluation
`e`, `crossF(p1, p2, c1, c2)` overwrites the two children, `mutationF(c)` overwrites `c`. -/
structure EvolverFunctions (T : Type) (N : Nat) (R : Type) where
  /-- The initialiser. -/
  initF : T → R → T × R
  /-- The evaluator: the candidate, then the evaluation as it is before the call. -/
  evaluationF : T → (Fin N → ℚ) → R → (Fin N → ℚ) × R
  /-- The crossover: parents, then the two children as they are before the call. -/
  crossF : T → T → T → T → R → (T × T) × R
  /-- The mutator. -/
  mutationF : T → R → T × R

/-- The data members of class `Evolver`. -/
structure Evolver (T : Type) (N : Nat) (R : Type) where
  /-- The random source. -/
  m_rng : R
  /-- The population size `P`. -/
  m_population_size : Nat
  /-- The `2P` candidate slots. -/
  m_population : List T
  /-- The evaluation of every slot. -/
  m_evaluations : List (Fin N → ℚ)
  /-- The crowding distance of every slot. -/
  m_crowding_distances : List XFloat
  /-- The index table: positions `0 .. P - 1` address the current population. -/
  m_indices : List Nat

namespace Evolver

variable {T : Type} [Inhabited T] {N : Nat} {R : Type}

/-- Inner loop `for (it2 = begin; it2 < front_end; it2++)` of `nondominated_sort` for the
candidate at position `it1`; iterators are positions in `m_indices`.  The first argument
bounds the number of rounds (`front_end - it2` is enough).  Returns the index table,
`front_end` and `dominated`. -/
def nondominated_sort_inner (m_evaluations : List (Fin N → ℚ)) (it1 : Nat) :
    Nat → List Nat → Nat → Nat → List Nat × Nat × Bool
  | 0, m_indices, _, front_end => (m_indices, front_end, false)
  | fuel + 1, m_indices, it2, front_end =>
    if it2 < front_end then
      match Evolver.dominates (evalAt m_evaluations (m_indices.getD it1 0))
          (evalAt m_evaluations (m_indices.getD it2 0)) with
      | .gt =>
        nondominated_sort_inner m_evaluations it1 fuel
          (swapAt m_indices it2 (front_end - 1)) (it2 + 1) (front_end - 1)
      | .lt => (m_indices, front_end, true)
      | .eq => nondominated_sort_inner m_evaluations it1 fuel m_indices (it2 + 1) front_end
    else (m_indices, front_end, false)

/-- Outer loop `for (it1 = begin; it1 < end; it1++)` of `nondominated_sort`; the first
argument bounds the number of rounds (`end - it1` is enough). -/
def nondominated_sort_outer (m_evaluations : List (Fin N → ℚ)) (first last : Nat) :
    Nat → List Nat → Nat → Nat → List Nat × Nat
  | 0, m_indices, _, front_end => (m_indices, front_end)
  | fuel + 1, m_indices, it1, front_end =>
    if it1 < last then
      let r := nondominated_sort_inner m_evaluations it1 (front_end - first) m_indices first
        front_end
      if r.2.2 then nondominated_sort_outer m_evaluations first last fuel r.1 (it1 + 1) r.2.1
      else
        nondominated_sort_outer m_evaluations first last fuel (swapAt r.1 it1 r.2.1) (it1 + 1)
          (r.2.1 + 1)
    else (m_indices, front_end)

/-- The member `Evolver::nondominated_sort(begin, end)`, with `first`, `last` the positions
of `begin`, `end` in `m_indices`: returns the index table after the call and the position
`front_end`. -/
def nondominated_sort (m_evaluations : List (Fin N → ℚ)) (m_indices : List Nat)
    (first last : Nat) : List Nat × Nat :=
  nondominated_sort_outer m_evaluations first last (last - first) m_indices first first

/-- The loop `for (it = begin + 1; it < end - 1; it++)` of `assign_crowding_distance` for
objective `i`. -/
def crowdingInterior (m_evaluations : List (Fin N → ℚ)) (i : Fin N) (m_indices : List Nat)
    (first last : Nat) (evaluation_factor : XFloat) (m_crowding_distances : List XFloat) :
    List XFloat :=
  (List.range' (first + 1) (last - first - 2)).foldl
    (fun cd it => cd.set (m_indices.getD it 0)
      (XFloat.add (distAt cd (m_indices.getD it 0))
        (XFloat.mul
          (XFloat.fin (evalAt m_evaluations (m_indices.getD (it + 1) 0) i
            - evalAt m_evaluations (m_indices.getD (it - 1) 0) i))
          evaluation_factor)))
    m_crowding_distances

/-- One round of the loop over the objectives in `Evolver::assign_crowding_distance` on
the pair (`m_crowding_distances`, `m_indices`).  `none` when the range is empty or leaves
the table, where `*begin` and `*(end - 1)` are outside the range. -/
def crowdingDim (S : SortAlg) (m_evaluations : List (Fin N → ℚ)) (first last : Nat)
    (st : List XFloat × List Nat) (i : Fin N) : Option (List XFloat × List Nat) :=
  if first < last ∧ last ≤ st.2.length then
    let idx := sortRange S
      (fun a b => decide (evalAt m_evaluations a i < evalAt m_evaluations b i)) st.2 first last
    let cd1 := st.1.set (idx.getD first 0) XFloat.pinf
    let cd2 := cd1.set (idx.getD (last - 1) 0) XFloat.pinf
    let evaluation_factor := XFloat.div (XFloat.fin 1)
      (XFloat.fin (evalAt m_evaluations (idx.getD (last - 1) 0) i
        - evalAt m_evaluations (idx.getD first 0) i))
    some (crowdingInterior m_evaluations i idx first last evaluation_factor cd2, idx)
  else none

/-- The first loop of `Evolver::assign_crowding_distance`: `m_crowding_distances[*it] = 0`. -/
def crowdingReset (m_crowding_distances : List XFloat) (m_indices : List Nat)
    (first last : Nat) : List XFloat :=
  (List.range' first (last - first)).foldl
    (fun cd it => cd.set (m_indices.getD it 0) (XFloat.fin 0)) m_crowding_distances

/-- The member `Evolver::assign_crowding_distance(begin, end)`: returns
`m_crowding_distances` and `m_indices` after the call. -/
def assign_crowding_distance (S : SortAlg) (m_evaluations : List (Fin N → ℚ))
    (m_crowding_distances : List XFloat) (m_indices : List Nat) (first last : Nat) :
    Option (List XFloat × List Nat) :=
  (List.finRange N).foldlM (crowdingDim S m_evaluations first last)
    (crowdingReset m_crowding_distances m_indices first last, m_indices)

/-- The member `Evolver::tournament(a, b)`: the winner and the state of the random source
after the call. -/
def tournament (G : RandomSource R) (self : Evolver T N R) (a b : Nat) : T × R :=
  let ordering := Evolver.dominates (evalAt self.m_evaluations a) (evalAt self.m_evaluations b)
  if ordering ≠ .eq then
    (if ordering = .gt then self.m_population.getD a default
      else self.m_population.getD b default, self.m_rng)
  else if XFloat.ne (distAt self.m_crowding_distances a) (distAt self.m_crowding_distances b)
  then
    (if XFloat.gt (distAt self.m_crowding_distances a) (distAt self.m_crowding_distances b)
      then self.m_population.getD a default
      else self.m_population.getD b default, self.m_rng)
  else
    let p := G.uniform01 self.m_rng
    (if p.1 < 1 / 2 then self.m_population.getD a default
      else self.m_population.getD b default, p.2)

/-- The body of the loop `for (i = 0; i < population_size; i++)` of `init`. -/
def initOne (F : EvolverFunctions T N R) (self : Evolver T N R) (i : Nat) : Evolver T N R :=
  let k := self.m_indices.getD i 0
  let x := F.initF (self.m_population.getD k default) self.m_rng
  let pop := self.m_population.set k x.1
  let e := F.evaluationF (pop.getD k default) (evalAt self.m_evaluations k) x.2
  { self with m_population := pop, m_evaluations := self.m_evaluations.set k e.1, m_rng := e.2 }

/-- The loop `while (it < begin + population_size)` of `init`: extract a front of the
range up to position `population_size`, assign its distances. -/
def initFronts (S : SortAlg) : Nat → Evolver T N R → Nat → Option (Evolver T N R)
  | 0, self, it => if it < self.m_population_size then none else some self
  | fuel + 1, self, it =>
    if it < self.m_population_size then
      let r := nondominated_sort self.m_evaluations self.m_indices it self.m_population_size
      match assign_crowding_distance S self.m_evaluations self.m_crowding_distances r.1 it r.2
      with
      | none => none
      | some c =>
        initFronts S fuel { self with m_crowding_distances := c.1, m_indices := c.2 } r.2
    else some self

/-- The member `Evolver::init(population_size)`. -/
def init (S : SortAlg) (F : EvolverFunctions T N R) (self : Evolver T N R)
    (population_size : Nat) : Option (Evolver T N R) :=
  let s0 : Evolver T N R :=
    { m_rng := self.m_rng
      m_population_size := population_size
      m_population := resize default self.m_population (population_size * 2)
      m_evaluations := resize (fun _ => 0) self.m_evaluations (population_size * 2)
      m_crowding_distances := resize (XFloat.fin 0) self.m_crowding_distances
        (population_size * 2)
      m_indices := List.range (population_size * 2) }
  let s1 := (List.range population_size).foldl (initOne F) s0
  initFronts S population_size s1 0

/-- One call of `m_crossF` in `evolve`, for round `p` and quadruple `i`: parents by two
tournaments (the first argument first), children in the slots addressed by positions
`population_size + i * 4 + p * 2 + 0` and `+ 1`. -/
def crossOne (G : RandomSource R) (F : EvolverFunctions T N R) (p : Nat)
    (self : Evolver T N R) (i : Nat) : Evolver T N R :=
  let t1 := tournament G self (self.m_indices.getD (i * 4 + 0) 0)
    (self.m_indices.getD (i * 4 + 1) 0)
  let s1 := { self with m_rng := t1.2 }
  let t2 := tournament G s1 (self.m_indices.getD (i * 4 + 2) 0)
    (self.m_indices.getD (i * 4 + 3) 0)
  let c0 := self.m_indices.getD (self.m_population_size + i * 4 + p * 2 + 0) 0
  let c1 := self.m_indices.getD (self.m_population_size + i * 4 + p * 2 + 1) 0
  let r := F.crossF t1.1 t2.1 (self.m_population.getD c0 default)
    (self.m_population.getD c1 default) t2.2
  { self with m_population := (self.m_population.set c0 r.1.1).set c1 r.1.2, m_rng := r.2 }

/-- The body of the loop `for (p = 0; p < 2; p++)` of `evolve`: shuffle the positions of
the current population, cross the quadruples, clone the candidates left over. -/
def offspringRound (G : RandomSource R) (F : EvolverFunctions T N R) (self : Evolver T N R)
    (p : Nat) : Evolver T N R :=
  let sh := G.shuffle (self.m_indices.take self.m_population_size) self.m_rng
  let s0 := { self with
    m_indices := sh.1 ++ self.m_indices.drop self.m_population_size, m_rng := sh.2 }
  let s1 := (List.range (s0.m_population_size / 4)).foldl (crossOne G F p) s0
  (List.range' (s1.m_population_size / 4 * 4)
      (s1.m_population_size - s1.m_population_size / 4 * 4)).foldl
    (fun (s : Evolver T N R) i =>
      { s with
        m_population :=
          s.m_population.set (s.m_indices.getD (s.m_population_size + i) 0)
            (s.m_population.getD (s.m_indices.getD i 0) default) })
    s1

/-- The body of the loop "mutate and evaluate new children" of `evolve`. -/
def mutateOne (F : EvolverFunctions T N R) (self : Evolver T N R) (i : Nat) : Evolver T N R :=
  let k := self.m_indices.getD (self.m_population_size + i) 0
  let m := F.mutationF (self.m_population.getD k default) self.m_rng
  let pop := self.m_population.set k m.1
  let e := F.evaluationF (pop.getD k default) (evalAt self.m_evaluations k) m.2
  { self with m_population := pop, m_evaluations := self.m_evaluations.set k e.1, m_rng := e.2 }

/-- The body of the selection loop `while (it < begin + m_population_size)` of `evolve`:
extract a front of the rest of the index table, assign its distances, sort it by
descending distance when it goes beyond position `m_population_size`.  Returns the state
and the new `it`. -/
def selectStep (S : SortAlg) (self : Evolver T N R) (it : Nat) : Option (Evolver T N R × Nat) :=
  let r := nondominated_sort self.m_evaluations self.m_indices it self.m_indices.length
  match assign_crowding_distance S self.m_evaluations self.m_crowding_distances r.1 it r.2 with
  | none => none
  | some c =>
    let idx :=
      if r.2 > self.m_population_size then
        sortRange S (fun a b => XFloat.gt (distAt c.1 a) (distAt c.1 b)) c.2 it r.2
      else c.2
    some ({ self with m_crowding_distances := c.1, m_indices := idx }, r.2)

/-- The selection loop of `evolve`. -/
def select (S : SortAlg) : Nat → Evolver T N R → Nat → Option (Evolver T N R)
  | 0, self, it => if it < self.m_population_size then none else some self
  | fuel + 1, self, it =>
    if it < self.m_population_size then
      match selectStep S self it with
      | none => none
      | some r => select S fuel r.1 r.2
    else some self

/-- One round of the loop over `g` in `Evolver::evolve`. -/
def generation (S : SortAlg) (G : RandomSource R) (F : EvolverFunctions T N R)
    (self : Evolver T N R) : Option (Evolver T N R) :=
  let s1 := (List.range 2).foldl (offspringRound G F) self
  let s2 := (List.range s1.m_population_size).foldl (mutateOne F) s1
  select S s2.m_population_size s2 0

/-- The member `Evolver::evolve(generations)`. -/
def evolve (S : SortAlg) (G : RandomSource R) (F : EvolverFunctions T N R) :
    Nat → Evolver T N R → Option (Evolver T N R)
  | 0, self => some self
  | g + 1, self =>
    match generation S G F self with
    | none => none
    | some s => evolve S G F g s

end Evolver

/-! ## Inputs used to instantiate the theorems -/

/-- Evaluation table of three candidates with two objectives, used to instantiate the
theorems: candidate `2` dominates candidates `0` and `1`, which do not dominate each other. -/
def exampleTable : List (Fin 2 → ℤ) := [![1, 3], ![3, 1], ![0, 0]]

/-- The same table with rational scores. -/
def exampleTableQ : List (Fin 2 → ℚ) := [![1, 3], ![3, 1], ![0, 0]]

/-- An evolver over `exampleTableQ` with population size `2` whose index table is
`[0, 1, 2]`; candidates and random source carry no information. -/
def exampleEvolver : Evolver Unit 2 Unit :=
  { m_rng := ()
    m_population_size := 2
    m_population := []
    m_evaluations := exampleTableQ
    m_crowding_distances := [XFloat.fin 0, XFloat.fin 0, XFloat.fin 0]
    m_indices := [0, 1, 2] }

/-- The state of `exampleEvolver` after one round of the selection loop. -/
def exampleEvolver1 : Evolver Unit 2 Unit :=
  { exampleEvolver with
    m_crowding_distances := [XFloat.fin 0, XFloat.pinf, XFloat.pinf]
    m_indices := [2, 1, 0] }

/-- The state of `exampleEvolver` after two rounds of the selection loop. -/
def exampleEvolver2 : Evolver Unit 2 Unit :=
  { exampleEvolver with
    m_crowding_distances := [XFloat.pinf, XFloat.pinf, XFloat.pinf]
    m_indices := [2, 1, 0] }

/-- Three candidates with one objective on which all are tied. -/
def tieTable : List (Fin 1 → ℚ) := [![5], ![5], ![5]]

/-- Three mutually non-dominated candidates with four objectives; all are tied on the last
objective. -/
def tieLastTable : List (Fin 4 → ℚ) := [![1, 2, 2, 0], ![2, 1, 3, 0], ![3, 3, 1, 0]]

/-- A random source without state: every sample is `0`, a shuffle changes nothing. -/
def constRandom : RandomSource Unit where
  uniform01 _ := (0, ())
  shuffle l _ := (l, ())
  shuffle_perm l _ := List.Perm.refl l

/-- A tournament object over two candidates `10` and `20` with equal evaluations; the
distance of the first is `1`, the distance of the second is `NaN`. -/
def nanTournament : Tournament Nat 1 Unit :=
  { m_population := [10, 20]
    m_evaluations := [![0], ![0]]
    m_crowding_distances := [XFloat.fin 1, XFloat.nan]
    m_rng := () }

/-- The evolver with the tables of `nanTournament`. -/
def nanEvolver : Evolver Nat 1 Unit :=
  { m_rng := ()
    m_population_size := 1
    m_population := [10, 20]
    m_evaluations := [![0], ![0]]
    m_crowding_distances := [XFloat.fin 1, XFloat.nan]
    m_indices := [0, 1] }

/-- A tournament object over two candidates with distances `1` and `2`, the first dominated
by nobody. -/
def exampleTournament : Tournament Nat 2 Unit :=
  { m_population := [10, 20, 30]
    m_evaluations := exampleTableQ
    m_crowding_distances := [XFloat.fin 1, XFloat.fin 2, XFloat.pinf]
    m_rng := () }

/-- An evolver with the tables of `exampleTournament`. -/
def exampleTournamentEvolver : Evolver Nat 2 Unit :=
  { m_rng := ()
    m_population_size := 1
    m_population := [10, 20, 30]
    m_evaluations := exampleTableQ
    m_crowding_distances := [XFloat.fin 1, XFloat.fin 2, XFloat.pinf]
    m_indices := [0, 1, 2] }

/-- Functions for class `Evolver` on rational candidates: the initialiser numbers the
candidates with the state of the source, the single objective is the candidate itself. -/
def exampleEvolverFunctions : EvolverFunctions ℚ 1 Nat :=
  { initF := fun _ r => ((r : ℚ), r + 1)
    evaluationF := fun x _ r => (![x], r)
    crossF := fun a b _ _ r => ((a, b), r)
    mutationF := fun c r => (c, r) }

/-- An evolver before `init`: all tables empty. -/
def emptyEvolver : Evolver ℚ 1 Nat :=
  { m_rng := 0
    m_population_size := 0
    m_population := []
    m_evaluations := []
    m_crowding_distances := []
    m_indices := [] }

/-- Operators for class `TinyNSGA2` on rational candidates with the single objective `x`. -/
def exampleFunctions1 : NSGA2Functions ℚ 1 Nat :=
  { evaluationF := fun x r => (![x], r)
    crossF := fun a b _ _ r => ((a, b), r)
    mutationF := fun c r => (c, r) }

/-- A pool of eight candidates (`P = 4`) with two objectives; the candidates `0`, `1`, `4`
and `6` are the ones no other candidate dominates. -/
def elitismPool : List (Fin 2 → ℚ) :=
  [![0, 7], ![6, 0], ![3, 5], ![2, 6], ![1, 3], ![5, 4], ![4, 2], ![7, 1]]

/-- An evolver of population size `4` on `elitismPool` just before the selection loop of
`evolve`, with the index table `0 .. 7`. -/
def elitismEvolver : Evolver Unit 2 Unit :=
  { m_rng := ()
    m_population_size := 4
    m_population := List.replicate 8 ()
    m_evaluations := elitismPool
    m_crowding_distances := List.replicate 8 (XFloat.fin 0)
    m_indices := List.range 8 }

/-- A pool of eight candidates (`P = 4`) with two objectives: the candidates `0 .. 4` are
mutually non-dominated with pairwise distinct values, the others are dominated. -/
def overflowPool : List (Fin 2 → ℚ) :=
  [![0, 10], ![1, 9], ![3, 7], ![6, 4], ![10, 0], ![11, 11], ![12, 12], ![13, 13]]

/-- An evolver of population size `4` on `overflowPool` just before the selection loop of
`evolve`, with the index table `0 .. 7`. -/
def overflowEvolver : Evolver Unit 2 Unit :=
  { m_rng := ()
    m_population_size := 4
    m_population := List.replicate 8 ()
    m_evaluations := overflowPool
    m_crowding_distances := List.replicate 8 (XFloat.fin 0)
    m_indices := List.range 8 }

/-! ## Predicates used in the proofs -/

section Predicates

variable {V : Type} [LinearOrder V] [Inhabited V] {N : Nat}

/-- Invariant of the outer loop of `get_front`: no member of `front` dominates another one, and
every member of the remainder is dominated by a member of `front`. -/
def FrontInv (ev : List (Fin N → V)) (front rem : List Nat) : Prop :=
  (∀ f ∈ front, ∀ g ∈ front, ¬ Dom ev f g) ∧ ∀ r ∈ rem, ∃ f ∈ front, Dom ev f r

end Predicates

/-- What the inner loop of `Evolver::nondominated_sort` does for the candidate `x` on the
positions `it2 .. fe - 1` of the index table `idx`; `r` is its result. -/
structure InnerSpec {N : Nat} (ev : List (Fin N → ℚ)) (x : Nat) (idx : List Nat) (it2 fe : Nat)
    (r : List Nat × Nat × Bool) : Prop where
  len : r.1.length = idx.length
  lo : it2 ≤ r.2.1
  hi : r.2.1 ≤ fe
  out : ∀ p, p < it2 ∨ fe ≤ p → r.1.getD p 0 = idx.getD p 0
  evicted : ∀ p, r.2.1 ≤ p → p < fe → Dom ev x (r.1.getD p 0)
  fwd : ∀ p, it2 ≤ p → p < fe → ∃ q, it2 ≤ q ∧ q < fe ∧ r.1.getD q 0 = idx.getD p 0
  bwd : ∀ q, it2 ≤ q → q < fe → ∃ p, it2 ≤ p ∧ p < fe ∧ r.1.getD q 0 = idx.getD p 0
  dom : r.2.2 = true → ∃ q, it2 ≤ q ∧ q < r.2.1 ∧ Dom ev (r.1.getD q 0) x
  perm : r.1.Perm idx

/-- Invariant of the outer loop of `Evolver::nondominated_sort` on the positions
`first .. it1 - 1` of the index table `idx`, started on the table `idx0`: the front is
`first .. fe - 1`, and every position behind it holds an index dominated by a member of the
front. -/
structure OuterInv {N : Nat} (ev : List (Fin N → ℚ)) (idx0 : List Nat) (first : Nat)
    (idx : List Nat) (it1 fe : Nat) : Prop where
  len : idx.length = idx0.length
  lo : first ≤ fe
  hi : fe ≤ it1
  nonempty : first < it1 → first < fe
  out : ∀ p, p < first ∨ it1 ≤ p → idx.getD p 0 = idx0.getD p 0
  rem : ∀ p, fe ≤ p → p < it1 →
    ∃ q, first ≤ q ∧ q < fe ∧ Dom ev (idx.getD q 0) (idx.getD p 0)
  bwd : ∀ q, first ≤ q → q < it1 → ∃ p, first ≤ p ∧ p < it1 ∧ idx.getD q 0 = idx0.getD p 0
  perm : idx.Perm idx0

/-- Two index tables that differ by a rearrangement of the positions `first .. last - 1`. -/
structure RangeEquiv (first last : Nat) (v w : List Nat) : Prop where
  len : w.length = v.length
  out : ∀ p, p < first ∨ last ≤ p → w.getD p 0 = v.getD p 0
  fwd : ∀ p, first ≤ p → p < last → ∃ q, first ≤ q ∧ q < last ∧ w.getD q 0 = v.getD p 0
  bwd : ∀ q, first ≤ q → q < last → ∃ p, first ≤ p ∧ p < last ∧ w.getD q 0 = v.getD p 0
  perm : w.Perm v

section CrowdingPredicates

variable {N : Nat}

/-- A run of updates `cd[g j] += c j` over the positions `js`, the shape of the interior
loops of both `assign_crowding_distance`. -/
def interiorRun (g : Nat → Nat) (c : Nat → XFloat) (js : List Nat) (cd : List XFloat) :
    List XFloat :=
  js.foldl (fun cd j => cd.set (g j) (XFloat.add (distAt cd (g j)) (c j))) cd

/-- The working copy `idxs` after `std::sort` by objective `i`. -/
def sortDim {N : Nat} (S : SortAlg) (ev : List (Fin N → ℚ)) (i : Fin N) (idxs : List Nat) :
    List Nat :=
  S.sort (fun a b => decide (evalAt ev a i < evalAt ev b i)) idxs

/-- The range of objective `i` across `idxs` is zero: all members have the same value. -/
def ZeroRange (ev : List (Fin N → ℚ)) (i : Fin N) (idxs : List Nat) : Prop :=
  ∀ a ∈ idxs, ∀ b ∈ idxs, evalAt ev a i = evalAt ev b i

/-- The table after one round of `assign_crowding_distance` for objective `i`, written with
`interiorRun`. -/
def crowdingDimTable (S : SortAlg) (ev : List (Fin N → ℚ)) (i : Fin N) (cd : List XFloat)
    (idxs : List Nat) : List XFloat :=
  interiorRun (fun j => (sortDim S ev i idxs).getD j 0)
    (fun j => XFloat.mul
      (XFloat.fin (evalAt ev ((sortDim S ev i idxs).getD (j + 1) 0) i
        - evalAt ev ((sortDim S ev i idxs).getD (j - 1) 0) i))
      (XFloat.div (XFloat.fin 1)
        (XFloat.fin (evalAt ev
            ((sortDim S ev i idxs).getD ((sortDim S ev i idxs).length - 1) 0) i
          - evalAt ev ((sortDim S ev i idxs).getD 0 0) i))))
    (List.range' 1 ((sortDim S ev i idxs).length - 2))
    ((cd.set ((sortDim S ev i idxs).getD 0 0) XFloat.pinf).set
      ((sortDim S ev i idxs).getD ((sortDim S ev i idxs).length - 1) 0) XFloat.pinf)

/-- A distance that is `+∞` or `NaN`. -/
def InfOrNaN (x : XFloat) : Prop := x = XFloat.pinf ∨ x = XFloat.nan

end CrowdingPredicates

/-- The calls `get_better_half` makes to its callback from a given state of its loop, each
with the table of distances at the moment of the call, together with the table after the
loop; the loop of `get_better_half` without the callback. -/
def get_better_half_calls {N : Nat} (S : SortAlg) (mixed_evaluations : List (Fin N → ℚ)) :
    Nat → List Nat → List XFloat → Nat → Option (List XFloat × List (List XFloat × Nat))
  | 0, _, cd, newpop_idx =>
    if newpop_idx < mixed_evaluations.length / 2 then none else some (cd, [])
  | fuel + 1, orig, cd, newpop_idx =>
    if newpop_idx < mixed_evaluations.length / 2 then
      match assign_crowding_distance S mixed_evaluations cd
          (get_front mixed_evaluations orig).1 with
      | none => none
      | some cd1 =>
        (get_better_half_calls S mixed_evaluations fuel (get_front mixed_evaluations orig).2 cd1
          (newpop_idx +
            ((if newpop_idx + (get_front mixed_evaluations orig).1.length >
                  mixed_evaluations.length / 2 then
                S.sort (fun a b => XFloat.gt (distAt cd1 a) (distAt cd1 b))
                  (get_front mixed_evaluations orig).1
              else (get_front mixed_evaluations orig).1).take
              (mixed_evaluations.length / 2 - newpop_idx)).length)).map
          (fun q => (q.1,
            ((if newpop_idx + (get_front mixed_evaluations orig).1.length >
                  mixed_evaluations.length / 2 then
                S.sort (fun a b => XFloat.gt (distAt cd1 a) (distAt cd1 b))
                  (get_front mixed_evaluations orig).1
              else (get_front mixed_evaluations orig).1).take
              (mixed_evaluations.length / 2 - newpop_idx)).map (fun i => (cd1, i)) ++ q.2))
    else some (cd, [])

/-- The tables of an evolver have the sizes `init` gives them for population size `P`, and
the index table is a permutation of `0 .. 2P - 1`. -/
structure EvolverSized {T : Type} {N : Nat} {R : Type} (e : Evolver T N R) (P : Nat) :
    Prop where
  population_size : e.m_population_size = P
  population : e.m_population.length = 2 * P
  evaluations : e.m_evaluations.length = 2 * P
  crowding_distances : e.m_crowding_distances.length = 2 * P
  indices : e.m_indices.Perm (List.range (2 * P))

section NSGA2Predicates

variable {T : Type} {N : Nat} {R : Type}

end NSGA2Predicates

section Dominance

variable {V : Type} [LinearOrder V] {N : Nat}

theorem dominatesStep_foldl_fst (a b : Fin N → V) (l : List (Fin N)) (s : Bool × Bool) :
    (l.foldl (dominatesStep a b) s).1 = (s.1 || l.any fun i => decide (a i < b i)) := by
  induction l generalizing s with
  | nil => simp
  | cons x xs ih => simp [List.foldl_cons, ih, dominatesStep, Bool.or_assoc]

theorem dominatesStep_foldl_snd (a b : Fin N → V) (l : List (Fin N)) (s : Bool × Bool) :
    (l.foldl (dominatesStep a b) s).2 = (s.2 || l.any fun i => decide (a i > b i)) := by
  induction l generalizing s with
  | nil => simp
  | cons x xs ih => simp [List.foldl_cons, ih, dominatesStep, Bool.or_assoc]

theorem adbFlag_iff (a b : Fin N → V) : adbFlag a b = true ↔ ∃ i, a i < b i := by
  simp [adbFlag, List.any_eq_true]

theorem adbFlag_false_iff (a b : Fin N → V) : adbFlag a b = false ↔ ∀ i, b i ≤ a i := by
  rw [← Bool.not_eq_true, adbFlag_iff]
  simp

theorem dominates_eq_compare (a b : Fin N → V) :
    dominates a b = compare (adbFlag a b) (adbFlag b a) := by
  simp only [dominates, dominatesStep_foldl_fst, dominatesStep_foldl_snd, adbFlag,
    Bool.false_or, gt_iff_lt]

theorem evolver_dominates_eq (a b : Fin N → V) : Evolver.dominates a b = dominates a b := rfl

theorem dominates_gt_iff (a b : Fin N → V) : dominates a b = .gt ↔ ParetoDom a b := by
  rw [dominates_eq_compare, ParetoDom, ← adbFlag_iff, ← adbFlag_false_iff]
  cases adbFlag a b <;> cases adbFlag b a <;> decide

theorem dominates_lt_iff (a b : Fin N → V) : dominates a b = .lt ↔ ParetoDom b a := by
  rw [dominates_eq_compare, ParetoDom, ← adbFlag_iff, ← adbFlag_false_iff]
  cases adbFlag a b <;> cases adbFlag b a <;> decide

theorem dominates_eq_iff (a b : Fin N → V) :
    dominates a b = .eq ↔ a = b ∨ ((∃ i, a i < b i) ∧ ∃ i, b i < a i) := by
  rw [dominates_eq_compare, ← adbFlag_iff, ← adbFlag_iff]
  have h : a = b ↔ adbFlag a b = false ∧ adbFlag b a = false := by
    rw [adbFlag_false_iff, adbFlag_false_iff]
    constructor
    · rintro rfl
      exact ⟨fun _ => le_rfl, fun _ => le_rfl⟩
    · rintro ⟨h1, h2⟩
      funext i
      exact le_antisymm (h2 i) (h1 i)
  rw [h]
  cases adbFlag a b <;> cases adbFlag b a <;> decide

end Dominance

/-! ## Lemmas on list based front extraction -/

section GetFront

variable {V : Type} [LinearOrder V] [Inhabited V] {N : Nat}

omit [Inhabited V] in
theorem ParetoDom.trans' {a b c : Fin N → V} (h1 : ParetoDom a b) (h2 : ParetoDom b c) :
    ParetoDom a c := by
  obtain ⟨i, hi⟩ := h1.2
  exact ⟨fun j => le_trans (h1.1 j) (h2.1 j), i, lt_of_lt_of_le hi (h2.1 i)⟩

omit [Inhabited V] in
theorem ParetoDom.irrefl' (a : Fin N → V) : ¬ ParetoDom a a := by
  rintro ⟨_, i, hi⟩
  exact lt_irrefl _ hi

theorem Dom_iff (ev : List (Fin N → V)) (i j : Nat) :
    Dom ev i j ↔ ParetoDom (evalAt ev i) (evalAt ev j) := dominates_gt_iff _ _

theorem Dom_trans {ev : List (Fin N → V)} {i j k : Nat} (h1 : Dom ev i j) (h2 : Dom ev j k) :
    Dom ev i k := by
  rw [Dom_iff] at *
  exact h1.trans' h2

theorem Dom_irrefl (ev : List (Fin N → V)) (i : Nat) : ¬ Dom ev i i := by
  rw [Dom_iff]
  exact ParetoDom.irrefl' _

theorem dominates_lt_iff_Dom (ev : List (Fin N → V)) (x f : Nat) :
    dominates (evalAt ev x) (evalAt ev f) = .lt ↔ Dom ev f x := by
  rw [Dom_iff, dominates_lt_iff]

theorem dominates_eq_of_not_Dom {ev : List (Fin N → V)} {x f : Nat}
    (h1 : ¬ Dom ev x f) (h2 : ¬ Dom ev f x) :
    dominates (evalAt ev x) (evalAt ev f) = .eq := by
  rw [← dominates_lt_iff_Dom] at h2
  unfold Dom at h1
  cases h : dominates (evalAt ev x) (evalAt ev f) <;> simp_all

theorem get_front_inner_spec (ev : List (Fin N → V)) (x : Nat) (fr pushed : List Nat) :
    ∃ evicted, (get_front_inner ev x fr pushed).2.1 = evicted ++ pushed ∧
      ((get_front_inner ev x fr pushed).1 ++ evicted).Perm fr ∧
      (∀ e ∈ evicted, Dom ev x e) ∧
      ((get_front_inner ev x fr pushed).2.2 = true →
        ∃ f ∈ (get_front_inner ev x fr pushed).1, Dom ev f x) ∧
      ((get_front_inner ev x fr pushed).2.2 = false →
        ∀ f ∈ (get_front_inner ev x fr pushed).1,
          dominates (evalAt ev x) (evalAt ev f) = .eq) := by
  induction fr generalizing pushed with
  | nil => exact ⟨[], by simp [get_front_inner]⟩
  | cons f rest ih =>
    cases h : dominates (evalAt ev x) (evalAt ev f) with
    | gt =>
      obtain ⟨evicted, h1, h2, h3, h4, h5⟩ := ih (f :: pushed)
      refine ⟨evicted ++ [f], ?_, ?_, ?_, ?_, ?_⟩
      · simp [get_front_inner, h, h1]
      · simp only [get_front_inner, h]
        rw [← List.append_assoc]
        exact (List.perm_append_comm.trans (List.Perm.cons f h2))
      · intro e he
        rcases List.mem_append.1 he with he | he
        · exact h3 e he
        · simp at he; subst he; exact h
      · simpa only [get_front_inner, h] using h4
      · simpa only [get_front_inner, h] using h5
    | lt =>
      refine ⟨[], ?_, ?_, ?_, ?_, ?_⟩
      · simp [get_front_inner, h]
      · simp [get_front_inner, h]
      · simp
      · intro _
        exact ⟨f, by simp [get_front_inner, h], (dominates_lt_iff_Dom ev x f).1 h⟩
      · simp [get_front_inner, h]
    | eq =>
      obtain ⟨evicted, h1, h2, h3, h4, h5⟩ := ih pushed
      refine ⟨evicted, ?_, ?_, h3, ?_, ?_⟩
      · simpa only [get_front_inner, h] using h1
      · simp only [get_front_inner, h, List.cons_append]
        exact List.Perm.cons f h2
      · simp only [get_front_inner, h]
        intro hd
        obtain ⟨g, hg, hgx⟩ := h4 hd
        exact ⟨g, List.mem_cons_of_mem _ hg, hgx⟩
      · simp only [get_front_inner, h]
        intro hd g hg
        rcases List.mem_cons.1 hg with rfl | hg
        · exact h
        · exact h5 hd g hg

end GetFront

section GetFront

variable {V : Type} [LinearOrder V] [Inhabited V] {N : Nat}

theorem get_front_outer_spec (ev : List (Fin N → V)) (todo front pushed kept : List Nat)
    (h : FrontInv ev front (pushed ++ kept)) :
    FrontInv ev (get_front_outer ev todo front pushed kept).1
        (get_front_outer ev todo front pushed kept).2 ∧
      ((get_front_outer ev todo front pushed kept).1 ++
        (get_front_outer ev todo front pushed kept).2).Perm
        (todo ++ (front ++ (pushed ++ kept))) := by
  induction todo generalizing front pushed kept with
  | nil => exact ⟨by simpa [get_front_outer] using h, by simp [get_front_outer]⟩
  | cons x todo ih =>
    obtain ⟨evicted, h1, h2, h3, h4, h5⟩ := get_front_inner_spec ev x front pushed
    have hsub : ∀ g, g ∈ (get_front_inner ev x front pushed).1 → g ∈ front := fun g hg =>
      h2.subset (List.mem_append_left _ hg)
    have hsplit : ∀ g, g ∈ front → g ∈ (get_front_inner ev x front pushed).1 ∨ g ∈ evicted :=
      fun g hg => List.mem_append.1 (h2.symm.subset hg)
    cases hd : (get_front_inner ev x front pushed).2.2 with
    | true =>
      obtain ⟨f0, hf0, hf0x⟩ := h4 hd
      have hinv : FrontInv ev (get_front_inner ev x front pushed).1
          ((get_front_inner ev x front pushed).2.1 ++ (kept ++ [x])) := by
        refine ⟨fun f hf g hg => h.1 f (hsub f hf) g (hsub g hg), ?_⟩
        intro r hr
        rw [h1] at hr
        have hcase : r ∈ evicted ∨ r ∈ pushed ++ kept ∨ r = x := by
          simp only [List.mem_append, List.mem_singleton] at hr ⊢
          tauto
        rcases hcase with hr | hr | hr
        · exact ⟨f0, hf0, Dom_trans hf0x (h3 r hr)⟩
        · obtain ⟨g, hg, hgr⟩ := h.2 r hr
          rcases hsplit g hg with hg | hg
          · exact ⟨g, hg, hgr⟩
          · exact ⟨f0, hf0, Dom_trans hf0x (Dom_trans (h3 g hg) hgr)⟩
        · subst hr
          exact ⟨f0, hf0, hf0x⟩
      obtain ⟨ih1, ih2⟩ := ih _ _ _ hinv
      simp only [get_front_outer, hd, if_true]
      refine ⟨ih1, ih2.trans ?_⟩
      rw [h1]
      have hp : ((get_front_inner ev x front pushed).1 ++ (evicted ++ pushed ++ (kept ++ [x]))).Perm
          (x :: (front ++ (pushed ++ kept))) := by
        have e1 : (get_front_inner ev x front pushed).1 ++ (evicted ++ pushed ++ (kept ++ [x]))
            = (((get_front_inner ev x front pushed).1 ++ evicted) ++ (pushed ++ kept)) ++ [x] := by
          simp
        rw [e1]
        exact (List.perm_append_comm).trans
          (List.Perm.cons x (List.Perm.append_right _ h2))
      simpa using (List.Perm.append_left todo hp).trans List.perm_middle
    | false =>
      have hinv : FrontInv ev (x :: (get_front_inner ev x front pushed).1)
          ((get_front_inner ev x front pushed).2.1 ++ kept) := by
        refine ⟨?_, ?_⟩
        · intro f hf g hg
          rcases List.mem_cons.1 hf with rfl | hf <;> rcases List.mem_cons.1 hg with rfl | hg
          · exact Dom_irrefl ev _
          · intro hdom
            have := h5 hd g hg
            unfold Dom at hdom
            rw [hdom] at this
            cases this
          · intro hdom
            have := h5 hd f hf
            rw [← dominates_lt_iff_Dom] at hdom
            rw [hdom] at this
            cases this
          · exact h.1 f (hsub f hf) g (hsub g hg)
        · intro r hr
          rw [h1] at hr
          have hcase : r ∈ evicted ∨ r ∈ pushed ++ kept := by
            simp only [List.mem_append] at hr ⊢
            tauto
          rcases hcase with hr | hr
          · exact ⟨x, List.mem_cons_self _ _, h3 r hr⟩
          · obtain ⟨g, hg, hgr⟩ := h.2 r hr
            rcases hsplit g hg with hg | hg
            · exact ⟨g, List.mem_cons_of_mem _ hg, hgr⟩
            · exact ⟨x, List.mem_cons_self _ _, Dom_trans (h3 g hg) hgr⟩
      obtain ⟨ih1, ih2⟩ := ih _ _ _ hinv
      simp only [get_front_outer, hd]
      refine ⟨ih1, ih2.trans ?_⟩
      rw [h1]
      have hp : (x :: (get_front_inner ev x front pushed).1 ++ (evicted ++ pushed ++ kept)).Perm
          (x :: (front ++ (pushed ++ kept))) := by
        have e1 : x :: (get_front_inner ev x front pushed).1 ++ (evicted ++ pushed ++ kept)
            = x :: ((((get_front_inner ev x front pushed).1 ++ evicted) ++ (pushed ++ kept))) := by
          simp
        rw [e1]
        exact List.Perm.cons x (List.Perm.append_right _ h2)
      simpa using (List.Perm.append_left todo hp).trans List.perm_middle

theorem get_front_inv (ev : List (Fin N → V)) (orig : List Nat) :
    FrontInv ev (get_front ev orig).1 (get_front ev orig).2 :=
  (get_front_outer_spec ev orig [] [] [] ⟨by simp, by simp⟩).1

theorem get_front_perm (ev : List (Fin N → V)) (orig : List Nat) :
    ((get_front ev orig).1 ++ (get_front ev orig).2).Perm orig := by
  simpa using (get_front_outer_spec ev orig [] [] [] ⟨by simp, by simp⟩).2

theorem get_front_ne_nil (ev : List (Fin N → V)) (orig : List Nat) (h : orig ≠ []) :
    (get_front ev orig).1 ≠ [] := by
  intro hnil
  have hinv := get_front_inv ev orig
  have hperm := get_front_perm ev orig
  rw [hnil] at hinv hperm
  have h2 : (get_front ev orig).2 = [] := by
    apply List.eq_nil_iff_forall_not_mem.2
    intro r hr
    obtain ⟨f, hf, _⟩ := hinv.2 r hr
    simp at hf
  rw [h2] at hperm
  exact h (List.Perm.eq_nil hperm.symm)

theorem get_front_length (ev : List (Fin N → V)) (orig : List Nat) :
    (get_front ev orig).1.length + (get_front ev orig).2.length = orig.length := by
  simpa using (get_front_perm ev orig).length_eq

theorem get_fronts_spec (ev : List (Fin N → V)) (fuel : Nat) (orig : List Nat)
    (h : orig.length ≤ fuel) :
    ∃ fronts, get_fronts ev fuel orig = some fronts ∧ fronts.flatten.Perm orig ∧
      ∀ f ∈ fronts, f ≠ [] := by
  induction fuel generalizing orig with
  | zero =>
    have : orig = [] := List.length_eq_zero.1 (Nat.le_zero.1 h)
    subst this
    exact ⟨[], by simp [get_fronts]⟩
  | succ fuel ih =>
    cases orig with
    | nil => exact ⟨[], by simp [get_fronts]⟩
    | cons x xs =>
      have hne := get_front_ne_nil ev (x :: xs) (by simp)
      have hlen := get_front_length ev (x :: xs)
      have hpos : 0 < (get_front ev (x :: xs)).1.length := List.length_pos.2 hne
      obtain ⟨fs, hfs, hperm, hnn⟩ := ih (get_front ev (x :: xs)).2 (by
        simp only [List.length_cons] at hlen h
        omega)
      refine ⟨(get_front ev (x :: xs)).1 :: fs, by simp [get_fronts, hfs], ?_, ?_⟩
      · simp only [List.flatten_cons]
        exact (List.Perm.append_left _ hperm).trans (get_front_perm ev (x :: xs))
      · intro f hf
        rcases List.mem_cons.1 hf with rfl | hf
        · exact hne
        · exact hnn f hf

end GetFront

/-! ## Lemmas on swap based front extraction -/

section SwapSort

theorem length_swapAt (v : List Nat) (i j : Nat) : (swapAt v i j).length = v.length := by
  simp [swapAt]

theorem getD_set_nat (v : List Nat) (i k a : Nat) (hi : i < v.length) :
    (v.set i a).getD k 0 = if k = i then a else v.getD k 0 := by
  by_cases hk : k < v.length
  · rw [List.getD_eq_getElem _ _ (by simpa using hk), List.getElem_set,
      List.getD_eq_getElem _ _ hk]
    by_cases e : i = k
    · simp [e]
    · have e' : ¬ k = i := fun h => e h.symm
      simp only [e, e', if_false]
  · have hk' : v.length ≤ k := Nat.le_of_not_lt hk
    have e : ¬ k = i := by omega
    rw [List.getD_eq_default _ _ (by simpa using hk'), List.getD_eq_default _ _ hk']
    simp only [e, if_false]

theorem getD_swapAt (v : List Nat) (i j k : Nat) (hi : i < v.length) (hj : j < v.length) :
    (swapAt v i j).getD k 0 =
      if k = j then v.getD i 0 else if k = i then v.getD j 0 else v.getD k 0 := by
  unfold swapAt
  rw [getD_set_nat _ _ _ _ (by simpa using hj), getD_set_nat _ _ _ _ hi]

theorem swapAt_self (v : List Nat) (i : Nat) : swapAt v i i = v := by
  apply List.ext_getElem
  · simp [swapAt]
  · intro n h1 h2
    simp only [swapAt, List.getElem_set]
    by_cases e : i = n
    · subst e
      simp only [if_true, List.getD_eq_getElem _ _ h2]
    · simp only [e, if_false]

theorem swapAt_perm (v : List Nat) (i j : Nat) (hi : i < v.length) (hj : j < v.length) :
    (swapAt v i j).Perm v := by
  rw [List.perm_iff_count]
  intro a
  unfold swapAt
  rw [List.getD_eq_getElem _ _ hi, List.getD_eq_getElem _ _ hj]
  have hj' : j < (v.set i v[j]).length := by simpa using hj
  rw [List.count_set _ _ _ _ hj', List.count_set _ _ _ _ hi, List.getElem_set]
  have h1 := List.boole_getElem_le_count a v i hi
  have h2 : (if i = j then v[j] else v[j]) = v[j] := by split <;> rfl
  rw [h2]
  by_cases e1 : (v[i] == a) = true <;> by_cases e2 : (v[j] == a) = true <;>
    simp only [e1, e2, if_true, if_false] at h1 ⊢ <;> omega

end SwapSort

namespace Evolver

variable {N : Nat}

theorem nondominated_sort_inner_exit (ev : List (Fin N → ℚ)) (it1 fuel : Nat) (idx : List Nat)
    (it2 fe : Nat) (h : ¬ it2 < fe) :
    nondominated_sort_inner ev it1 fuel idx it2 fe = (idx, fe, false) := by
  cases fuel <;> simp [nondominated_sort_inner, h]

theorem nondominated_sort_inner_gt (ev : List (Fin N → ℚ)) (it1 fuel : Nat) (idx : List Nat)
    (it2 fe : Nat) (h1 : it2 < fe)
    (h : dominates (evalAt ev (idx.getD it1 0)) (evalAt ev (idx.getD it2 0)) = .gt) :
    nondominated_sort_inner ev it1 (fuel + 1) idx it2 fe =
      nondominated_sort_inner ev it1 fuel (swapAt idx it2 (fe - 1)) (it2 + 1) (fe - 1) := by
  simp only [nondominated_sort_inner, h1, if_true, h]

theorem nondominated_sort_inner_lt (ev : List (Fin N → ℚ)) (it1 fuel : Nat) (idx : List Nat)
    (it2 fe : Nat) (h1 : it2 < fe)
    (h : dominates (evalAt ev (idx.getD it1 0)) (evalAt ev (idx.getD it2 0)) = .lt) :
    nondominated_sort_inner ev it1 (fuel + 1) idx it2 fe = (idx, fe, true) := by
  simp only [nondominated_sort_inner, h1, if_true, h]

theorem nondominated_sort_inner_eq (ev : List (Fin N → ℚ)) (it1 fuel : Nat) (idx : List Nat)
    (it2 fe : Nat) (h1 : it2 < fe)
    (h : dominates (evalAt ev (idx.getD it1 0)) (evalAt ev (idx.getD it2 0)) = .eq) :
    nondominated_sort_inner ev it1 (fuel + 1) idx it2 fe =
      nondominated_sort_inner ev it1 fuel idx (it2 + 1) fe := by
  simp only [nondominated_sort_inner, h1, if_true, h]

theorem innerSpec_exit (ev : List (Fin N → ℚ)) (x : Nat) (idx : List Nat) (it2 fe : Nat)
    (h : it2 = fe) : InnerSpec ev x idx it2 fe (idx, fe, false) where
  len := rfl
  lo := by show it2 ≤ fe; omega
  hi := le_rfl
  out := fun _ _ => rfl
  evicted := fun p h1 h2 => absurd h2 (by simp only at h1; omega)
  fwd := fun p h1 h2 => absurd h2 (by omega)
  bwd := fun p h1 h2 => absurd h2 (by omega)
  dom := fun h => by cases h
  perm := List.Perm.refl _

theorem nondominated_sort_inner_spec (ev : List (Fin N → ℚ)) (it1 : Nat) :
    ∀ (fuel : Nat) (idx : List Nat) (it2 fe : Nat), fe - it2 ≤ fuel → it2 ≤ fe → fe ≤ it1 →
      it1 < idx.length →
      InnerSpec ev (idx.getD it1 0) idx it2 fe (nondominated_sort_inner ev it1 fuel idx it2 fe) := by
  intro fuel
  induction fuel with
  | zero =>
    intro idx it2 fe h1 h2 _ _
    have e : it2 = fe := by omega
    rw [nondominated_sort_inner_exit ev it1 0 idx it2 fe (by omega)]
    exact innerSpec_exit ev _ idx it2 fe e
  | succ fuel ih =>
    intro idx it2 fe hfuel h2 h3 h4
    by_cases hlt : it2 < fe
    swap
    · rw [nondominated_sort_inner_exit ev it1 _ idx it2 fe hlt]
      exact innerSpec_exit ev _ idx it2 fe (by omega)
    cases h : dominates (evalAt ev (idx.getD it1 0)) (evalAt ev (idx.getD it2 0)) with
    | lt =>
      rw [nondominated_sort_inner_lt ev it1 fuel idx it2 fe hlt h]
      exact
        { len := rfl
          lo := h2
          hi := le_rfl
          out := fun _ _ => rfl
          evicted := fun p h1 h2 => absurd h2 (by simp only at h1; omega)
          fwd := fun p h1 h2 => ⟨p, h1, h2, rfl⟩
          bwd := fun p h1 h2 => ⟨p, h1, h2, rfl⟩
          dom := fun _ => ⟨it2, le_rfl, hlt, (dominates_lt_iff_Dom ev _ _).1 h⟩
          perm := List.Perm.refl _ }
    | eq =>
      rw [nondominated_sort_inner_eq ev it1 fuel idx it2 fe hlt h]
      have IH := ih idx (it2 + 1) fe (by omega) (by omega) h3 h4
      exact
        { len := IH.len
          lo := by have := IH.lo; omega
          hi := IH.hi
          out := fun p hp => IH.out p (by omega)
          evicted := IH.evicted
          fwd := fun p h1 h2 => by
            by_cases e : p = it2
            · exact ⟨it2, le_rfl, hlt, by rw [e]; exact IH.out it2 (by omega)⟩
            · obtain ⟨q, hq1, hq2, hq3⟩ := IH.fwd p (by omega) h2
              exact ⟨q, by omega, hq2, hq3⟩
          bwd := fun q h1 h2 => by
            by_cases e : q = it2
            · exact ⟨it2, le_rfl, hlt, by rw [e]; exact IH.out it2 (by omega)⟩
            · obtain ⟨p, hp1, hp2, hp3⟩ := IH.bwd q (by omega) h2
              exact ⟨p, by omega, hp2, hp3⟩
          dom := fun hd => by
            obtain ⟨q, hq1, hq2, hq3⟩ := IH.dom hd
            exact ⟨q, by omega, hq2, hq3⟩
          perm := IH.perm }
    | gt =>
      rw [nondominated_sort_inner_gt ev it1 fuel idx it2 fe hlt h]
      have hi2 : it2 < idx.length := by omega
      have hf1 : fe - 1 < idx.length := by omega
      have hsw : ∀ k, (swapAt idx it2 (fe - 1)).getD k 0 =
          if k = fe - 1 then idx.getD it2 0 else if k = it2 then idx.getD (fe - 1) 0
          else idx.getD k 0 := fun k => getD_swapAt idx it2 (fe - 1) k hi2 hf1
      have hx : (swapAt idx it2 (fe - 1)).getD it1 0 = idx.getD it1 0 := by
        rw [hsw, if_neg (by omega), if_neg (by omega)]
      by_cases hA : it2 + 1 ≤ fe - 1
      · have IH := ih (swapAt idx it2 (fe - 1)) (it2 + 1) (fe - 1) (by omega) hA (by omega)
          (by rw [length_swapAt]; exact h4)
        rw [hx] at IH
        exact
          { len := IH.len.trans (length_swapAt _ _ _)
            lo := by have := IH.lo; omega
            hi := by have := IH.hi; omega
            out := fun p hp => by
              rw [IH.out p (by omega), hsw, if_neg (by omega), if_neg (by omega)]
            evicted := fun p h1 h2 => by
              by_cases e : p < fe - 1
              · exact IH.evicted p h1 e
              · have e' : p = fe - 1 := by omega
                rw [IH.out p (by omega), hsw, if_pos e']
                exact h
            fwd := fun p h1 h2 => by
              by_cases e1 : p = it2
              · refine ⟨fe - 1, by omega, by omega, ?_⟩
                rw [IH.out (fe - 1) (by omega), hsw, if_pos rfl, e1]
              · by_cases e2 : p = fe - 1
                · refine ⟨it2, le_rfl, hlt, ?_⟩
                  rw [IH.out it2 (by omega), hsw, if_neg (by omega), if_pos rfl, e2]
                · obtain ⟨q, hq1, hq2, hq3⟩ := IH.fwd p (by omega) (by omega)
                  refine ⟨q, by omega, by omega, ?_⟩
                  rw [hq3, hsw, if_neg e2, if_neg e1]
            bwd := fun q h1 h2 => by
              by_cases e1 : q = it2
              · refine ⟨fe - 1, by omega, by omega, ?_⟩
                rw [e1, IH.out it2 (by omega), hsw, if_neg (by omega), if_pos rfl]
              · by_cases e2 : q = fe - 1
                · refine ⟨it2, le_rfl, hlt, ?_⟩
                  rw [e2, IH.out (fe - 1) (by omega), hsw, if_pos rfl]
                · obtain ⟨p, hp1, hp2, hp3⟩ := IH.bwd q (by omega) (by omega)
                  refine ⟨p, by omega, by omega, ?_⟩
                  rw [hp3, hsw, if_neg (by omega), if_neg (by omega)]
            dom := fun hd => by
              obtain ⟨q, hq1, hq2, hq3⟩ := IH.dom hd
              exact ⟨q, by omega, hq2, hq3⟩
            perm := IH.perm.trans (swapAt_perm idx it2 (fe - 1) hi2 hf1) }
      · have e : fe - 1 = it2 := by omega
        rw [nondominated_sort_inner_exit ev it1 _ _ _ _ (by omega), e, swapAt_self]
        exact
          { len := rfl
            lo := le_rfl
            hi := by show it2 ≤ fe; omega
            out := fun _ _ => rfl
            evicted := fun p h1 h2 => by
              have e' : p = it2 := by simp only at h1; omega
              rw [e']
              exact h
            fwd := fun p h1 h2 => ⟨p, h1, h2, rfl⟩
            bwd := fun p h1 h2 => ⟨p, h1, h2, rfl⟩
            dom := fun h => by cases h
            perm := List.Perm.refl _ }

end Evolver

namespace Evolver

variable {N : Nat}

theorem outerInv_step (ev : List (Fin N → ℚ)) (idx0 : List Nat) (first : Nat) (idx : List Nat)
    (it1 fe : Nat) (inv : OuterInv ev idx0 first idx it1 fe) (h : it1 < idx0.length) :
    OuterInv ev idx0 first
      (if (nondominated_sort_inner ev it1 (fe - first) idx first fe).2.2 then
        (nondominated_sort_inner ev it1 (fe - first) idx first fe).1
       else swapAt (nondominated_sort_inner ev it1 (fe - first) idx first fe).1 it1
        (nondominated_sort_inner ev it1 (fe - first) idx first fe).2.1)
      (it1 + 1)
      (if (nondominated_sort_inner ev it1 (fe - first) idx first fe).2.2 then
        (nondominated_sort_inner ev it1 (fe - first) idx first fe).2.1
       else (nondominated_sort_inner ev it1 (fe - first) idx first fe).2.1 + 1) := by
  have IS := nondominated_sort_inner_spec ev it1 (fe - first) idx first fe le_rfl inv.lo inv.hi
    (by rw [inv.len]; exact h)
  generalize nondominated_sort_inner ev it1 (fe - first) idx first fe = r at IS ⊢
  obtain ⟨idx1, fe1, d⟩ := r
  have hlo : first ≤ fe1 := IS.lo
  have hhi : fe1 ≤ fe := IS.hi
  have hfe := inv.hi
  have hx : idx1.getD it1 0 = idx.getD it1 0 := IS.out it1 (Or.inr inv.hi)
  have hlen : idx1.length = idx0.length := IS.len.trans inv.len
  -- every position up to `it1` of the new table comes from such a position of the first one
  have B : ∀ q, first ≤ q → q ≤ it1 →
      ∃ p, first ≤ p ∧ p < it1 + 1 ∧ idx1.getD q 0 = idx0.getD p 0 := by
    intro q h1 h2
    by_cases e1 : q < fe
    · obtain ⟨p, hp1, hp2, hp3⟩ := IS.bwd q h1 e1
      obtain ⟨p', hp1', hp2', hp3'⟩ := inv.bwd p hp1 (by omega)
      exact ⟨p', hp1', by omega, by rw [← hp3']; exact hp3⟩
    · by_cases e2 : q = it1
      · exact ⟨it1, by omega, by omega, by
          rw [e2]
          exact (IS.out it1 (Or.inr inv.hi)).trans (inv.out it1 (Or.inr le_rfl))⟩
      · obtain ⟨p', hp1', hp2', hp3'⟩ := inv.bwd q h1 (by omega)
        exact ⟨p', hp1', by omega, by
          rw [← hp3']
          exact IS.out q (Or.inr (by omega))⟩
  cases d with
  | true =>
    obtain ⟨q0, hq1, hq2, hq3⟩ := IS.dom rfl
    simp only at hq2 hq3
    have H : ∀ z, (∃ q, first ≤ q ∧ q < fe ∧ Dom ev (idx.getD q 0) z) →
        ∃ q, first ≤ q ∧ q < fe1 ∧ Dom ev (idx1.getD q 0) z := by
      rintro z ⟨q, h1, h2, h3⟩
      obtain ⟨q', h1', h2', h3'⟩ := IS.fwd q h1 h2
      simp only at h3'
      by_cases e : q' < fe1
      · exact ⟨q', h1', e, by rw [h3']; exact h3⟩
      · have := IS.evicted q' (by simp only; omega) h2'
        simp only at this
        rw [h3'] at this
        exact ⟨q0, hq1, hq2, Dom_trans hq3 (Dom_trans this h3)⟩
    simp only [if_true]
    exact
      { len := hlen
        lo := hlo
        hi := by omega
        nonempty := fun _ => by omega
        out := fun p hp => (IS.out p (by omega)).trans (inv.out p (by omega))
        rem := fun p h1 h2 => by
          by_cases e1 : p = it1
          · exact ⟨q0, hq1, hq2, by rw [e1, hx]; exact hq3⟩
          · by_cases e2 : p < fe
            · have := IS.evicted p h1 e2
              exact ⟨q0, hq1, hq2, Dom_trans hq3 this⟩
            · have e3 : idx1.getD p 0 = idx.getD p 0 := IS.out p (by omega)
              rw [e3]
              exact H _ (inv.rem p (by omega) (by omega))
        bwd := fun q h1 h2 => B q h1 (by omega)
        perm := IS.perm.trans inv.perm }
  | false =>
    simp only [Bool.false_eq_true, if_false]
    have hsw : ∀ k, (swapAt idx1 it1 fe1).getD k 0 =
        if k = fe1 then idx1.getD it1 0 else if k = it1 then idx1.getD fe1 0
        else idx1.getD k 0 :=
      fun k => getD_swapAt idx1 it1 fe1 k (by omega) (by omega)
    have hxx : (swapAt idx1 it1 fe1).getD fe1 0 = idx.getD it1 0 := by
      rw [hsw, if_pos rfl, hx]
    have H : ∀ z, (∃ q, first ≤ q ∧ q < fe ∧ Dom ev (idx.getD q 0) z) →
        ∃ q, first ≤ q ∧ q < fe1 + 1 ∧ Dom ev ((swapAt idx1 it1 fe1).getD q 0) z := by
      rintro z ⟨q, h1, h2, h3⟩
      obtain ⟨q', h1', h2', h3'⟩ := IS.fwd q h1 h2
      simp only at h3'
      by_cases e : q' < fe1
      · refine ⟨q', h1', by omega, ?_⟩
        rw [hsw, if_neg (by omega), if_neg (by omega), h3']
        exact h3
      · have := IS.evicted q' (by simp only; omega) h2'
        simp only at this
        rw [h3'] at this
        exact ⟨fe1, hlo, by omega, by rw [hxx]; exact Dom_trans this h3⟩
    exact
      { len := (length_swapAt _ _ _).trans hlen
        lo := by omega
        hi := by omega
        nonempty := fun _ => by omega
        out := fun p hp => by
          rw [hsw, if_neg (by omega), if_neg (by omega)]
          exact (IS.out p (by omega)).trans (inv.out p (by omega))
        rem := fun p h1 h2 => by
          by_cases e1 : p = it1
          · rw [hsw p, if_neg (by omega), if_pos e1]
            by_cases e2 : fe1 < fe
            · have := IS.evicted fe1 le_rfl e2
              exact ⟨fe1, hlo, by omega, by rw [hxx]; exact this⟩
            · have e3 : idx1.getD fe1 0 = idx.getD fe1 0 := IS.out fe1 (by omega)
              rw [e3]
              exact H _ (inv.rem fe1 (by omega) (by omega))
          · rw [hsw p, if_neg (by omega), if_neg e1]
            by_cases e2 : p < fe
            · have := IS.evicted p (by simp only; omega) e2
              exact ⟨fe1, hlo, by omega, by rw [hxx]; exact this⟩
            · have e3 : idx1.getD p 0 = idx.getD p 0 := IS.out p (by omega)
              rw [e3]
              exact H _ (inv.rem p (by omega) (by omega))
        bwd := fun q h1 h2 => by
          rw [hsw]
          split
          · exact B it1 (by omega) le_rfl
          · split
            · exact B fe1 hlo (by omega)
            · exact B q h1 (by omega)
        perm := (swapAt_perm idx1 it1 fe1 (by omega) (by omega)).trans
          (IS.perm.trans inv.perm) }

theorem nondominated_sort_outer_spec (ev : List (Fin N → ℚ)) (idx0 : List Nat)
    (first last : Nat) (hlast : last ≤ idx0.length) :
    ∀ (fuel : Nat) (idx : List Nat) (it1 fe : Nat), last - it1 ≤ fuel → it1 ≤ last →
      OuterInv ev idx0 first idx it1 fe →
      OuterInv ev idx0 first (nondominated_sort_outer ev first last fuel idx it1 fe).1 last
        (nondominated_sort_outer ev first last fuel idx it1 fe).2 := by
  intro fuel
  induction fuel with
  | zero =>
    intro idx it1 fe h1 h2 inv
    have e : it1 = last := by omega
    subst e
    simpa [nondominated_sort_outer] using inv
  | succ fuel ih =>
    intro idx it1 fe h1 h2 inv
    by_cases hlt : it1 < last
    · have step := outerInv_step ev idx0 first idx it1 fe inv (by omega)
      simp only [nondominated_sort_outer, hlt, if_true]
      cases hd : (nondominated_sort_inner ev it1 (fe - first) idx first fe).2.2 with
      | true =>
        rw [hd] at step
        simp only [if_true] at step ⊢
        exact ih _ _ _ (by omega) (by omega) step
      | false =>
        rw [hd] at step
        simp only [Bool.false_eq_true, if_false] at step ⊢
        exact ih _ _ _ (by omega) (by omega) step
    · have e : it1 = last := by omega
      subst e
      simpa [nondominated_sort_outer] using inv

theorem nondominated_sort_spec (ev : List (Fin N → ℚ)) (idx0 : List Nat) (first last : Nat)
    (h1 : first ≤ last) (h2 : last ≤ idx0.length) :
    OuterInv ev idx0 first (nondominated_sort ev idx0 first last).1 last
      (nondominated_sort ev idx0 first last).2 :=
  nondominated_sort_outer_spec ev idx0 first last h2 (last - first) idx0 first first le_rfl h1
    { len := rfl
      lo := le_rfl
      hi := le_rfl
      nonempty := fun h => absurd h (lt_irrefl _)
      out := fun _ _ => rfl
      rem := fun p h1 h2 => absurd h2 (by omega)
      bwd := fun p h1 h2 => absurd h2 (by omega)
      perm := List.Perm.refl _ }

end Evolver

/-! ## Lemmas on rearrangements of a range of the index table -/

theorem RangeEquiv.refl (first last : Nat) (v : List Nat) : RangeEquiv first last v v where
  len := rfl
  out := fun _ _ => rfl
  fwd := fun p h1 h2 => ⟨p, h1, h2, rfl⟩
  bwd := fun p h1 h2 => ⟨p, h1, h2, rfl⟩
  perm := List.Perm.refl _

theorem RangeEquiv.trans {first last : Nat} {u v w : List Nat} (h1 : RangeEquiv first last u v)
    (h2 : RangeEquiv first last v w) : RangeEquiv first last u w where
  len := h2.len.trans h1.len
  out := fun p hp => (h2.out p hp).trans (h1.out p hp)
  fwd := fun p hp1 hp2 => by
    obtain ⟨q, hq1, hq2, hq3⟩ := h1.fwd p hp1 hp2
    obtain ⟨q', hq1', hq2', hq3'⟩ := h2.fwd q hq1 hq2
    exact ⟨q', hq1', hq2', hq3'.trans hq3⟩
  bwd := fun q hq1 hq2 => by
    obtain ⟨p, hp1, hp2, hp3⟩ := h2.bwd q hq1 hq2
    obtain ⟨p', hp1', hp2', hp3'⟩ := h1.bwd p hp1 hp2
    exact ⟨p', hp1', hp2', hp3.trans hp3'⟩
  perm := h2.perm.trans h1.perm

theorem getD_mid (A B C : List Nat) (p : Nat) (h1 : A.length ≤ p) (h2 : p < A.length + B.length) :
    (A ++ B ++ C).getD p 0 = B.getD (p - A.length) 0 := by
  rw [List.append_assoc, List.getD_append_right _ _ _ _ h1, List.getD_append _ _ _ _ (by omega)]

theorem rangeEquiv_append (A B B' C : List Nat) (h : B'.Perm B) :
    RangeEquiv A.length (A.length + B.length) (A ++ B ++ C) (A ++ B' ++ C) where
  len := by simp [h.length_eq]
  out := fun p hp => by
    rcases hp with hp | hp
    · rw [List.append_assoc, List.append_assoc, List.getD_append _ _ _ _ hp,
        List.getD_append _ _ _ _ hp]
    · rw [List.getD_append_right _ _ _ _ (by simp [h.length_eq]; omega),
        List.getD_append_right _ _ _ _ (by simp; omega)]
      simp [h.length_eq]
  fwd := fun p h1 h2 => by
    have hm : B.getD (p - A.length) 0 ∈ B' := by
      rw [List.getD_eq_getElem _ _ (by omega)]
      exact h.symm.subset (List.getElem_mem _)
    obtain ⟨k, hk, e⟩ := List.mem_iff_getElem.1 hm
    refine ⟨A.length + k, by omega, by have := h.length_eq; omega, ?_⟩
    rw [getD_mid A B C p h1 h2, getD_mid A B' C _ (by omega) (by omega), ← e,
      List.getD_eq_getElem _ _ (by omega)]
    congr 1
    omega
  bwd := fun q h1 h2 => by
    have hl := h.length_eq
    have hm : B'.getD (q - A.length) 0 ∈ B := by
      rw [List.getD_eq_getElem _ _ (by omega)]
      exact h.subset (List.getElem_mem _)
    obtain ⟨k, hk, e⟩ := List.mem_iff_getElem.1 hm
    refine ⟨A.length + k, by omega, by omega, ?_⟩
    rw [getD_mid A B' C q h1 (by omega), getD_mid A B C _ (by omega) (by omega), ← e,
      List.getD_eq_getElem _ _ (by omega)]
    congr 1
    omega
  perm := (List.Perm.append_left A h).append_right C

theorem sortRange_rangeEquiv (S : SortAlg) (comp : Nat → Nat → Bool) (v : List Nat)
    (first last : Nat) (h1 : first ≤ last) (h2 : last ≤ v.length) :
    RangeEquiv first last v (sortRange S comp v first last) := by
  have hA : (v.take first).length = first := by simp; omega
  have hB : ((v.drop first).take (last - first)).length = last - first := by simp; omega
  have hv : v = v.take first ++ (v.drop first).take (last - first) ++ v.drop last := by
    have e : v.drop last = (v.drop first).drop (last - first) := by
      rw [List.drop_drop]
      congr 1
      omega
    rw [e, List.append_assoc, List.take_append_drop, List.take_append_drop]
  have key := rangeEquiv_append (v.take first) ((v.drop first).take (last - first))
    (S.sort comp ((v.drop first).take (last - first))) (v.drop last) (S.perm _ _)
  rw [hA, hB, ← hv] at key
  have e : first + (last - first) = last := by omega
  rw [e] at key
  exact key

namespace Evolver

variable {T : Type} [Inhabited T] {N : Nat} {R : Type}

theorem crowdingDim_rangeEquiv (S : SortAlg) (ev : List (Fin N → ℚ)) (first last : Nat)
    (st st' : List XFloat × List Nat) (i : Fin N)
    (h : crowdingDim S ev first last st i = some st') : RangeEquiv first last st.2 st'.2 := by
  unfold crowdingDim at h
  split at h
  · rename_i hc
    simp only [Option.some.injEq] at h
    rw [← h]
    exact sortRange_rangeEquiv S _ st.2 first last (le_of_lt hc.1) hc.2
  · cases h

theorem crowdingDim_foldlM_rangeEquiv (S : SortAlg) (ev : List (Fin N → ℚ)) (first last : Nat)
    (dims : List (Fin N)) :
    ∀ (st st' : List XFloat × List Nat),
      dims.foldlM (crowdingDim S ev first last) st = some st' →
      RangeEquiv first last st.2 st'.2 := by
  induction dims with
  | nil =>
    intro st st' h
    simp only [List.foldlM_nil, Option.pure_def, Option.some.injEq] at h
    rw [h]
    exact RangeEquiv.refl _ _ _
  | cons i dims ih =>
    intro st st' h
    simp only [List.foldlM_cons, Option.bind_eq_bind] at h
    cases h1 : crowdingDim S ev first last st i with
    | none => rw [h1] at h; cases h
    | some st1 =>
      rw [h1] at h
      exact (crowdingDim_rangeEquiv S ev first last st st1 i h1).trans (ih st1 st' h)

theorem assign_crowding_distance_rangeEquiv (S : SortAlg) (ev : List (Fin N → ℚ))
    (cd : List XFloat) (idx : List Nat) (first last : Nat) (r : List XFloat × List Nat)
    (h : assign_crowding_distance S ev cd idx first last = some r) :
    RangeEquiv first last idx r.2 :=
  crowdingDim_foldlM_rangeEquiv S ev first last _ _ r h

omit [Inhabited T] in
theorem selectStep_spec (S : SortAlg) (self : Evolver T N R) (it : Nat)
    (r : Evolver T N R × Nat) (h : selectStep S self it = some r)
    (hit : it ≤ self.m_indices.length) :
    r.2 = (nondominated_sort self.m_evaluations self.m_indices it self.m_indices.length).2 ∧
    r.1.m_evaluations = self.m_evaluations ∧
    r.1.m_population_size = self.m_population_size ∧
    RangeEquiv it r.2
      (nondominated_sort self.m_evaluations self.m_indices it self.m_indices.length).1
      r.1.m_indices := by
  have O := nondominated_sort_spec self.m_evaluations self.m_indices it self.m_indices.length
    hit le_rfl
  unfold selectStep at h
  simp only at h
  cases hc : assign_crowding_distance S self.m_evaluations self.m_crowding_distances
      (nondominated_sort self.m_evaluations self.m_indices it self.m_indices.length).1 it
      (nondominated_sort self.m_evaluations self.m_indices it self.m_indices.length).2 with
  | none => rw [hc] at h; cases h
  | some c =>
    rw [hc] at h
    simp only [Option.some.injEq] at h
    have E := assign_crowding_distance_rangeEquiv S _ _ _ _ _ c hc
    subst h
    refine ⟨rfl, rfl, rfl, ?_⟩
    simp only
    split
    · exact E.trans (sortRange_rangeEquiv S _ c.2 it _ O.lo
        (by rw [E.len, O.len]; exact O.hi))
    · exact E

end Evolver

/-! ## Lemmas on the rounds of the crowding distance -/

section CrowdingLemmas

theorem distAt_set (cd : List XFloat) (k m : Nat) (v : XFloat) :
    distAt (cd.set k v) m = if m = k ∧ k < cd.length then v else distAt cd m := by
  unfold distAt
  by_cases hk : k < cd.length
  · by_cases hm : m < cd.length
    · rw [List.getD_eq_getElem _ _ (by simpa using hm), List.getElem_set,
        List.getD_eq_getElem _ _ hm]
      by_cases e : k = m
      · simp [e, hm]
      · have e' : ¬ m = k := fun h => e h.symm
        simp only [e, e', if_false, false_and]
    · have hm' : cd.length ≤ m := Nat.le_of_not_lt hm
      rw [List.getD_eq_default _ _ (by simpa using hm'), List.getD_eq_default _ _ hm']
      have e : ¬ m = k := by omega
      simp only [e, false_and, if_false]
  · rw [List.set_eq_of_length_le (Nat.le_of_not_lt hk)]
    simp only [hk, and_false, if_false]

theorem distAt_set_self (cd : List XFloat) (k : Nat) (v : XFloat) (h : k < cd.length) :
    distAt (cd.set k v) k = v := by
  rw [distAt_set, if_pos ⟨rfl, h⟩]

theorem distAt_set_pres (Q : XFloat → Prop) (cd : List XFloat) (k m : Nat) (v : XFloat)
    (hv : Q v) (h : Q (distAt cd m)) : Q (distAt (cd.set k v) m) := by
  rw [distAt_set]
  split
  · exact hv
  · exact h

theorem length_interiorRun (g : Nat → Nat) (c : Nat → XFloat) (js : List Nat)
    (cd : List XFloat) : (interiorRun g c js cd).length = cd.length := by
  induction js generalizing cd with
  | nil => rfl
  | cons j js ih =>
    simp only [interiorRun, List.foldl_cons] at ih ⊢
    rw [ih, List.length_set]

theorem interiorRun_pres (Q : XFloat → Prop) (g : Nat → Nat) (c : Nat → XFloat)
    (js : List Nat) (hQ : ∀ x, ∀ j ∈ js, Q x → Q (XFloat.add x (c j))) (m : Nat) :
    ∀ cd : List XFloat, Q (distAt cd m) → Q (distAt (interiorRun g c js cd) m) := by
  induction js with
  | nil => exact fun cd h => h
  | cons j js ih =>
    intro cd h
    simp only [interiorRun, List.foldl_cons]
    apply ih (fun x j' hj' => hQ x j' (List.mem_cons_of_mem _ hj'))
    rw [distAt_set]
    split
    · rename_i e
      rw [← e.1]
      exact hQ _ j (List.mem_cons_self _ _) h
    · exact h

theorem interiorRun_unchanged (g : Nat → Nat) (c : Nat → XFloat) (js : List Nat) (m : Nat)
    (hm : ∀ j ∈ js, g j ≠ m) :
    ∀ cd : List XFloat, distAt (interiorRun g c js cd) m = distAt cd m := by
  induction js with
  | nil => exact fun cd => rfl
  | cons j js ih =>
    intro cd
    simp only [interiorRun, List.foldl_cons]
    have := ih (fun j' hj' => hm j' (List.mem_cons_of_mem _ hj'))
      (cd.set (g j) (XFloat.add (distAt cd (g j)) (c j)))
    simp only [interiorRun] at this
    rw [this, distAt_set, if_neg]
    rintro ⟨e, _⟩
    exact hm j (List.mem_cons_self _ _) e.symm

theorem XFloat.add_nan_right (x : XFloat) : XFloat.add x XFloat.nan = XFloat.nan := by
  cases x <;> rfl

theorem XFloat.add_nan_left (x : XFloat) : XFloat.add XFloat.nan x = XFloat.nan := by
  cases x <;> rfl

theorem XFloat.add_pinf_fin (q : ℚ) : XFloat.add XFloat.pinf (XFloat.fin q) = XFloat.pinf := rfl

theorem XFloat.add_pinf_or_nan (x c : XFloat) (h : x = XFloat.pinf ∨ x = XFloat.nan) :
    XFloat.add x c = XFloat.pinf ∨ XFloat.add x c = XFloat.nan := by
  rcases h with rfl | rfl <;> cases c <;> simp [XFloat.add]

theorem interiorRun_nan (g : Nat → Nat) (c : Nat → XFloat) (js : List Nat)
    (hc : ∀ j ∈ js, c j = XFloat.nan) (j0 : Nat) (hj0 : j0 ∈ js) :
    ∀ cd : List XFloat, g j0 < cd.length →
      distAt (interiorRun g c js cd) (g j0) = XFloat.nan := by
  induction js with
  | nil => simp at hj0
  | cons j js ih =>
    intro cd hlen
    simp only [interiorRun, List.foldl_cons]
    by_cases hmem : j0 ∈ js
    · have := ih (fun j' hj' => hc j' (List.mem_cons_of_mem _ hj')) hmem
        (cd.set (g j) (XFloat.add (distAt cd (g j)) (c j))) (by simpa using hlen)
      simpa only [interiorRun] using this
    · have e : j0 = j := by
        rcases List.mem_cons.1 hj0 with h | h
        · exact h
        · exact absurd h hmem
      subst e
      have hp := interiorRun_pres (fun x => x = XFloat.nan) g c js
        (fun x j' _ hx => by rw [hx]; exact XFloat.add_nan_left _) (g j0)
        (cd.set (g j0) (XFloat.add (distAt cd (g j0)) (c j0)))
      simp only [interiorRun] at hp
      apply hp
      rw [distAt_set_self _ _ _ hlen, hc j0 (List.mem_cons_self _ _)]
      exact XFloat.add_nan_right _

end CrowdingLemmas

section CrowdingLemmas

variable {N : Nat}

theorem getD_mem_nat (l : List Nat) (k : Nat) (h : k < l.length) : l.getD k 0 ∈ l := by
  rw [List.getD_eq_getElem _ _ h]
  exact List.getElem_mem _

theorem getD_inj_of_nodup (l : List Nat) (hnd : l.Nodup) (j k : Nat) (hj : j < l.length)
    (hk : k < l.length) (h : l.getD j 0 = l.getD k 0) : j = k := by
  rw [List.getD_eq_getElem _ _ hj, List.getD_eq_getElem _ _ hk] at h
  exact hnd.getElem_inj_iff.1 h

theorem sortDim_perm (S : SortAlg) (ev : List (Fin N → ℚ)) (i : Fin N) (idxs : List Nat) :
    (sortDim S ev i idxs).Perm idxs := S.perm _ _

theorem sortDim_sorted (S : SortAlg) (ev : List (Fin N → ℚ)) (i : Fin N) (idxs : List Nat) :
    (sortDim S ev i idxs).Pairwise (fun a b => evalAt ev a i ≤ evalAt ev b i) := by
  have h := S.sorted (fun a b => decide (evalAt ev a i < evalAt ev b i)) idxs
    (fun a _ b _ hab => by
      simp only [decide_eq_true_eq, decide_eq_false_iff_not, not_lt] at hab ⊢
      exact le_of_lt hab)
    (fun a _ b _ c _ h1 h2 => by
      simp only [decide_eq_false_iff_not, not_lt] at h1 h2 ⊢
      exact le_trans h1 h2)
  refine h.imp ?_
  intro a b hab
  simpa only [decide_eq_false_iff_not, not_lt] using hab

theorem sortDim_first_le (S : SortAlg) (ev : List (Fin N → ℚ)) (i : Fin N) (idxs : List Nat)
    (x : Nat) (hx : x ∈ sortDim S ev i idxs) :
    evalAt ev ((sortDim S ev i idxs).getD 0 0) i ≤ evalAt ev x i := by
  have hs := sortDim_sorted S ev i idxs
  obtain ⟨k, hk, e⟩ := List.mem_iff_getElem.1 hx
  rw [List.getD_eq_getElem _ _ (by omega), ← e]
  by_cases h0 : k = 0
  · subst h0; exact le_rfl
  · exact (List.pairwise_iff_getElem.1 hs) 0 k (by omega) hk (by omega)

theorem sortDim_le_last (S : SortAlg) (ev : List (Fin N → ℚ)) (i : Fin N) (idxs : List Nat)
    (x : Nat) (hx : x ∈ sortDim S ev i idxs) :
    evalAt ev x i ≤
      evalAt ev ((sortDim S ev i idxs).getD ((sortDim S ev i idxs).length - 1) 0) i := by
  have hs := sortDim_sorted S ev i idxs
  obtain ⟨k, hk, e⟩ := List.mem_iff_getElem.1 hx
  rw [List.getD_eq_getElem _ _ (by omega), ← e]
  by_cases h0 : k = (sortDim S ev i idxs).length - 1
  · subst h0; exact le_rfl
  · exact (List.pairwise_iff_getElem.1 hs) k _ hk (by omega) (by omega)

theorem range_ne_zero_of_not_zeroRange (S : SortAlg) (ev : List (Fin N → ℚ)) (i : Fin N)
    (idxs : List Nat) (h : ¬ ZeroRange ev i idxs) :
    evalAt ev ((sortDim S ev i idxs).getD ((sortDim S ev i idxs).length - 1) 0) i
      - evalAt ev ((sortDim S ev i idxs).getD 0 0) i ≠ 0 := by
  intro e
  apply h
  have hp := sortDim_perm S ev i idxs
  have key : ∀ a ∈ idxs, evalAt ev a i = evalAt ev ((sortDim S ev i idxs).getD 0 0) i := by
    intro a ha
    have ha' := hp.symm.subset ha
    have h1 := sortDim_first_le S ev i idxs a ha'
    have h2 := sortDim_le_last S ev i idxs a ha'
    have e' := sub_eq_zero.1 e
    rw [e'] at h2
    exact le_antisymm h2 h1
  intro a ha b hb
  rw [key a ha, key b hb]

theorem crowdingDim_eq (S : SortAlg) (ev : List (Fin N → ℚ)) (st : List XFloat × List Nat)
    (i : Fin N) (h : st.2 ≠ []) :
    crowdingDim S ev st i = some (crowdingDimTable S ev i st.1 st.2, sortDim S ev i st.2) := by
  have hl : (sortDim S ev i st.2).length ≠ 0 := by
    rw [(sortDim_perm S ev i st.2).length_eq]
    exact fun e => h (List.length_eq_zero.1 e)
  unfold sortDim at hl
  simp only [crowdingDim, hl, if_false]
  rfl

theorem crowdingDim_none (S : SortAlg) (ev : List (Fin N → ℚ)) (cd : List XFloat)
    (i : Fin N) : crowdingDim S ev (cd, []) i = none := by
  have hl : (S.sort (fun a b => decide (evalAt ev a i < evalAt ev b i)) []).length = 0 := by
    rw [(S.perm _ _).length_eq]; rfl
  simp only [crowdingDim, hl, if_true]

end CrowdingLemmas

section CrowdingLemmas

variable {N : Nat}

theorem length_crowdingDimTable (S : SortAlg) (ev : List (Fin N → ℚ)) (i : Fin N)
    (cd : List XFloat) (idxs : List Nat) :
    (crowdingDimTable S ev i cd idxs).length = cd.length := by
  unfold crowdingDimTable
  rw [length_interiorRun, List.length_set, List.length_set]

/-- A round keeps `+∞` when the objective has a range that is not zero. -/
theorem crowdingDimTable_pinf (S : SortAlg) (ev : List (Fin N → ℚ)) (i : Fin N)
    (cd : List XFloat) (idxs : List Nat) (hr : ¬ ZeroRange ev i idxs) (m : Nat)
    (h : distAt cd m = XFloat.pinf) : distAt (crowdingDimTable S ev i cd idxs) m = XFloat.pinf := by
  have hne := range_ne_zero_of_not_zeroRange S ev i idxs hr
  unfold crowdingDimTable
  apply interiorRun_pres (fun x => x = XFloat.pinf)
  · intro x j _ hx
    rw [hx]
    simp only [XFloat.div, hne, if_false, XFloat.mul]
    rfl
  · exact distAt_set_pres (fun x => x = XFloat.pinf) _ _ _ _ rfl
      (distAt_set_pres (fun x => x = XFloat.pinf) _ _ _ _ rfl h)

/-- A round keeps the property of being `+∞` or `NaN`. -/
theorem crowdingDimTable_infOrNaN (S : SortAlg) (ev : List (Fin N → ℚ)) (i : Fin N)
    (cd : List XFloat) (idxs : List Nat) (m : Nat) (h : InfOrNaN (distAt cd m)) :
    InfOrNaN (distAt (crowdingDimTable S ev i cd idxs) m) := by
  unfold crowdingDimTable
  apply interiorRun_pres InfOrNaN
  · intro x j _ hx
    exact XFloat.add_pinf_or_nan x _ hx
  · exact distAt_set_pres InfOrNaN _ _ _ _ (Or.inl rfl)
      (distAt_set_pres InfOrNaN _ _ _ _ (Or.inl rfl) h)

/-- After a round, both ends of the sorted working copy are at `+∞`. -/
theorem crowdingDimTable_boundary (S : SortAlg) (ev : List (Fin N → ℚ)) (i : Fin N)
    (cd : List XFloat) (idxs : List Nat) (hnd : idxs.Nodup) (hne : idxs ≠ [])
    (hvalid : ∀ m ∈ idxs, m < cd.length) :
    distAt (crowdingDimTable S ev i cd idxs) ((sortDim S ev i idxs).getD 0 0) = XFloat.pinf ∧
    distAt (crowdingDimTable S ev i cd idxs)
      ((sortDim S ev i idxs).getD ((sortDim S ev i idxs).length - 1) 0) = XFloat.pinf := by
  have hp := sortDim_perm S ev i idxs
  have hnd' : (sortDim S ev i idxs).Nodup := hp.nodup_iff.2 hnd
  have hlen : 0 < (sortDim S ev i idxs).length := by
    rw [hp.length_eq]; exact List.length_pos.2 hne
  have hv : ∀ k, k < (sortDim S ev i idxs).length → (sortDim S ev i idxs).getD k 0 < cd.length :=
    fun k hk => hvalid _ (hp.subset (getD_mem_nat _ k hk))
  unfold crowdingDimTable
  constructor
  · rw [interiorRun_unchanged]
    · rw [distAt_set]
      split
      · rfl
      · exact distAt_set_self _ _ _ (hv 0 hlen)
    · intro j hj e
      simp only [List.mem_range'_1] at hj
      have := getD_inj_of_nodup _ hnd' j 0 (by omega) hlen e
      omega
  · rw [interiorRun_unchanged]
    · exact distAt_set_self _ _ _ (by simpa using hv _ (by omega))
    · intro j hj e
      simp only [List.mem_range'_1] at hj
      have := getD_inj_of_nodup _ hnd' j _ (by omega) (by omega) e
      omega

theorem zeroRange_contribution (S : SortAlg) (ev : List (Fin N → ℚ)) (i : Fin N)
    (idxs : List Nat) (hz : ZeroRange ev i idxs) (j : Nat) (hj1 : 1 ≤ j)
    (hj2 : j + 1 < (sortDim S ev i idxs).length) :
    XFloat.mul
      (XFloat.fin (evalAt ev ((sortDim S ev i idxs).getD (j + 1) 0) i
        - evalAt ev ((sortDim S ev i idxs).getD (j - 1) 0) i))
      (XFloat.div (XFloat.fin 1)
        (XFloat.fin (evalAt ev
            ((sortDim S ev i idxs).getD ((sortDim S ev i idxs).length - 1) 0) i
          - evalAt ev ((sortDim S ev i idxs).getD 0 0) i))) = XFloat.nan := by
  have hp := sortDim_perm S ev i idxs
  have hm : ∀ k, k < (sortDim S ev i idxs).length → (sortDim S ev i idxs).getD k 0 ∈ idxs :=
    fun k hk => hp.subset (getD_mem_nat _ k hk)
  rw [hz _ (hm (j + 1) hj2) _ (hm (j - 1) (by omega)),
    hz _ (hm ((sortDim S ev i idxs).length - 1) (by omega)) _ (hm 0 (by omega))]
  simp [XFloat.div, XFloat.mul, XFloat.mulInf]

/-- A round on an objective of range zero leaves every interior member at `NaN`. -/
theorem crowdingDimTable_zeroRange_interior (S : SortAlg) (ev : List (Fin N → ℚ)) (i : Fin N)
    (cd : List XFloat) (idxs : List Nat) (hz : ZeroRange ev i idxs)
    (hvalid : ∀ m ∈ idxs, m < cd.length) (j : Nat) (hj1 : 1 ≤ j)
    (hj2 : j + 1 < (sortDim S ev i idxs).length) :
    distAt (crowdingDimTable S ev i cd idxs) ((sortDim S ev i idxs).getD j 0) = XFloat.nan := by
  have hp := sortDim_perm S ev i idxs
  unfold crowdingDimTable
  apply interiorRun_nan (fun j => (sortDim S ev i idxs).getD j 0)
  · intro j' hj'
    simp only [List.mem_range'_1] at hj'
    exact zeroRange_contribution S ev i idxs hz j' hj'.1 (by omega)
  · simp only [List.mem_range'_1]
    omega
  · simp only [List.length_set]
    exact hvalid _ (hp.subset (getD_mem_nat _ j (by omega)))

/-- A round on an objective of range zero leaves every member at `+∞` or `NaN`. -/
theorem crowdingDimTable_zeroRange (S : SortAlg) (ev : List (Fin N → ℚ)) (i : Fin N)
    (cd : List XFloat) (idxs : List Nat) (hz : ZeroRange ev i idxs)
    (hvalid : ∀ m ∈ idxs, m < cd.length) (m : Nat) (hm : m ∈ idxs) :
    InfOrNaN (distAt (crowdingDimTable S ev i cd idxs) m) := by
  have hp := sortDim_perm S ev i idxs
  obtain ⟨k, hk, e⟩ := List.mem_iff_getElem.1 (hp.symm.subset hm)
  have e' : (sortDim S ev i idxs).getD k 0 = m := by rw [List.getD_eq_getElem _ _ hk, e]
  have hv : ∀ k, k < (sortDim S ev i idxs).length → (sortDim S ev i idxs).getD k 0 < cd.length :=
    fun k hk => hvalid _ (hp.subset (getD_mem_nat _ k hk))
  by_cases hb : 1 ≤ k ∧ k + 1 < (sortDim S ev i idxs).length
  · rw [← e']
    exact Or.inr (crowdingDimTable_zeroRange_interior S ev i cd idxs hz hvalid k hb.1 hb.2)
  · unfold crowdingDimTable
    apply interiorRun_pres InfOrNaN
    · intro x j _ hx
      exact XFloat.add_pinf_or_nan x _ hx
    · left
      by_cases h0 : k = 0
      · subst h0
        rw [distAt_set, ← e']
        split
        · rfl
        · exact distAt_set_self _ _ _ (hv 0 hk)
      · have hk' : k = (sortDim S ev i idxs).length - 1 := by omega
        rw [← e', hk']
        exact distAt_set_self _ _ _ (by simpa using hv _ (by omega))

end CrowdingLemmas

section CrowdingLemmas

variable {N : Nat}

theorem ZeroRange.of_perm {ev : List (Fin N → ℚ)} {i : Fin N} {l l' : List Nat}
    (h : ZeroRange ev i l) (hp : l'.Perm l) : ZeroRange ev i l' :=
  fun a ha b hb => h a (hp.subset ha) b (hp.subset hb)

theorem crowdingReset_length (cd : List XFloat) (idxs : List Nat) :
    (crowdingReset cd idxs).length = cd.length := by
  unfold crowdingReset
  induction idxs generalizing cd with
  | nil => rfl
  | cons j js ih => rw [List.foldl_cons, ih, List.length_set]

/-- The rounds over a list of objectives never fail on a non-empty working copy; they
rearrange the working copy and keep the size of the table. -/
theorem crowdingRounds_some (S : SortAlg) (ev : List (Fin N → ℚ)) (dims : List (Fin N)) :
    ∀ st : List XFloat × List Nat, st.2 ≠ [] →
      ∃ st', dims.foldlM (crowdingDim S ev) st = some st' ∧ st'.2.Perm st.2 ∧
        st'.1.length = st.1.length := by
  induction dims with
  | nil => exact fun st _ => ⟨st, rfl, List.Perm.refl _, rfl⟩
  | cons i dims ih =>
    intro st hne
    have hp := sortDim_perm S ev i st.2
    have hne' : sortDim S ev i st.2 ≠ [] := fun e => hne (by
      rw [e] at hp
      exact List.Perm.eq_nil hp.symm)
    obtain ⟨st', h1, h2, h3⟩ := ih (crowdingDimTable S ev i st.1 st.2, sortDim S ev i st.2) hne'
    refine ⟨st', ?_, h2.trans hp, h3.trans (length_crowdingDimTable S ev i st.1 st.2)⟩
    rw [List.foldlM_cons, crowdingDim_eq S ev st i hne]
    exact h1

/-- Rounds on objectives whose range is not zero keep `+∞`. -/
theorem crowdingRounds_pinf (S : SortAlg) (ev : List (Fin N → ℚ)) (m : Nat)
    (dims : List (Fin N)) :
    ∀ st st' : List XFloat × List Nat, st.2 ≠ [] →
      dims.foldlM (crowdingDim S ev) st = some st' → (∀ i ∈ dims, ¬ ZeroRange ev i st.2) →
      distAt st.1 m = XFloat.pinf → distAt st'.1 m = XFloat.pinf := by
  induction dims with
  | nil =>
    intro st st' _ h _ hm
    simp only [List.foldlM_nil, Option.pure_def, Option.some.injEq] at h
    rw [← h]; exact hm
  | cons i dims ih =>
    intro st st' hne h hz hm
    have hp := sortDim_perm S ev i st.2
    have hne' : sortDim S ev i st.2 ≠ [] := fun e => hne (by
      rw [e] at hp
      exact List.Perm.eq_nil hp.symm)
    rw [List.foldlM_cons, crowdingDim_eq S ev st i hne] at h
    refine ih _ st' hne' h (fun i' hi' hz' => ?_)
      (crowdingDimTable_pinf S ev i st.1 st.2 (hz i (List.mem_cons_self _ _)) m hm)
    exact hz i' (List.mem_cons_of_mem _ hi') (hz'.of_perm hp.symm)

/-- Once the rounds go through an objective of range zero, every member ends at `+∞` or
`NaN`. -/
theorem crowdingRounds_infOrNaN (S : SortAlg) (ev : List (Fin N → ℚ)) (d : Fin N)
    (dims : List (Fin N)) :
    ∀ st st' : List XFloat × List Nat, st.2 ≠ [] →
      dims.foldlM (crowdingDim S ev) st = some st' → ZeroRange ev d st.2 →
      (∀ m ∈ st.2, m < st.1.length) →
      (d ∈ dims ∨ ∀ m ∈ st.2, InfOrNaN (distAt st.1 m)) →
      ∀ m ∈ st.2, InfOrNaN (distAt st'.1 m) := by
  induction dims with
  | nil =>
    intro st st' _ h _ _ hc
    simp only [List.foldlM_nil, Option.pure_def, Option.some.injEq] at h
    rw [← h]
    rcases hc with hc | hc
    · simp at hc
    · exact hc
  | cons i dims ih =>
    intro st st' hne h hz hvalid hc m hm
    have hp := sortDim_perm S ev i st.2
    have hne' : sortDim S ev i st.2 ≠ [] := fun e => hne (by
      rw [e] at hp
      exact List.Perm.eq_nil hp.symm)
    rw [List.foldlM_cons, crowdingDim_eq S ev st i hne] at h
    refine ih _ st' hne' h (hz.of_perm hp) (fun m hm => ?_) ?_ m (hp.symm.subset hm)
    · rw [length_crowdingDimTable]
      exact hvalid m (hp.subset hm)
    · by_cases e : d = i
      · right
        intro m hm
        subst e
        exact crowdingDimTable_zeroRange S ev d st.1 st.2 hz hvalid m (hp.subset hm)
      · rcases hc with hc | hc
        · left
          rcases List.mem_cons.1 hc with h' | h'
          · exact absurd h' e
          · exact h'
        · right
          intro m hm
          exact crowdingDimTable_infOrNaN S ev i st.1 st.2 m (hc m (hp.subset hm))

theorem finRange_split {N : Nat} (d : Fin N) :
    List.finRange N = (List.finRange N).take d ++ d :: (List.finRange N).drop (d + 1) := by
  have hd : (d : Nat) < (List.finRange N).length := by simp
  conv_lhs => rw [← List.take_append_drop d (List.finRange N)]
  rw [List.drop_eq_getElem_cons hd]
  congr 2
  simp

theorem finRange_take_succ {N : Nat} (d : Fin N) :
    (List.finRange N).take (d + 1) = (List.finRange N).take d ++ [d] := by
  have hd : (d : Nat) < (List.finRange N).length := by simp
  rw [List.take_succ, List.getElem?_eq_getElem hd]
  simp

theorem finRange_drop_gt {N : Nat} (d : Fin N) :
    ∀ i ∈ (List.finRange N).drop (d + 1), d < i := by
  have h := List.pairwise_lt_finRange N
  rw [finRange_split d, List.pairwise_append] at h
  exact (List.pairwise_cons.1 h.2.1).1

end CrowdingLemmas

/-! ## Lemmas relating the two crowding distance routines -/

section CrowdingRefinement

variable {N : Nat}

theorem interiorRun_map (g : Nat → Nat) (c : Nat → XFloat) (f : Nat → Nat) (js : List Nat)
    (cd : List XFloat) :
    interiorRun g c (js.map f) cd = interiorRun (fun j => g (f j)) (fun j => c (f j)) js cd := by
  unfold interiorRun
  rw [List.foldl_map]

theorem interiorRun_congr (g g' : Nat → Nat) (c c' : Nat → XFloat) (js : List Nat)
    (cd : List XFloat) (h : ∀ j ∈ js, g j = g' j ∧ c j = c' j) :
    interiorRun g c js cd = interiorRun g' c' js cd := by
  unfold interiorRun
  apply List.foldl_ext
  intro a j hj
  rw [(h j hj).1, (h j hj).2]

theorem slice_eq_map (idx : List Nat) (first n : Nat) (h : first + n ≤ idx.length) :
    (idx.drop first).take n = (List.range' first n).map (fun it => idx.getD it 0) := by
  apply List.ext_getElem
  · simp; omega
  · intro k h1 h2
    simp only [List.length_map, List.length_range'] at h2
    rw [List.getElem_take, List.getElem_drop, List.getElem_map, List.getElem_range'_1,
      List.getD_eq_getElem _ _ (by omega)]

theorem append_slice (A L C : List Nat) :
    ((A ++ L ++ C).take A.length = A) ∧
    (((A ++ L ++ C).drop A.length).take L.length = L) ∧
    ((A ++ L ++ C).drop (A.length + L.length) = C) := by
  refine ⟨?_, ?_, ?_⟩
  · rw [List.append_assoc, List.take_left']
    rfl
  · rw [List.append_assoc, List.drop_left', List.take_left']
    · rfl
    · rfl
  · have : A.length + L.length = (A ++ L).length := by simp
    rw [this, List.drop_left']
    rfl

theorem evolver_crowdingReset_eq (cd : List XFloat) (idx : List Nat) (first last : Nat)
    (h2 : last ≤ idx.length) :
    Evolver.crowdingReset cd idx first last =
      crowdingReset cd ((idx.drop first).take (last - first)) := by
  unfold Evolver.crowdingReset crowdingReset
  by_cases h1 : first ≤ last
  · rw [slice_eq_map idx first (last - first) (by omega), List.foldl_map]
  · have e : last - first = 0 := by omega
    rw [e]
    rfl

/-- One round of `Evolver::assign_crowding_distance` on the range `L` of the index table
`A ++ L ++ C` is the round of the list based `assign_crowding_distance` on `L`. -/
theorem evolver_crowdingDim_eq (S : SortAlg) (ev : List (Fin N → ℚ)) (i : Fin N)
    (cd : List XFloat) (A L C : List Nat) (hL : L ≠ []) :
    Evolver.crowdingDim S ev A.length (A.length + L.length) (cd, A ++ L ++ C) i =
      (crowdingDim S ev (cd, L) i).map (fun st => (st.1, A ++ st.2 ++ C)) := by
  have hpos : 0 < L.length := List.length_pos.2 hL
  have hs := append_slice A L C
  have hlen' : (sortDim S ev i L).length = L.length := (sortDim_perm S ev i L).length_eq
  have hsort : sortRange S (fun a b => decide (evalAt ev a i < evalAt ev b i)) (A ++ L ++ C)
      A.length (A.length + L.length) = A ++ sortDim S ev i L ++ C := by
    unfold sortRange sortDim
    have e : A.length + L.length - A.length = L.length := by omega
    rw [e, hs.1, hs.2.1, hs.2.2]
  have hg : ∀ k, k < L.length →
      (A ++ sortDim S ev i L ++ C).getD (A.length + k) 0 = (sortDim S ev i L).getD k 0 := by
    intro k hk
    rw [getD_mid A _ C _ (by omega) (by omega)]
    congr 1
    omega
  rw [crowdingDim_eq S ev (cd, L) i hL]
  have hc : A.length < A.length + L.length ∧ A.length + L.length ≤ (A ++ L ++ C).length := by
    simp only [List.length_append]
    omega
  simp only [Evolver.crowdingDim, hc, and_self, if_true, Option.map_some', hsort]
  congr 2
  have e1 : (A ++ sortDim S ev i L ++ C).getD A.length 0 = (sortDim S ev i L).getD 0 0 := by
    simpa using hg 0 hpos
  have e2 : (A ++ sortDim S ev i L ++ C).getD (A.length + L.length - 1) 0 =
      (sortDim S ev i L).getD ((sortDim S ev i L).length - 1) 0 := by
    have := hg (L.length - 1) (by omega)
    rw [hlen']
    rw [← this]
    congr 1
    omega
  unfold Evolver.crowdingInterior crowdingDimTable
  rw [e1, e2]
  have e3 : List.range' (A.length + 1) (A.length + L.length - A.length - 2) =
      (List.range' 1 ((sortDim S ev i L).length - 2)).map (A.length + ·) := by
    rw [List.map_add_range', hlen']
    congr 1
    omega
  rw [e3]
  show interiorRun _ _ (List.map _ _) _ = _
  rw [interiorRun_map]
  apply interiorRun_congr
  intro j hj
  simp only [List.mem_range'_1] at hj
  have hj1 : A.length + j + 1 = A.length + (j + 1) := by omega
  have hj2 : A.length + j - 1 = A.length + (j - 1) := by omega
  constructor
  · exact hg j (by omega)
  · rw [hj1, hj2, hg (j + 1) (by omega), hg (j - 1) (by omega)]

theorem evolver_crowdingRounds_eq (S : SortAlg) (ev : List (Fin N → ℚ)) (A C : List Nat)
    (dims : List (Fin N)) :
    ∀ (cd : List XFloat) (L : List Nat), L ≠ [] →
      dims.foldlM (Evolver.crowdingDim S ev A.length (A.length + L.length)) (cd, A ++ L ++ C) =
        (dims.foldlM (crowdingDim S ev) (cd, L)).map (fun st => (st.1, A ++ st.2 ++ C)) := by
  induction dims with
  | nil => intro cd L _; rfl
  | cons i dims ih =>
    intro cd L hL
    have hp := sortDim_perm S ev i L
    have hne' : sortDim S ev i L ≠ [] := fun e => hL (by
      rw [e] at hp
      exact List.Perm.eq_nil hp.symm)
    rw [List.foldlM_cons, List.foldlM_cons, evolver_crowdingDim_eq S ev i cd A L C hL,
      crowdingDim_eq S ev (cd, L) i hL]
    simp only [Option.map_some', Option.bind_eq_bind, Option.some_bind]
    have := ih (crowdingDimTable S ev i cd L) (sortDim S ev i L) hne'
    rw [hp.length_eq] at this
    exact this

/-- `Evolver::assign_crowding_distance(begin, end)` computes the distances of the list based
`assign_crowding_distance` on the range, and puts the sorted range back in place. -/
theorem evolver_assign_crowding_distance_eq (S : SortAlg) (ev : List (Fin N → ℚ))
    (cd : List XFloat) (idx : List Nat) (first last : Nat) (h1 : first < last)
    (h2 : last ≤ idx.length) :
    Evolver.assign_crowding_distance S ev cd idx first last =
      ((List.finRange N).foldlM (crowdingDim S ev)
        (crowdingReset cd ((idx.drop first).take (last - first)),
          (idx.drop first).take (last - first))).map
        (fun st => (st.1, idx.take first ++ st.2 ++ idx.drop last)) := by
  have hA : (idx.take first).length = first := by simp; omega
  have hB : ((idx.drop first).take (last - first)).length = last - first := by simp; omega
  have hv : idx = idx.take first ++ (idx.drop first).take (last - first) ++ idx.drop last := by
    have e : idx.drop last = (idx.drop first).drop (last - first) := by
      rw [List.drop_drop]
      congr 1
      omega
    rw [e, List.append_assoc, List.take_append_drop, List.take_append_drop]
  have hne : (idx.drop first).take (last - first) ≠ [] := by
    intro e
    rw [e] at hB
    simp at hB
    omega
  have key := evolver_crowdingRounds_eq S ev (idx.take first) (idx.drop last) (List.finRange N)
    (crowdingReset cd ((idx.drop first).take (last - first)))
    ((idx.drop first).take (last - first)) hne
  rw [hA, hB, ← hv] at key
  have e : first + (last - first) = last := by omega
  rw [e] at key
  unfold Evolver.assign_crowding_distance
  rw [evolver_crowdingReset_eq cd idx first last h2]
  exact key

end CrowdingRefinement

/-! ## Lemmas on the tournament -/

theorem XFloat.ne_eq_true_of_ne (x y : XFloat) (h : x ≠ y) : XFloat.ne x y = true := by
  cases x <;> cases y <;> simp_all [XFloat.ne]

theorem XFloat.gt_total (x y : XFloat) (h : x ≠ y) (hx : x ≠ XFloat.nan) (hy : y ≠ XFloat.nan) :
    XFloat.gt x y = true ∨ XFloat.gt y x = true := by
  cases x with
  | nan => exact absurd rfl hx
  | ninf => cases y <;> simp_all [XFloat.gt, XFloat.lt]
  | pinf => cases y <;> simp_all [XFloat.gt, XFloat.lt]
  | fin a =>
    cases y with
    | nan => exact absurd rfl hy
    | ninf => simp [XFloat.gt, XFloat.lt]
    | pinf => simp [XFloat.gt, XFloat.lt]
    | fin b =>
      have hab : a ≠ b := fun e => h (by rw [e])
      simp only [XFloat.gt, XFloat.lt, decide_eq_true_eq]
      rcases lt_or_gt_of_ne hab with h1 | h1
      · exact Or.inr h1
      · exact Or.inl h1

theorem XFloat.gt_asymm (x y : XFloat) (h : XFloat.gt x y = true) : XFloat.gt y x = false := by
  cases x <;> cases y <;> simp only [XFloat.gt, XFloat.lt] at h ⊢ <;>
    first
    | rfl
    | exact absurd h (by decide)
    | (simp only [decide_eq_true_eq, decide_eq_false_iff_not, not_lt] at h ⊢
       exact le_of_lt h)

theorem XFloat.ne_nan_left (y : XFloat) : XFloat.ne XFloat.nan y = true := by
  cases y <;> rfl

theorem XFloat.ne_nan_right (x : XFloat) : XFloat.ne x XFloat.nan = true := by
  cases x <;> rfl

theorem XFloat.gt_nan_left (y : XFloat) : XFloat.gt XFloat.nan y = false := by
  cases y <;> rfl

theorem XFloat.gt_nan_right (x : XFloat) : XFloat.gt x XFloat.nan = false := by
  cases x <;> rfl

section TournamentLemmas

variable {T : Type} [Inhabited T] {N : Nat} {R : Type}

theorem dominates_swap_gt (a b : Fin N → ℚ) : dominates b a = .gt ↔ dominates a b = .lt := by
  rw [dominates_gt_iff, dominates_lt_iff]

/-- The decision of `Tournament::fight`, case by case. -/
theorem fight_cases (G : RandomSource R) (self : Tournament T N R) (a b : Nat) :
    (dominates (evalAt self.m_evaluations a) (evalAt self.m_evaluations b) = .gt →
      Tournament.fight G self a b = (self.m_population.getD a default, self)) ∧
    (dominates (evalAt self.m_evaluations b) (evalAt self.m_evaluations a) = .gt →
      Tournament.fight G self a b = (self.m_population.getD b default, self)) ∧
    (dominates (evalAt self.m_evaluations a) (evalAt self.m_evaluations b) ≠ .gt →
      dominates (evalAt self.m_evaluations b) (evalAt self.m_evaluations a) ≠ .gt →
      XFloat.ne (distAt self.m_crowding_distances a) (distAt self.m_crowding_distances b) = true →
      Tournament.fight G self a b =
        (if XFloat.gt (distAt self.m_crowding_distances a) (distAt self.m_crowding_distances b)
          then self.m_population.getD a default else self.m_population.getD b default, self)) ∧
    ((Tournament.fight G self a b).1 = self.m_population.getD a default ∨
      (Tournament.fight G self a b).1 = self.m_population.getD b default) ∧
    (Tournament.fight G self a b).2.m_population = self.m_population ∧
    (Tournament.fight G self a b).2.m_evaluations = self.m_evaluations ∧
    (Tournament.fight G self a b).2.m_crowding_distances = self.m_crowding_distances := by
  have hsw := dominates_swap_gt (evalAt self.m_evaluations a) (evalAt self.m_evaluations b)
  cases h : dominates (evalAt self.m_evaluations a) (evalAt self.m_evaluations b) with
  | gt =>
    have e : Tournament.fight G self a b = (self.m_population.getD a default, self) := by
      simp [Tournament.fight, h]
    rw [e]
    refine ⟨fun _ => rfl, fun h2 => ?_, fun h1 => absurd rfl h1, Or.inl rfl, rfl, rfl, rfl⟩
    rw [hsw.1 h2] at h
    cases h
  | lt =>
    have e : Tournament.fight G self a b = (self.m_population.getD b default, self) := by
      simp [Tournament.fight, h]
    rw [e]
    refine ⟨(fun h1 => nomatch h1), fun _ => rfl, fun _ h2 => absurd (hsw.2 h) h2, Or.inr rfl,
      rfl, rfl, rfl⟩
  | eq =>
    refine ⟨(fun h1 => nomatch h1), fun h2 => ?_, fun _ _ h3 => ?_, ?_, ?_, ?_, ?_⟩
    · rw [hsw.1 h2] at h
      cases h
    · simp [Tournament.fight, h, h3]
    · unfold Tournament.fight
      simp only [h, ne_eq, not_true_eq_false, if_false]
      split
      · split
        · exact Or.inl rfl
        · exact Or.inr rfl
      · split
        · exact Or.inl rfl
        · exact Or.inr rfl
    · unfold Tournament.fight
      simp only [h, ne_eq, not_true_eq_false, if_false]
      split <;> rfl
    · unfold Tournament.fight
      simp only [h, ne_eq, not_true_eq_false, if_false]
      split <;> rfl
    · unfold Tournament.fight
      simp only [h, ne_eq, not_true_eq_false, if_false]
      split <;> rfl

/-- The decision of `Evolver::tournament`, case by case. -/
theorem tournament_cases (G : RandomSource R) (self : Evolver T N R) (a b : Nat) :
    (dominates (evalAt self.m_evaluations a) (evalAt self.m_evaluations b) = .gt →
      Evolver.tournament G self a b = (self.m_population.getD a default, self.m_rng)) ∧
    (dominates (evalAt self.m_evaluations b) (evalAt self.m_evaluations a) = .gt →
      Evolver.tournament G self a b = (self.m_population.getD b default, self.m_rng)) ∧
    (dominates (evalAt self.m_evaluations a) (evalAt self.m_evaluations b) ≠ .gt →
      dominates (evalAt self.m_evaluations b) (evalAt self.m_evaluations a) ≠ .gt →
      XFloat.ne (distAt self.m_crowding_distances a) (distAt self.m_crowding_distances b) = true →
      Evolver.tournament G self a b =
        (if XFloat.gt (distAt self.m_crowding_distances a) (distAt self.m_crowding_distances b)
          then self.m_population.getD a default else self.m_population.getD b default,
          self.m_rng)) ∧
    ((Evolver.tournament G self a b).1 = self.m_population.getD a default ∨
      (Evolver.tournament G self a b).1 = self.m_population.getD b default) := by
  have hsw := dominates_swap_gt (evalAt self.m_evaluations a) (evalAt self.m_evaluations b)
  cases h : dominates (evalAt self.m_evaluations a) (evalAt self.m_evaluations b) with
  | gt =>
    have e : Evolver.tournament G self a b = (self.m_population.getD a default, self.m_rng) := by
      unfold Evolver.tournament
      rw [evolver_dominates_eq, h]
      simp
    rw [e]
    refine ⟨fun _ => rfl, fun h2 => ?_, fun h1 => absurd rfl h1, Or.inl rfl⟩
    rw [hsw.1 h2] at h
    cases h
  | lt =>
    have e : Evolver.tournament G self a b = (self.m_population.getD b default, self.m_rng) := by
      unfold Evolver.tournament
      rw [evolver_dominates_eq, h]
      simp
    rw [e]
    exact ⟨(fun h1 => nomatch h1), fun _ => rfl, fun _ h2 => absurd (hsw.2 h) h2, Or.inr rfl⟩
  | eq =>
    refine ⟨(fun h1 => nomatch h1), fun h2 => ?_, fun _ _ h3 => ?_, ?_⟩
    · rw [hsw.1 h2] at h
      cases h
    · unfold Evolver.tournament
      rw [evolver_dominates_eq, h]
      simp [h3]
    · unfold Evolver.tournament
      rw [evolver_dominates_eq, h]
      simp only [ne_eq, not_true_eq_false, if_false]
      split
      · split
        · exact Or.inl rfl
        · exact Or.inr rfl
      · split
        · exact Or.inl rfl
        · exact Or.inr rfl

end TournamentLemmas

/-! ## Lemmas on the truncation to the better half -/

section BetterHalf

variable {N : Nat}

end BetterHalf

/-! ## Lemmas on class TinyNSGA2 -/

section NSGA2Lemmas

variable {T : Type} [Inhabited T] {N : Nat} {R : Type}

end NSGA2Lemmas

section NSGA2Lemmas

variable {T : Type} [Inhabited T] {N : Nat} {R : Type}

end NSGA2Lemmas

/-! ## Lemmas on the initialisation -/

section EvolverInit

variable {T : Type} [Inhabited T] {N : Nat} {R : Type}

/-- On a non-empty range inside the index table `Evolver::assign_crowding_distance` does not
fail; it keeps the size of the distance table and rearranges the range. -/
theorem evolver_assign_crowding_distance_some (S : SortAlg) (ev : List (Fin N → ℚ))
    (cd : List XFloat) (idx : List Nat) (first last : Nat) (h1 : first < last)
    (h2 : last ≤ idx.length) :
    ∃ c, Evolver.assign_crowding_distance S ev cd idx first last = some c ∧
      c.1.length = cd.length ∧ RangeEquiv first last idx c.2 := by
  have hB : ((idx.drop first).take (last - first)).length = last - first := by simp; omega
  have hne : (idx.drop first).take (last - first) ≠ [] := by
    intro e
    rw [e] at hB
    simp at hB
    omega
  obtain ⟨st', hst, _, hl⟩ := crowdingRounds_some S ev (List.finRange N)
    (crowdingReset cd ((idx.drop first).take (last - first)),
      (idx.drop first).take (last - first)) hne
  have he := evolver_assign_crowding_distance_eq S ev cd idx first last h1 h2
  rw [hst] at he
  simp only [Option.map_some'] at he
  refine ⟨_, he, ?_, Evolver.assign_crowding_distance_rangeEquiv S ev cd idx first last _ he⟩
  simp only [hl, crowdingReset_length]

omit [Inhabited T] in
/-- The loop of `init` that extracts the fronts ends within `P - it` rounds and keeps the
sizes of the tables. -/
theorem initFronts_spec (S : SortAlg) (P : Nat) :
    ∀ (fuel : Nat) (self : Evolver T N R) (it : Nat), P - it ≤ fuel → EvolverSized self P →
      ∃ s', Evolver.initFronts S fuel self it = some s' ∧ EvolverSized s' P ∧
        s'.m_population = self.m_population ∧ s'.m_evaluations = self.m_evaluations ∧
        s'.m_rng = self.m_rng := by
  intro fuel
  induction fuel with
  | zero =>
    intro self it h1 h2
    have hn : ¬ it < self.m_population_size := by rw [h2.population_size]; omega
    exact ⟨self, by simp only [Evolver.initFronts, hn, if_false], h2, rfl, rfl, rfl⟩
  | succ fuel ih =>
    intro self it h1 h2
    by_cases hn : it < self.m_population_size
    swap
    · exact ⟨self, by simp only [Evolver.initFronts, hn, if_false], h2, rfl, rfl, rfl⟩
    have hlen : self.m_indices.length = 2 * P := by
      rw [h2.indices.length_eq, List.length_range]
    have hP := h2.population_size
    have O := Evolver.nondominated_sort_spec self.m_evaluations self.m_indices it
      self.m_population_size (le_of_lt hn) (by omega)
    obtain ⟨c, hc, hc1, hc2⟩ := evolver_assign_crowding_distance_some S self.m_evaluations
      self.m_crowding_distances
      (Evolver.nondominated_sort self.m_evaluations self.m_indices it
        self.m_population_size).1 it
      (Evolver.nondominated_sort self.m_evaluations self.m_indices it
        self.m_population_size).2 (O.nonempty hn) (by rw [O.len]; have := O.hi; omega)
    have hs : EvolverSized ({ self with m_crowding_distances := c.1, m_indices := c.2 } :
        Evolver T N R) P :=
      { population_size := h2.population_size
        population := h2.population
        evaluations := h2.evaluations
        crowding_distances := hc1.trans h2.crowding_distances
        indices := (hc2.perm.trans O.perm).trans h2.indices }
    obtain ⟨s', hs1, hs2, hs3, hs4, hs5⟩ := ih _
      (Evolver.nondominated_sort self.m_evaluations self.m_indices it
        self.m_population_size).2 (by have := O.nonempty hn; omega) hs
    exact ⟨s', by simp only [Evolver.initFronts, hn, if_true, hc, hs1], hs2, hs3, hs4, hs5⟩

theorem initOne_sized (F : EvolverFunctions T N R) (P : Nat) (self : Evolver T N R) (i : Nat)
    (h : EvolverSized self P) : EvolverSized (Evolver.initOne F self i) P :=
  { population_size := h.population_size
    population := by simp only [Evolver.initOne, List.length_set]; exact h.population
    evaluations := by simp only [Evolver.initOne, List.length_set]; exact h.evaluations
    crowding_distances := h.crowding_distances
    indices := h.indices }

theorem length_resize {α : Type} (d : α) (v : List α) (n : Nat) : (resize d v n).length = n := by
  simp only [resize, List.length_append, List.length_take, List.length_replicate]
  omega

/-- The member `init` completes for every population size and sizes the tables. -/
theorem init_spec (S : SortAlg) (F : EvolverFunctions T N R) (self : Evolver T N R) (P : Nat) :
    ∃ s', Evolver.init S F self P = some s' ∧ EvolverSized s' P := by
  unfold Evolver.init
  simp only []
  have h0 : EvolverSized ({ m_rng := self.m_rng
                            m_population_size := P
                            m_population := resize default self.m_population (P * 2)
                            m_evaluations := resize (fun _ => 0) self.m_evaluations (P * 2)
                            m_crowding_distances :=
                              resize (XFloat.fin 0) self.m_crowding_distances (P * 2)
                            m_indices := List.range (P * 2) } : Evolver T N R) P :=
    { population_size := rfl
      population := by simp only [length_resize]; omega
      evaluations := by simp only [length_resize]; omega
      crowding_distances := by simp only [length_resize]; omega
      indices := by rw [Nat.mul_comm] }
  have h1 : ∀ (l : List Nat) (s : Evolver T N R), EvolverSized s P →
      EvolverSized (l.foldl (Evolver.initOne F) s) P := by
    intro l
    induction l with
    | nil => exact fun s h => h
    | cons i l ih => exact fun s h => ih _ (initOne_sized F P s i h)
  obtain ⟨s', hs1, hs2, _⟩ := initFronts_spec S P P _ 0 (by omega) (h1 (List.range P) _ h0)
  exact ⟨s', hs1, hs2⟩

theorem construct_rejects (S : SortAlg) (F : NSGA2Functions T N R) (population : List T)
    (rng : R) (h : population.length % 4 ≠ 0) : TinyNSGA2.construct S F population rng = none := by
  simp only [TinyNSGA2.construct, h, ne_eq, not_false_eq_true, if_true]

end EvolverInit

/-! ## Lemmas on the loop of assign_crowding_distances -/

section FrontLoop

variable {N : Nat}

theorem length_le_length_flatten (fs : List (List Nat)) (h : ∀ f ∈ fs, f ≠ []) :
    fs.length ≤ fs.flatten.length := by
  induction fs with
  | nil => simp
  | cons f fs ih =>
    have h1 : 0 < f.length := List.length_pos.2 (h f (List.mem_cons_self _ _))
    have h2 := ih fun g hg => h g (List.mem_cons_of_mem _ hg)
    simp only [List.flatten_cons, List.length_append, List.length_cons]
    omega

theorem assign_crowding_distance_some (S : SortAlg) (ev : List (Fin N → ℚ))
    (cd : List XFloat) (idxs : List Nat) (h : idxs ≠ []) :
    ∃ cd', assign_crowding_distance S ev cd idxs = some cd' ∧ cd'.length = cd.length := by
  obtain ⟨st', h1, _, h3⟩ :=
    crowdingRounds_some S ev (List.finRange N) (crowdingReset cd idxs, idxs) h
  refine ⟨st'.1, ?_, ?_⟩
  · simp only [assign_crowding_distance, h1, Option.map_some']
  · rw [h3]
    exact crowdingReset_length cd idxs

/-- The loop of `assign_crowding_distances` calls `assign_crowding_distance` on the fronts
that repeated calls of `get_front` return, in this order. -/
theorem assign_crowding_distances_loop_eq (S : SortAlg) (ev : List (Fin N → ℚ)) :
    ∀ (fuel : Nat) (orig : List Nat) (cd : List XFloat),
      assign_crowding_distances_loop S ev fuel orig cd =
        (get_fronts ev fuel orig).bind
          (fun fs => fs.foldlM (fun c f => assign_crowding_distance S ev c f) cd) := by
  intro fuel
  induction fuel with
  | zero =>
    intro orig cd
    cases orig with
    | nil => simp [assign_crowding_distances_loop, get_fronts]
    | cons x xs => simp [assign_crowding_distances_loop, get_fronts]
  | succ fuel ih =>
    intro orig cd
    cases orig with
    | nil => simp [assign_crowding_distances_loop, get_fronts]
    | cons x xs =>
      simp only [assign_crowding_distances_loop, get_fronts]
      cases h : assign_crowding_distance S ev cd (get_front ev (x :: xs)).1 with
      | none =>
        cases get_fronts ev fuel (get_front ev (x :: xs)).2 with
        | none => rfl
        | some fs => simp [h]
      | some cd1 =>
        simp only [ih]
        cases get_fronts ev fuel (get_front ev (x :: xs)).2 with
        | none => rfl
        | some fs => simp [h]

theorem assign_crowding_distances_loop_some (S : SortAlg) (ev : List (Fin N → ℚ)) :
    ∀ (fuel : Nat) (orig : List Nat) (cd : List XFloat), orig.length ≤ fuel →
      ∃ cd', assign_crowding_distances_loop S ev fuel orig cd = some cd' ∧
        cd'.length = cd.length := by
  intro fuel
  induction fuel with
  | zero =>
    intro orig cd h
    have : orig = [] := List.length_eq_zero.1 (Nat.le_zero.1 h)
    subst this
    exact ⟨cd, by simp [assign_crowding_distances_loop]⟩
  | succ fuel ih =>
    intro orig cd h
    cases orig with
    | nil => exact ⟨cd, by simp [assign_crowding_distances_loop]⟩
    | cons x xs =>
      have hne := get_front_ne_nil ev (x :: xs) (List.cons_ne_nil _ _)
      have hlen := get_front_length ev (x :: xs)
      have hpos : 0 < (get_front ev (x :: xs)).1.length := List.length_pos.2 hne
      obtain ⟨cd1, h1, h1'⟩ := assign_crowding_distance_some S ev cd _ hne
      obtain ⟨cd2, h2, h2'⟩ := ih (get_front ev (x :: xs)).2 cd1 (by
        simp only [List.length_cons] at h hlen
        omega)
      refine ⟨cd2, ?_, by rw [h2', h1']⟩
      simp only [assign_crowding_distances_loop, h1, h2]

end FrontLoop

/-! ## Lemmas on the generations of the evolver -/

section EvolverGeneration

variable {T : Type} [Inhabited T] {N : Nat} {R : Type}

omit [Inhabited T] in
theorem evolverSized_length {e : Evolver T N R} {P : Nat} (h : EvolverSized e P) :
    e.m_indices.length = 2 * P := by
  rw [h.indices.length_eq, List.length_range]

omit [Inhabited T] in
theorem foldl_sized (f : Evolver T N R → Nat → Evolver T N R) (P : Nat)
    (hf : ∀ s i, EvolverSized s P → EvolverSized (f s i) P) :
    ∀ (l : List Nat) (s : Evolver T N R), EvolverSized s P → EvolverSized (l.foldl f s) P := by
  intro l
  induction l with
  | nil => exact fun s h => h
  | cons i l ih => exact fun s h => ih _ (hf s i h)

theorem crossOne_sized (G : RandomSource R) (F : EvolverFunctions T N R) (P p : Nat)
    (self : Evolver T N R) (i : Nat) (h : EvolverSized self P) :
    EvolverSized (Evolver.crossOne G F p self i) P :=
  { population_size := h.population_size
    population := by simp only [Evolver.crossOne, List.length_set]; exact h.population
    evaluations := h.evaluations
    crowding_distances := h.crowding_distances
    indices := h.indices }

theorem offspringRound_sized (G : RandomSource R) (F : EvolverFunctions T N R) (P : Nat)
    (self : Evolver T N R) (p : Nat) (h : EvolverSized self P) :
    EvolverSized (Evolver.offspringRound G F self p) P := by
  unfold Evolver.offspringRound
  simp only []
  apply foldl_sized
  · intro s i hs
    exact
      { population_size := hs.population_size
        population := by simp only [List.length_set]; exact hs.population
        evaluations := hs.evaluations
        crowding_distances := hs.crowding_distances
        indices := hs.indices }
  · apply foldl_sized _ _ (fun s i hs => crossOne_sized G F P p s i hs)
    exact
      { population_size := h.population_size
        population := h.population
        evaluations := h.evaluations
        crowding_distances := h.crowding_distances
        indices := by
          refine List.Perm.trans ?_ h.indices
          refine ((G.shuffle_perm _ _).append_right _).trans ?_
          rw [List.take_append_drop] }

theorem mutateOne_sized (F : EvolverFunctions T N R) (P : Nat) (self : Evolver T N R) (i : Nat)
    (h : EvolverSized self P) : EvolverSized (Evolver.mutateOne F self i) P :=
  { population_size := h.population_size
    population := by simp only [Evolver.mutateOne, List.length_set]; exact h.population
    evaluations := by simp only [Evolver.mutateOne, List.length_set]; exact h.evaluations
    crowding_distances := h.crowding_distances
    indices := h.indices }

omit [Inhabited T] in
/-- One round of the selection loop completes, keeps the sizes and the permutation, and
moves `it` forward. -/
theorem selectStep_sized (S : SortAlg) (P : Nat) (self : Evolver T N R) (it : Nat)
    (h : EvolverSized self P) (hit : it < P) :
    ∃ r, Evolver.selectStep S self it = some r ∧ EvolverSized r.1 P ∧ it < r.2 ∧
      r.2 ≤ 2 * P := by
  have hlen := evolverSized_length h
  have O := Evolver.nondominated_sort_spec self.m_evaluations self.m_indices it
    self.m_indices.length (by omega) le_rfl
  obtain ⟨c, hc, hc1, hc2⟩ := evolver_assign_crowding_distance_some S self.m_evaluations
    self.m_crowding_distances
    (Evolver.nondominated_sort self.m_evaluations self.m_indices it self.m_indices.length).1 it
    (Evolver.nondominated_sort self.m_evaluations self.m_indices it self.m_indices.length).2
    (O.nonempty (by omega)) (by rw [O.len]; exact O.hi)
  simp only [Evolver.selectStep, hc]
  refine ⟨_, rfl, ?_, O.nonempty (by omega), ?_⟩
  · exact
      { population_size := h.population_size
        population := h.population
        evaluations := h.evaluations
        crowding_distances := hc1.trans h.crowding_distances
        indices := by
          simp only
          split
          · exact ((((sortRange_rangeEquiv S _ c.2 it _ O.lo
              (by rw [hc2.len, O.len]; exact O.hi)).perm).trans hc2.perm).trans O.perm).trans
              h.indices
          · exact (hc2.perm.trans O.perm).trans h.indices }
  · have := O.hi
    omega

omit [Inhabited T] in
theorem select_sized (S : SortAlg) (P : Nat) :
    ∀ (fuel : Nat) (self : Evolver T N R) (it : Nat), P - it ≤ fuel → EvolverSized self P →
      ∃ s', Evolver.select S fuel self it = some s' ∧ EvolverSized s' P := by
  intro fuel
  induction fuel with
  | zero =>
    intro self it h1 h2
    have : ¬ it < self.m_population_size := by rw [h2.population_size]; omega
    exact ⟨self, by simp only [Evolver.select, this, if_false], h2⟩
  | succ fuel ih =>
    intro self it h1 h2
    by_cases hn : it < self.m_population_size
    · obtain ⟨r, hr, hs, hlt, _⟩ := selectStep_sized S P self it h2
        (by rw [← h2.population_size]; exact hn)
      obtain ⟨s', hs1, hs2⟩ := ih r.1 r.2 (by omega) hs
      exact ⟨s', by simp only [Evolver.select, hn, if_true, hr, hs1], hs2⟩
    · exact ⟨self, by simp only [Evolver.select, hn, if_false], h2⟩

theorem generation_sized (S : SortAlg) (G : RandomSource R) (F : EvolverFunctions T N R)
    (P : Nat) (self : Evolver T N R) (h : EvolverSized self P) :
    ∃ s', Evolver.generation S G F self = some s' ∧ EvolverSized s' P := by
  have h1 : EvolverSized ((List.range 2).foldl (Evolver.offspringRound G F) self) P :=
    foldl_sized _ P (fun s p hs => offspringRound_sized G F P s p hs) _ _ h
  have h2 := foldl_sized _ P (fun s i hs => mutateOne_sized F P s i hs)
    (List.range ((List.range 2).foldl (Evolver.offspringRound G F) self).m_population_size)
    _ h1
  obtain ⟨s', hs1, hs2⟩ := select_sized S P P _ 0 (by omega) h2
  refine ⟨s', ?_, hs2⟩
  simp only [Evolver.generation]
  rw [h2.population_size]
  exact hs1

theorem evolve_sized (S : SortAlg) (G : RandomSource R) (F : EvolverFunctions T N R)
    (P : Nat) :
    ∀ (g : Nat) (self : Evolver T N R), EvolverSized self P →
      ∃ s', Evolver.evolve S G F g self = some s' ∧ EvolverSized s' P := by
  intro g
  induction g with
  | zero => exact fun self h => ⟨self, rfl, h⟩
  | succ g ih =>
    intro self h
    obtain ⟨s1, h1, h1'⟩ := generation_sized S G F P self h
    obtain ⟨s2, h2, h2'⟩ := ih s1 h1'
    exact ⟨s2, by simp only [Evolver.evolve, h1, h2], h2'⟩

end EvolverGeneration

/-! ## Lemmas on the number of crossover calls -/

section CrossoverCount

variable {T : Type} [Inhabited T] {N : Nat} {R : Type}

end CrossoverCount

/-! ## Lemmas on the slots written by the offspring phase -/

section OffspringSlots

variable {T : Type} [Inhabited T] {N : Nat} {R : Type}

end OffspringSlots

/-! ## Lemmas on the distance of an interior member -/

section InteriorDistance

variable {N : Nat}

theorem distAt_crowdingReset (idxs : List Nat) (m : Nat) :
    ∀ cd : List XFloat, m < cd.length → (m ∈ idxs ∨ distAt cd m = XFloat.fin 0) →
      distAt (crowdingReset cd idxs) m = XFloat.fin 0 := by
  unfold crowdingReset
  induction idxs with
  | nil =>
    intro cd _ h
    rcases h with h | h
    · cases h
    · exact h
  | cons j js ih =>
    intro cd hm h
    rw [List.foldl_cons]
    apply ih _ (by rw [List.length_set]; exact hm)
    by_cases hj : m = j
    · right
      rw [hj, distAt_set_self _ _ _ (hj ▸ hm)]
    · rcases h with h | h
      · rcases List.mem_cons.1 h with h | h
        · exact absurd h hj
        · exact Or.inl h
      · right
        rw [distAt_set, if_neg (fun hc => hj hc.1)]
        exact h

/-- A run of updates over pairwise distinct positions that address pairwise distinct
entries adds to the entry of `j0` exactly the term of `j0`. -/
theorem interiorRun_exact (g : Nat → Nat) (c : Nat → XFloat) (j0 : Nat) (js : List Nat)
    (hnd : js.Nodup) (hinj : ∀ j ∈ js, g j = g j0 → j = j0) (hj0 : j0 ∈ js) :
    ∀ cd : List XFloat, g j0 < cd.length →
      distAt (interiorRun g c js cd) (g j0) = XFloat.add (distAt cd (g j0)) (c j0) := by
  induction js with
  | nil => cases hj0
  | cons j js ih =>
    intro cd hlen
    have hnd' := List.nodup_cons.1 hnd
    simp only [interiorRun, List.foldl_cons]
    by_cases hj : j = j0
    · subst hj
      have hun := interiorRun_unchanged g c js (g j) (fun k hk e =>
        hnd'.1 ((hinj k (List.mem_cons_of_mem _ hk) e) ▸ hk))
        (cd.set (g j) (XFloat.add (distAt cd (g j)) (c j)))
      simp only [interiorRun] at hun
      rw [hun, distAt_set_self _ _ _ hlen]
    · have hmem : j0 ∈ js := by
        rcases List.mem_cons.1 hj0 with h | h
        · exact absurd h.symm hj
        · exact h
      have hne : g j0 ≠ g j := fun e => hj (hinj j (List.mem_cons_self _ _) e.symm)
      have := ih hnd'.2 (fun k hk => hinj k (List.mem_cons_of_mem _ hk)) hmem
        (cd.set (g j) (XFloat.add (distAt cd (g j)) (c j)))
        (by rw [List.length_set]; exact hlen)
      simp only [interiorRun] at this
      rw [this, distAt_set, if_neg (fun hc => hne hc.1)]

/-- A table of indices with pairwise distinct values on objective `d` has one ascending
arrangement: `std::sort` returns it. -/
theorem sortDim_eq_of_ascending (S : SortAlg) (ev : List (Fin N → ℚ)) (d : Fin N)
    (w L : List Nat) (hperm : L.Perm w)
    (hasc : L.Pairwise (fun a b => evalAt ev a d < evalAt ev b d)) :
    sortDim S ev d w = L := by
  have hp : (sortDim S ev d w).Perm L := (sortDim_perm S ev d w).trans hperm.symm
  have hndL : L.Nodup := hasc.imp (fun h e => by rw [e] at h; exact lt_irrefl _ h)
  have hne : ∀ a ∈ L, ∀ b ∈ L, a ≠ b → evalAt ev a d ≠ evalAt ev b d := fun a ha b hb hab =>
    List.Pairwise.forall (fun _ _ h => h.symm) (hasc.imp fun h => ne_of_lt h) ha hb hab
  have hs : (sortDim S ev d w).Pairwise (fun a b => evalAt ev a d < evalAt ev b d) := by
    have h1 := (sortDim_sorted S ev d w).and (hp.nodup_iff.2 hndL)
    exact h1.imp_of_mem fun ha hb h =>
      lt_of_le_of_ne h.1 (hne _ (hp.mem_iff.1 ha) _ (hp.mem_iff.1 hb) h.2)
  haveI : IsAntisymm Nat (fun a b => evalAt ev a d < evalAt ev b d) :=
    ⟨fun _ _ h1 h2 => absurd h1 (not_lt_of_lt h2)⟩
  exact List.eq_of_perm_of_sorted hp hs hasc

theorem XFloat.add_fin_term (q b r : ℚ) (hr : r ≠ 0) :
    XFloat.add (XFloat.fin q)
      (XFloat.mul (XFloat.fin b) (XFloat.div (XFloat.fin 1) (XFloat.fin r))) =
      XFloat.fin (q + b / r) := by
  simp only [XFloat.div, hr, if_false, XFloat.mul, XFloat.add]
  congr 1
  rw [mul_one_div]

/-- One round of `assign_crowding_distance` adds to the distance of a member that is at an
interior position `j` of the ascending arrangement `L` the difference of its neighbours
divided by the range. -/
theorem crowdingDimTable_interior (S : SortAlg) (ev : List (Fin N → ℚ)) (d : Fin N)
    (cd : List XFloat) (w L : List Nat) (hperm : L.Perm w)
    (hasc : L.Pairwise (fun a b => evalAt ev a d < evalAt ev b d)) (j : Nat) (hj0 : 0 < j)
    (hj1 : j + 1 < L.length) (hlen : L.getD j 0 < cd.length) (q : ℚ)
    (hq : distAt cd (L.getD j 0) = XFloat.fin q) :
    distAt (crowdingDimTable S ev d cd w) (L.getD j 0) =
      XFloat.fin (q + (evalAt ev (L.getD (j + 1) 0) d - evalAt ev (L.getD (j - 1) 0) d) /
        (evalAt ev (L.getD (L.length - 1) 0) d - evalAt ev (L.getD 0 0) d)) := by
  have hndL : L.Nodup := hasc.imp (fun h e => by rw [e] at h; exact lt_irrefl _ h)
  have hne0 : L.getD 0 0 ≠ L.getD j 0 := fun e => by
    have := getD_inj_of_nodup L hndL 0 j (by omega) (by omega) e
    omega
  have hne1 : L.getD (L.length - 1) 0 ≠ L.getD j 0 := fun e => by
    have := getD_inj_of_nodup L hndL (L.length - 1) j (by omega) (by omega) e
    omega
  have hr : evalAt ev (L.getD (L.length - 1) 0) d - evalAt ev (L.getD 0 0) d ≠ 0 := by
    have h := List.pairwise_iff_getElem.1 hasc 0 (L.length - 1) (by omega) (by omega) (by omega)
    rw [List.getD_eq_getElem L 0 (show L.length - 1 < L.length by omega),
      List.getD_eq_getElem L 0 (show 0 < L.length by omega)]
    exact ne_of_gt (sub_pos.2 h)
  unfold crowdingDimTable
  rw [sortDim_eq_of_ascending S ev d w L hperm hasc]
  rw [interiorRun_exact (fun k => L.getD k 0) _ j (List.range' 1 (L.length - 2))
    (List.nodup_range' _ _)
    (fun k hk e => by
      rw [List.mem_range'_1] at hk
      exact getD_inj_of_nodup L hndL k j (by omega) (by omega) e)
    (by rw [List.mem_range'_1]; omega)
    _ (by rw [List.length_set, List.length_set]; exact hlen)]
  rw [distAt_set, if_neg (fun hc => hne1 hc.1.symm), distAt_set,
    if_neg (fun hc => hne0 hc.1.symm), hq]
  exact XFloat.add_fin_term _ _ _ hr

/-- The rounds over a list of objectives add to the distance of a member that is interior
on each of them the sum of its terms. -/
theorem crowdingRounds_interior (S : SortAlg) (ev : List (Fin N → ℚ)) (idxs : List Nat)
    (L : Fin N → List Nat) (j : Fin N → Nat) (m : Nat)
    (hL : ∀ d, (L d).Perm idxs ∧
      (L d).Pairwise (fun a b => evalAt ev a d < evalAt ev b d) ∧
      0 < j d ∧ j d + 1 < (L d).length ∧ (L d).getD (j d) 0 = m)
    (dims : List (Fin N)) :
    ∀ (st : List XFloat × List Nat) (q : ℚ), st.2.Perm idxs → m < st.1.length →
      distAt st.1 m = XFloat.fin q →
      ∃ st', dims.foldlM (crowdingDim S ev) st = some st' ∧
        distAt st'.1 m = XFloat.fin (q + (dims.map fun d =>
          (evalAt ev ((L d).getD (j d + 1) 0) d - evalAt ev ((L d).getD (j d - 1) 0) d) /
          (evalAt ev ((L d).getD ((L d).length - 1) 0) d
            - evalAt ev ((L d).getD 0 0) d)).sum) := by
  induction dims with
  | nil =>
    intro st q _ _ hq
    exact ⟨st, rfl, by simpa using hq⟩
  | cons d dims ih =>
    intro st q hperm hlen hq
    obtain ⟨hLp, hasc, hj0, hj1, hm⟩ := hL d
    have hne : st.2 ≠ [] := fun e => by
      have := hperm.length_eq
      rw [e, ← hLp.length_eq] at this
      simp only [List.length_nil] at this
      omega
    have h1 := crowdingDimTable_interior S ev d st.1 st.2 (L d) (hLp.trans hperm.symm) hasc
      (j d) hj0 hj1 (by rw [hm]; exact hlen) q (by rw [hm]; exact hq)
    rw [hm] at h1
    obtain ⟨st', hst', hd⟩ := ih (crowdingDimTable S ev d st.1 st.2, sortDim S ev d st.2) _
      ((sortDim_perm S ev d st.2).trans hperm)
      (by rw [length_crowdingDimTable]; exact hlen) h1
    refine ⟨st', ?_, ?_⟩
    · rw [List.foldlM_cons, crowdingDim_eq S ev st d hne]
      exact hst'
    · rw [hd, List.map_cons, List.sum_cons, add_assoc]

end InteriorDistance

/-! ## Lemmas on the sort by descending distance -/

theorem XFloat.ge_nan_left (y : XFloat) : XFloat.ge XFloat.nan y = false := by
  cases y <;> rfl

theorem XFloat.ge_nan_right (x : XFloat) : XFloat.ge x XFloat.nan = false := by
  cases x <;> rfl

section BetterHalfFronts

variable {N : Nat}

end BetterHalfFronts

/-! ## Lemmas on the fronts behind the truncation -/

section SelectSorted

variable {T : Type} {N : Nat} {R : Type}

end SelectSorted

/-! ## Lemmas on the distance of a boundary member -/

section BoundaryDistance

variable {N : Nat}

/-- Whatever the rounds add, a distance that is `+∞` or `NaN` stays `+∞` or `NaN`. -/
theorem crowdingRounds_keep_infOrNaN (S : SortAlg) (ev : List (Fin N → ℚ)) (m : Nat)
    (dims : List (Fin N)) :
    ∀ st st' : List XFloat × List Nat, st.2 ≠ [] →
      dims.foldlM (crowdingDim S ev) st = some st' → InfOrNaN (distAt st.1 m) →
      InfOrNaN (distAt st'.1 m) := by
  induction dims with
  | nil =>
    intro st st' _ h hm
    simp only [List.foldlM_nil, Option.pure_def, Option.some.injEq] at h
    rw [← h]
    exact hm
  | cons i dims ih =>
    intro st st' hne h hm
    rw [List.foldlM_cons, crowdingDim_eq S ev st i hne] at h
    have hp := sortDim_perm S ev i st.2
    have hne' : sortDim S ev i st.2 ≠ [] := fun e => hne (by
      rw [e] at hp
      exact List.Perm.eq_nil hp.symm)
    exact ih (crowdingDimTable S ev i st.1 st.2, sortDim S ev i st.2) st' hne' h
      (crowdingDimTable_infOrNaN S ev i st.1 st.2 m hm)

end BoundaryDistance

/-! ## Theorems for the claims -/

/-- C1: for a list `orig` of pairwise distinct valid indices, `get_front` returns exactly the
indices of `orig` that no other index of `orig` dominates; the returned members are pairwise
mutually non-dominated, and every index of `orig` left out is dominated by a returned one
(the set is maximal). -/
theorem C1_get_front_returns_nondominated_set {V : Type} [LinearOrder V] [Inhabited V]
    {N : Nat} (evaluations : List (Fin N → V)) (orig : List Nat) (_hnd : orig.Nodup)
    (_hvalid : ∀ i ∈ orig, i < evaluations.length) :
    (∀ i, i ∈ (get_front evaluations orig).1 ↔
      i ∈ orig ∧ ∀ j ∈ orig, j ≠ i →
        dominates (evalAt evaluations j) (evalAt evaluations i) ≠ .gt) ∧
    (∀ i ∈ (get_front evaluations orig).1, ∀ j ∈ (get_front evaluations orig).1,
      dominates (evalAt evaluations i) (evalAt evaluations j) = .eq) ∧
    (∀ i ∈ orig, i ∉ (get_front evaluations orig).1 →
      ∃ j ∈ (get_front evaluations orig).1,
        dominates (evalAt evaluations j) (evalAt evaluations i) = .gt) := by
  have hinv := get_front_inv evaluations orig
  have hperm := get_front_perm evaluations orig
  have hmem : ∀ i, i ∈ orig ↔
      i ∈ (get_front evaluations orig).1 ∨ i ∈ (get_front evaluations orig).2 := fun i => by
    rw [← hperm.mem_iff, List.mem_append]
  refine ⟨fun i => ⟨fun hi => ⟨(hmem i).2 (Or.inl hi), fun j hj _ hdom => ?_⟩, fun hi => ?_⟩,
    fun i hi j hj => dominates_eq_of_not_Dom (hinv.1 i hi j hj) (hinv.1 j hj i hi),
    fun i hi hni => ?_⟩
  · rcases (hmem j).1 hj with hj | hj
    · exact hinv.1 j hj i hi hdom
    · obtain ⟨f, hf, hfj⟩ := hinv.2 j hj
      exact hinv.1 f hf i hi (Dom_trans hfj hdom)
  · rcases (hmem i).1 hi.1 with h | h
    · exact h
    · obtain ⟨f, hf, hfi⟩ := hinv.2 i h
      have hne : f ≠ i := fun e => Dom_irrefl evaluations i (e ▸ hfi)
      exact absurd hfi (hi.2 f ((hmem f).2 (Or.inl hf)) hne)
  · rcases (hmem i).1 hi with h | h
    · exact absurd h hni
    · exact hinv.2 i h

/-- C1 at `exampleTable` with `orig = [0, 1, 2]`. -/
theorem C1_get_front_returns_nondominated_set_witness :
    [0, 1, 2].Nodup ∧ (∀ i ∈ [0, 1, 2], i < exampleTable.length) ∧
    (∀ i, i ∈ (get_front exampleTable [0, 1, 2]).1 ↔
      i ∈ [0, 1, 2] ∧ ∀ j ∈ [0, 1, 2], j ≠ i →
        dominates (evalAt exampleTable j) (evalAt exampleTable i) ≠ .gt) :=
  ⟨by decide, by decide,
    (C1_get_front_returns_nondominated_set exampleTable [0, 1, 2] (by decide) (by decide)).1⟩

/-- C2 (the code departs from it): on the table `exampleTableQ` and the range
`[0, 1, 2]`, `Evolver::nondominated_sort` returns the table `[1, 2, 0]` with
`front_end = 2`, so the front holds candidate `1` together with candidate `2`, which
dominates it; the list based `get_front` returns the front `[2]` on the same input. -/
theorem C2_nondominated_sort_keeps_dominated_member :
    Evolver.nondominated_sort exampleTableQ [0, 1, 2] 0 3 = ([1, 2, 0], 2) ∧
    Evolver.dominates (evalAt exampleTableQ 2) (evalAt exampleTableQ 1) = .gt ∧
    get_front exampleTableQ [0, 1, 2] = ([2], [0, 1]) := by
  decide

/-- C3: for objective vectors `a`, `b` of length `N`, `dominates a b` is `greater` exactly
when `a` is nowhere worse and somewhere strictly better than `b`, `less` exactly when `b`
is so against `a`, and `equal` in every other case, that is when the vectors are equal or
each is strictly better on some objective; the same holds for `Evolver::dominates`. -/
theorem C3_dominates_characterisation {V : Type} [LinearOrder V] {N : Nat}
    (a b : Fin N → V) :
    ((dominates a b = .gt ↔ (∀ i, a i ≤ b i) ∧ ∃ i, a i < b i) ∧
     (dominates a b = .lt ↔ (∀ i, b i ≤ a i) ∧ ∃ i, b i < a i) ∧
     (dominates a b = .eq ↔
        ¬ ((∀ i, a i ≤ b i) ∧ ∃ i, a i < b i) ∧ ¬ ((∀ i, b i ≤ a i) ∧ ∃ i, b i < a i)) ∧
     (dominates a b = .eq ↔ a = b ∨ ((∃ i, a i < b i) ∧ ∃ i, b i < a i))) ∧
    ((Evolver.dominates a b = .gt ↔ (∀ i, a i ≤ b i) ∧ ∃ i, a i < b i) ∧
     (Evolver.dominates a b = .lt ↔ (∀ i, b i ≤ a i) ∧ ∃ i, b i < a i) ∧
     (Evolver.dominates a b = .eq ↔
        ¬ ((∀ i, a i ≤ b i) ∧ ∃ i, a i < b i) ∧ ¬ ((∀ i, b i ≤ a i) ∧ ∃ i, b i < a i)) ∧
     (Evolver.dominates a b = .eq ↔ a = b ∨ ((∃ i, a i < b i) ∧ ∃ i, b i < a i))) := by
  have key : (dominates a b = .gt ↔ (∀ i, a i ≤ b i) ∧ ∃ i, a i < b i) ∧
     (dominates a b = .lt ↔ (∀ i, b i ≤ a i) ∧ ∃ i, b i < a i) ∧
     (dominates a b = .eq ↔
        ¬ ((∀ i, a i ≤ b i) ∧ ∃ i, a i < b i) ∧ ¬ ((∀ i, b i ≤ a i) ∧ ∃ i, b i < a i)) ∧
     (dominates a b = .eq ↔ a = b ∨ ((∃ i, a i < b i) ∧ ∃ i, b i < a i)) := by
    refine ⟨dominates_gt_iff a b, dominates_lt_iff a b, ?_, dominates_eq_iff a b⟩
    have h1 := dominates_gt_iff a b
    have h2 := dominates_lt_iff a b
    unfold ParetoDom at h1 h2
    rw [← h1, ← h2]
    cases dominates a b <;> simp
  exact ⟨key, by simpa only [evolver_dominates_eq] using key⟩

/-- C4: for a list `orig` of pairwise distinct indices, the front returned by `get_front`
and what is left in `orig` have no duplicates, are disjoint and together hold exactly the
indices of `orig`; calling `get_front` until `orig` is empty ends after at most
`orig.length` calls and yields fronts without duplicates that are pairwise disjoint and
whose union is `orig`. -/
theorem C4_get_front_splits_pool {V : Type} [LinearOrder V] [Inhabited V] {N : Nat}
    (evaluations : List (Fin N → V)) (orig : List Nat) (hnd : orig.Nodup) :
    ((get_front evaluations orig).1.Nodup ∧ (get_front evaluations orig).2.Nodup ∧
      List.Disjoint (get_front evaluations orig).1 (get_front evaluations orig).2 ∧
      (∀ i, i ∈ orig ↔
        i ∈ (get_front evaluations orig).1 ∨ i ∈ (get_front evaluations orig).2) ∧
      (get_front evaluations orig).1.length + (get_front evaluations orig).2.length
        = orig.length) ∧
    ∃ fronts, get_fronts evaluations orig.length orig = some fronts ∧
      (∀ f ∈ fronts, f.Nodup) ∧ fronts.Pairwise List.Disjoint ∧
      (∀ i, i ∈ orig ↔ ∃ f ∈ fronts, i ∈ f) ∧
      (fronts.map List.length).sum = orig.length := by
  have hperm := get_front_perm evaluations orig
  have hnd2 : ((get_front evaluations orig).1 ++ (get_front evaluations orig).2).Nodup :=
    hperm.nodup_iff.2 hnd
  rw [List.nodup_append] at hnd2
  refine ⟨⟨hnd2.1, hnd2.2.1, hnd2.2.2, fun i => by rw [← hperm.mem_iff, List.mem_append],
    get_front_length evaluations orig⟩, ?_⟩
  obtain ⟨fronts, hf, hp, _⟩ := get_fronts_spec evaluations orig.length orig le_rfl
  have hnd3 : fronts.flatten.Nodup := hp.nodup_iff.2 hnd
  rw [List.nodup_flatten] at hnd3
  refine ⟨fronts, hf, hnd3.1, hnd3.2, fun i => ?_, ?_⟩
  · rw [← hp.mem_iff, List.mem_flatten]
  · rw [← hp.length_eq, List.length_flatten]

/-- C4 at `exampleTable` with `orig = [0, 1, 2]`. -/
theorem C4_get_front_splits_pool_witness :
    [0, 1, 2].Nodup ∧
    ∃ fronts, get_fronts exampleTable [0, 1, 2].length [0, 1, 2] = some fronts ∧
      (∀ f ∈ fronts, f.Nodup) ∧ fronts.Pairwise List.Disjoint ∧
      (∀ i, i ∈ [0, 1, 2] ↔ ∃ f ∈ fronts, i ∈ f) ∧
      (fronts.map List.length).sum = [0, 1, 2].length :=
  ⟨by decide, (C4_get_front_splits_pool exampleTable [0, 1, 2] (by decide)).2⟩

/-- C5: for a range `first .. last - 1` of pairwise distinct valid indices, after
`Evolver::nondominated_sort` every index left in the remainder `front_end .. last - 1` is
dominated by an index of the front `first .. front_end - 1`; and in two successive rounds
of the selection loop of `evolve`, from position `it`, every member of the second front is
dominated by a member of the first. -/
theorem C5_remainder_dominated_by_front {T : Type} {N : Nat} {R : Type}
    (m_evaluations : List (Fin N → ℚ)) (m_indices : List Nat) (first last : Nat)
    (h1 : first ≤ last) (h2 : last ≤ m_indices.length)
    (_hnd : ((m_indices.drop first).take (last - first)).Nodup)
    (_hvalid : ∀ p, first ≤ p → p < last → m_indices.getD p 0 < m_evaluations.length)
    (S : SortAlg) (self : Evolver T N R) (it : Nat) (r1 r2 : Evolver T N R × Nat)
    (hit : it ≤ self.m_indices.length) (hs1 : Evolver.selectStep S self it = some r1)
    (hs2 : Evolver.selectStep S r1.1 r1.2 = some r2) :
    (∀ p, (Evolver.nondominated_sort m_evaluations m_indices first last).2 ≤ p → p < last →
      ∃ q, first ≤ q ∧ q < (Evolver.nondominated_sort m_evaluations m_indices first last).2 ∧
        Evolver.dominates
          (evalAt m_evaluations
            ((Evolver.nondominated_sort m_evaluations m_indices first last).1.getD q 0))
          (evalAt m_evaluations
            ((Evolver.nondominated_sort m_evaluations m_indices first last).1.getD p 0))
          = .gt) ∧
    (∀ p, r1.2 ≤ p → p < r2.2 →
      ∃ q, it ≤ q ∧ q < r1.2 ∧
        Evolver.dominates (evalAt self.m_evaluations (r2.1.m_indices.getD q 0))
          (evalAt self.m_evaluations (r2.1.m_indices.getD p 0)) = .gt) := by
  refine ⟨(Evolver.nondominated_sort_spec m_evaluations m_indices first last h1 h2).rem, ?_⟩
  obtain ⟨e1, ev1, _, E1⟩ := Evolver.selectStep_spec S self it r1 hs1 hit
  have O1 := Evolver.nondominated_sort_spec self.m_evaluations self.m_indices it
    self.m_indices.length hit le_rfl
  rw [← e1] at O1
  have hlen1 : r1.1.m_indices.length = self.m_indices.length := E1.len.trans O1.len
  have hit1 : r1.2 ≤ r1.1.m_indices.length := by rw [hlen1]; exact O1.hi
  obtain ⟨e2, _, _, E2⟩ := Evolver.selectStep_spec S r1.1 r1.2 r2 hs2 hit1
  have O2 := Evolver.nondominated_sort_spec r1.1.m_evaluations r1.1.m_indices r1.2
    r1.1.m_indices.length hit1 le_rfl
  rw [← e2] at O2
  intro p hp1 hp2
  -- the member at `p` sat in the remainder of the first round
  obtain ⟨p', hp1', hp2', hp3'⟩ := E2.bwd p hp1 hp2
  obtain ⟨p'', hp1'', hp2'', hp3''⟩ := O2.bwd p' hp1' (lt_of_lt_of_le hp2' O2.hi)
  have e3 : r1.1.m_indices.getD p'' 0 =
      (Evolver.nondominated_sort self.m_evaluations self.m_indices it
        self.m_indices.length).1.getD p'' 0 := E1.out p'' (Or.inr hp1'')
  obtain ⟨q, hq1, hq2, hq3⟩ := O1.rem p'' hp1'' (by rw [← hlen1]; exact hp2'')
  -- its dominator is still in the first front
  obtain ⟨q', hq1', hq2', hq3'⟩ := E1.fwd q hq1 hq2
  have e4 : r2.1.m_indices.getD q' 0 = r1.1.m_indices.getD q' 0 :=
    (E2.out q' (Or.inl hq2')).trans (O2.out q' (Or.inl hq2'))
  refine ⟨q', hq1', hq2', ?_⟩
  rw [evolver_dominates_eq, e4, hq3', hp3', hp3'', e3]
  exact hq3

/-- C5 at `exampleTableQ`, range `[0, 1, 2]`, and the two rounds of the selection loop from
`exampleEvolver`. -/
theorem C5_remainder_dominated_by_front_witness :
    (Evolver.selectStep stdSort exampleEvolver 0 = some (exampleEvolver1, 2) ∧
      Evolver.selectStep stdSort exampleEvolver1 2 = some (exampleEvolver2, 3)) ∧
    (∀ p, 2 ≤ p → p < 3 →
      ∃ q, 0 ≤ q ∧ q < 2 ∧
        Evolver.dominates (evalAt exampleTableQ (exampleEvolver2.m_indices.getD q 0))
          (evalAt exampleTableQ (exampleEvolver2.m_indices.getD p 0)) = .gt) :=
  ⟨⟨rfl, rfl⟩,
    (C5_remainder_dominated_by_front exampleTableQ [0, 1, 2] 0 3 (by decide) (by decide)
      (by decide) (by decide) stdSort exampleEvolver 0 (exampleEvolver1, 2)
      (exampleEvolver2, 3) (by decide) rfl rfl).2⟩

/-- C6 (fails as stated): on three candidates tied on the only objective, both
`assign_crowding_distance` routines leave the interior candidate `1` at `NaN`: the round
has no branch for a range of zero, its factor is `1 / 0 = +∞` and the interior
contribution is `0 * ∞ = NaN`. -/
theorem C6_zero_range_counterexample :
    assign_crowding_distance stdSort tieTable [XFloat.fin 0, XFloat.fin 0, XFloat.fin 0]
        [0, 1, 2] = some [XFloat.pinf, XFloat.nan, XFloat.pinf] ∧
    Evolver.assign_crowding_distance stdSort tieTable
        [XFloat.fin 0, XFloat.fin 0, XFloat.fin 0] [0, 1, 2] 0 3
      = some ([XFloat.pinf, XFloat.nan, XFloat.pinf], [0, 1, 2]) := by
  decide!

/-- C6 (amended): for a non-empty front of pairwise distinct valid indices whose members all
have the same value on objective `d`, the round of `assign_crowding_distance` for `d`, from
any table and any order of the front, sets the two ends of the sorted order to `+∞` and
leaves every member between them at `NaN`; after the whole call every member's distance is
`+∞` or `NaN`, and `Evolver::assign_crowding_distance` on a range holding the front computes
the same table. -/
theorem C6_zero_range_yields_nan {N : Nat} (S : SortAlg) (evaluations : List (Fin N → ℚ))
    (crowding_distances : List XFloat) (idxs : List Nat) (d : Fin N)
    (hne : idxs ≠ []) (hnd : idxs.Nodup) (hvalid : ∀ m ∈ idxs, m < crowding_distances.length)
    (hz : ∀ a ∈ idxs, ∀ b ∈ idxs, evalAt evaluations a d = evalAt evaluations b d) :
    (∀ (cd0 : List XFloat) (L : List Nat), L.Perm idxs →
      cd0.length = crowding_distances.length →
      ∃ cd1 L1, crowdingDim S evaluations (cd0, L) d = some (cd1, L1) ∧ L1.Perm idxs ∧
        distAt cd1 (L1.getD 0 0) = XFloat.pinf ∧
        distAt cd1 (L1.getD (L1.length - 1) 0) = XFloat.pinf ∧
        ∀ j, 1 ≤ j → j + 1 < L1.length → distAt cd1 (L1.getD j 0) = XFloat.nan) ∧
    (∃ cd', assign_crowding_distance S evaluations crowding_distances idxs = some cd' ∧
      (∀ m ∈ idxs, distAt cd' m = XFloat.pinf ∨ distAt cd' m = XFloat.nan) ∧
      ∀ (m_indices : List Nat) (first last : Nat), first < last → last ≤ m_indices.length →
        (m_indices.drop first).take (last - first) = idxs →
        (Evolver.assign_crowding_distance S evaluations crowding_distances m_indices first
          last).map Prod.fst = some cd') := by
  constructor
  · intro cd0 L hL hlen
    have hLne : L ≠ [] := fun e => hne (by rw [e] at hL; exact List.Perm.eq_nil hL.symm)
    have hzL : ZeroRange evaluations d L := ZeroRange.of_perm hz hL
    have hvL : ∀ m ∈ L, m < cd0.length := fun m hm => by
      rw [hlen]; exact hvalid m (hL.subset hm)
    have hb := crowdingDimTable_boundary S evaluations d cd0 L (hL.nodup_iff.2 hnd) hLne hvL
    exact ⟨_, _, crowdingDim_eq S evaluations (cd0, L) d hLne,
      (sortDim_perm S evaluations d L).trans hL, hb.1, hb.2,
      fun j hj1 hj2 =>
        crowdingDimTable_zeroRange_interior S evaluations d cd0 L hzL hvL j hj1 hj2⟩
  · obtain ⟨st', h1, _, _⟩ := crowdingRounds_some S evaluations (List.finRange N)
      (crowdingReset crowding_distances idxs, idxs) hne
    refine ⟨st'.1, by simp only [assign_crowding_distance, h1, Option.map_some'], ?_, ?_⟩
    · exact crowdingRounds_infOrNaN S evaluations d (List.finRange N) _ st' hne h1 hz
        (fun m hm => by rw [crowdingReset_length]; exact hvalid m hm)
        (Or.inl (List.mem_finRange d))
    · intro m_indices first last hlt hle hslice
      rw [evolver_assign_crowding_distance_eq S evaluations crowding_distances m_indices first
        last hlt hle, hslice, h1]
      rfl

/-- C6 (amended) at `tieTable` with the front `[0, 1, 2]`. -/
theorem C6_zero_range_yields_nan_witness :
    ([0, 1, 2] ≠ [] ∧ [0, 1, 2].Nodup ∧
      (∀ m ∈ [0, 1, 2], m < [XFloat.fin 0, XFloat.fin 0, XFloat.fin 0].length) ∧
      ∀ a ∈ [0, 1, 2], ∀ b ∈ [0, 1, 2], evalAt tieTable a 0 = evalAt tieTable b 0) ∧
    ∃ cd', assign_crowding_distance stdSort tieTable
        [XFloat.fin 0, XFloat.fin 0, XFloat.fin 0] [0, 1, 2] = some cd' ∧
      (∀ m ∈ [0, 1, 2], distAt cd' m = XFloat.pinf ∨ distAt cd' m = XFloat.nan) ∧
      ∀ (m_indices : List Nat) (first last : Nat), first < last → last ≤ m_indices.length →
        (m_indices.drop first).take (last - first) = [0, 1, 2] →
        (Evolver.assign_crowding_distance stdSort tieTable
          [XFloat.fin 0, XFloat.fin 0, XFloat.fin 0] m_indices first last).map Prod.fst
          = some cd' :=
  ⟨⟨by decide, by decide, by decide, by decide⟩,
    (C6_zero_range_yields_nan stdSort tieTable [XFloat.fin 0, XFloat.fin 0, XFloat.fin 0]
      [0, 1, 2] 0 (by decide) (by decide) (by decide) (by decide)).2⟩

/-- C7 (fails as stated): on three mutually non-dominated candidates with four objectives,
tied on the last one, candidate `0` is placed first when the front is sorted by
objective `0`, and its distance after `assign_crowding_distance` is `NaN`, not `+∞`: the
round of the last objective adds `0 * ∞` to it. -/
theorem C7_boundary_counterexample :
    sortDim stdSort tieLastTable 0 [0, 1, 2] = [0, 1, 2] ∧
    assign_crowding_distance stdSort tieLastTable [XFloat.fin 0, XFloat.fin 0, XFloat.fin 0]
        [0, 1, 2] = some [XFloat.nan, XFloat.pinf, XFloat.pinf] ∧
    Evolver.assign_crowding_distance stdSort tieLastTable
        [XFloat.fin 0, XFloat.fin 0, XFloat.fin 0] [0, 1, 2] 0 3
      = some ([XFloat.nan, XFloat.pinf, XFloat.pinf], [2, 0, 1]) := by
  decide!

/-- C7 (amended): for a front of at least two pairwise distinct valid indices and an
objective `d`, the rounds up to `d` leave the front sorted ascending by `d` with the first
and the last member of that order at `+∞`.  After `assign_crowding_distance` each of the
two holds `+∞` or `NaN`, never a finite value, whatever terms the later rounds add (this
part does not depend on how a term is computed); when `d` is the last objective both hold
`+∞`.
`Evolver::assign_crowding_distance` on a range holding the front computes the same
table. -/
theorem C7_boundary_members_never_finite {N : Nat} (S : SortAlg)
    (evaluations : List (Fin N → ℚ)) (crowding_distances : List XFloat) (idxs : List Nat)
    (d : Fin N) (hsize : 2 ≤ idxs.length) (hnd : idxs.Nodup)
    (hvalid : ∀ m ∈ idxs, m < crowding_distances.length) :
    ∃ sorted cdd cd',
      ((List.finRange N).take (d + 1)).foldlM (crowdingDim S evaluations)
        (crowdingReset crowding_distances idxs, idxs) = some (cdd, sorted) ∧
      sorted.Perm idxs ∧
      sorted.Pairwise (fun a b => evalAt evaluations a d ≤ evalAt evaluations b d) ∧
      distAt cdd (sorted.getD 0 0) = XFloat.pinf ∧
      distAt cdd (sorted.getD (sorted.length - 1) 0) = XFloat.pinf ∧
      assign_crowding_distance S evaluations crowding_distances idxs = some cd' ∧
      (distAt cd' (sorted.getD 0 0) = XFloat.pinf ∨
        distAt cd' (sorted.getD 0 0) = XFloat.nan) ∧
      (distAt cd' (sorted.getD (sorted.length - 1) 0) = XFloat.pinf ∨
        distAt cd' (sorted.getD (sorted.length - 1) 0) = XFloat.nan) ∧
      ((d : Nat) + 1 = N →
        distAt cd' (sorted.getD 0 0) = XFloat.pinf ∧
        distAt cd' (sorted.getD (sorted.length - 1) 0) = XFloat.pinf) ∧
      ∀ (m_indices : List Nat) (first last : Nat), first < last → last ≤ m_indices.length →
        (m_indices.drop first).take (last - first) = idxs →
        (Evolver.assign_crowding_distance S evaluations crowding_distances m_indices first
          last).map Prod.fst = some cd' := by
  have hne : idxs ≠ [] := fun e => by rw [e] at hsize; simp at hsize
  -- the rounds before `d`
  obtain ⟨sa, ha1, ha2, ha3⟩ := crowdingRounds_some S evaluations ((List.finRange N).take d)
    (crowdingReset crowding_distances idxs, idxs) hne
  have hsane : sa.2 ≠ [] := fun e => hne (by
    rw [e] at ha2; exact List.Perm.eq_nil ha2.symm)
  have hsp := sortDim_perm S evaluations d sa.2
  have hsdne : sortDim S evaluations d sa.2 ≠ [] := fun e => hsane (by
    rw [e] at hsp; exact List.Perm.eq_nil hsp.symm)
  -- the rounds after `d`
  obtain ⟨sb, hb1, _, _⟩ := crowdingRounds_some S evaluations
    ((List.finRange N).drop (d + 1))
    (crowdingDimTable S evaluations d sa.1 sa.2, sortDim S evaluations d sa.2) hsdne
  have hupto : ((List.finRange N).take (d + 1)).foldlM (crowdingDim S evaluations)
      (crowdingReset crowding_distances idxs, idxs)
      = some (crowdingDimTable S evaluations d sa.1 sa.2, sortDim S evaluations d sa.2) := by
    rw [finRange_take_succ, List.foldlM_append, ha1]
    simp only [Option.bind_eq_bind, Option.some_bind, List.foldlM_cons, List.foldlM_nil]
    rw [crowdingDim_eq S evaluations sa d hsane]
    rfl
  have hall : (List.finRange N).foldlM (crowdingDim S evaluations)
      (crowdingReset crowding_distances idxs, idxs) = some sb := by
    conv_lhs => rw [← List.take_append_drop (d + 1) (List.finRange N)]
    rw [List.foldlM_append, hupto]
    exact hb1
  have hbd := crowdingDimTable_boundary S evaluations d sa.1 sa.2 (ha2.nodup_iff.2 hnd) hsane
    (fun m hm => by
      rw [ha3, crowdingReset_length]; exact hvalid m (ha2.subset hm))
  have hkeep : ∀ m, distAt (crowdingDimTable S evaluations d sa.1 sa.2) m = XFloat.pinf →
      InfOrNaN (distAt sb.1 m) := fun m hm =>
    crowdingRounds_keep_infOrNaN S evaluations m _ _ sb hsdne hb1 (Or.inl hm)
  refine ⟨sortDim S evaluations d sa.2, crowdingDimTable S evaluations d sa.1 sa.2, sb.1,
    hupto, hsp.trans ha2, sortDim_sorted S evaluations d sa.2, hbd.1, hbd.2,
    by simp only [assign_crowding_distance, hall, Option.map_some'],
    hkeep _ hbd.1, hkeep _ hbd.2, fun hlast => ?_, ?_⟩
  · have hdrop : (List.finRange N).drop (d + 1) = [] :=
      List.drop_of_length_le (by rw [List.length_finRange]; omega)
    rw [hdrop] at hb1
    simp only [List.foldlM_nil, Option.pure_def, Option.some.injEq] at hb1
    rw [← hb1]
    exact hbd
  · intro m_indices first last hlt hle hslice
    rw [evolver_assign_crowding_distance_eq S evaluations crowding_distances m_indices first
      last hlt hle, hslice, hall]
    rfl

/-- C7 (amended) at `exampleTableQ` with the front `[0, 1, 2]` and the last objective
`1`: the order is `[2, 1, 0]`, and the candidates `2` and `0` end at `+∞`. -/
theorem C7_boundary_members_never_finite_witness :
    (2 ≤ [0, 1, 2].length ∧ [0, 1, 2].Nodup ∧
      (∀ m ∈ [0, 1, 2], m < [XFloat.fin 0, XFloat.fin 0, XFloat.fin 0].length)) ∧
    sortDim stdSort exampleTableQ 1 (sortDim stdSort exampleTableQ 0 [0, 1, 2]) = [2, 1, 0] ∧
    ∃ sorted cdd cd',
      ((List.finRange 2).take ((1 : Fin 2) + 1)).foldlM (crowdingDim stdSort exampleTableQ)
        (crowdingReset [XFloat.fin 0, XFloat.fin 0, XFloat.fin 0] [0, 1, 2],
          [0, 1, 2]) = some (cdd, sorted) ∧
      sorted.Perm [0, 1, 2] ∧
      sorted.Pairwise (fun a b => evalAt exampleTableQ a 1 ≤ evalAt exampleTableQ b 1) ∧
      distAt cdd (sorted.getD 0 0) = XFloat.pinf ∧
      distAt cdd (sorted.getD (sorted.length - 1) 0) = XFloat.pinf ∧
      assign_crowding_distance stdSort exampleTableQ
        [XFloat.fin 0, XFloat.fin 0, XFloat.fin 0] [0, 1, 2] = some cd' ∧
      distAt cd' (sorted.getD 0 0) = XFloat.pinf ∧
      distAt cd' (sorted.getD (sorted.length - 1) 0) = XFloat.pinf := by
  obtain ⟨sorted, cdd, cd', h1, h2, h3, h4, h5, h6, _, _, h9, _⟩ :=
    C7_boundary_members_never_finite stdSort exampleTableQ
      [XFloat.fin 0, XFloat.fin 0, XFloat.fin 0] [0, 1, 2] 1 (by decide) (by decide)
      (by decide)
  exact ⟨⟨by decide, by decide, by decide⟩, by decide,
    sorted, cdd, cd', h1, h2, h3, h4, h5, h6, (h9 rfl).1, (h9 rfl).2⟩

/-- C8 (fails as stated): two candidates with equal evaluations, the first with distance
`1`, the second with distance `NaN`.  The distances differ, `1 != NaN` holds and `1 > NaN`
does not, so both `Tournament::fight` and `Evolver::tournament` return the second
candidate, whose distance is not the larger one. -/
theorem C8_tournament_nan_counterexample :
    dominates (evalAt nanTournament.m_evaluations 0) (evalAt nanTournament.m_evaluations 1)
      = .eq ∧
    distAt nanTournament.m_crowding_distances 0 ≠ distAt nanTournament.m_crowding_distances 1 ∧
    (Tournament.fight constRandom nanTournament 0 1).1 = nanTournament.m_population.getD 1 0 ∧
    (Evolver.tournament constRandom nanEvolver 0 1).1 = nanEvolver.m_population.getD 1 0 ∧
    nanTournament.m_population.getD 1 0 ≠ nanTournament.m_population.getD 0 0 ∧
    XFloat.gt (distAt nanTournament.m_crowding_distances 1)
      (distAt nanTournament.m_crowding_distances 0) = false := by
  decide

/-- C8 (amended): for valid indices `a`, `b`: if `evaluation[a]` dominates `evaluation[b]`
the tournament returns `population[a]`, if `evaluation[b]` dominates `evaluation[a]` it
returns `population[b]`, in both cases without drawing from the random source; otherwise,
if the two distances differ and neither is `NaN`, it returns the candidate with the larger
distance, and if one of them is `NaN` it returns `population[b]`, again without drawing; in
every case the result is `population[a]` or `population[b]` and the three tables are as
before.  This holds for `Tournament::fight` and for `Evolver::tournament`. -/
theorem C8_tournament_decision {T : Type} [Inhabited T] {N : Nat} {R : Type}
    (G : RandomSource R) (t : Tournament T N R) (e : Evolver T N R) (a b : Nat)
    (_hvalid : (a < t.m_population.length ∧ b < t.m_population.length) ∧
      (a < t.m_evaluations.length ∧ b < t.m_evaluations.length) ∧
      (a < t.m_crowding_distances.length ∧ b < t.m_crowding_distances.length))
    (_hvalid' : (a < e.m_population.length ∧ b < e.m_population.length) ∧
      (a < e.m_evaluations.length ∧ b < e.m_evaluations.length) ∧
      (a < e.m_crowding_distances.length ∧ b < e.m_crowding_distances.length)) :
    ((dominates (evalAt t.m_evaluations a) (evalAt t.m_evaluations b) = .gt →
        Tournament.fight G t a b = (t.m_population.getD a default, t)) ∧
      (dominates (evalAt t.m_evaluations b) (evalAt t.m_evaluations a) = .gt →
        Tournament.fight G t a b = (t.m_population.getD b default, t)) ∧
      (dominates (evalAt t.m_evaluations a) (evalAt t.m_evaluations b) ≠ .gt →
        dominates (evalAt t.m_evaluations b) (evalAt t.m_evaluations a) ≠ .gt →
        distAt t.m_crowding_distances a ≠ distAt t.m_crowding_distances b →
        distAt t.m_crowding_distances a ≠ XFloat.nan →
        distAt t.m_crowding_distances b ≠ XFloat.nan →
        (Tournament.fight G t a b).2 = t ∧
        ((XFloat.gt (distAt t.m_crowding_distances a) (distAt t.m_crowding_distances b) = true ∧
            (Tournament.fight G t a b).1 = t.m_population.getD a default) ∨
          (XFloat.gt (distAt t.m_crowding_distances b) (distAt t.m_crowding_distances a) = true ∧
            (Tournament.fight G t a b).1 = t.m_population.getD b default))) ∧
      (dominates (evalAt t.m_evaluations a) (evalAt t.m_evaluations b) ≠ .gt →
        dominates (evalAt t.m_evaluations b) (evalAt t.m_evaluations a) ≠ .gt →
        distAt t.m_crowding_distances a = XFloat.nan ∨
          distAt t.m_crowding_distances b = XFloat.nan →
        Tournament.fight G t a b = (t.m_population.getD b default, t)) ∧
      ((Tournament.fight G t a b).1 = t.m_population.getD a default ∨
        (Tournament.fight G t a b).1 = t.m_population.getD b default) ∧
      (Tournament.fight G t a b).2.m_population = t.m_population ∧
      (Tournament.fight G t a b).2.m_evaluations = t.m_evaluations ∧
      (Tournament.fight G t a b).2.m_crowding_distances = t.m_crowding_distances) ∧
    ((Evolver.dominates (evalAt e.m_evaluations a) (evalAt e.m_evaluations b) = .gt →
        Evolver.tournament G e a b = (e.m_population.getD a default, e.m_rng)) ∧
      (Evolver.dominates (evalAt e.m_evaluations b) (evalAt e.m_evaluations a) = .gt →
        Evolver.tournament G e a b = (e.m_population.getD b default, e.m_rng)) ∧
      (Evolver.dominates (evalAt e.m_evaluations a) (evalAt e.m_evaluations b) ≠ .gt →
        Evolver.dominates (evalAt e.m_evaluations b) (evalAt e.m_evaluations a) ≠ .gt →
        distAt e.m_crowding_distances a ≠ distAt e.m_crowding_distances b →
        distAt e.m_crowding_distances a ≠ XFloat.nan →
        distAt e.m_crowding_distances b ≠ XFloat.nan →
        (Evolver.tournament G e a b).2 = e.m_rng ∧
        ((XFloat.gt (distAt e.m_crowding_distances a) (distAt e.m_crowding_distances b) = true ∧
            (Evolver.tournament G e a b).1 = e.m_population.getD a default) ∨
          (XFloat.gt (distAt e.m_crowding_distances b) (distAt e.m_crowding_distances a) = true ∧
            (Evolver.tournament G e a b).1 = e.m_population.getD b default))) ∧
      (Evolver.dominates (evalAt e.m_evaluations a) (evalAt e.m_evaluations b) ≠ .gt →
        Evolver.dominates (evalAt e.m_evaluations b) (evalAt e.m_evaluations a) ≠ .gt →
        distAt e.m_crowding_distances a = XFloat.nan ∨
          distAt e.m_crowding_distances b = XFloat.nan →
        Evolver.tournament G e a b = (e.m_population.getD b default, e.m_rng)) ∧
      ((Evolver.tournament G e a b).1 = e.m_population.getD a default ∨
        (Evolver.tournament G e a b).1 = e.m_population.getD b default)) := by
  obtain ⟨f1, f2, f3, f4, f5, f6, f7⟩ := fight_cases G t a b
  obtain ⟨g1, g2, g3, g4⟩ := tournament_cases G e a b
  simp only [evolver_dominates_eq]
  refine ⟨⟨f1, f2, fun h1 h2 hne hna hnb => ?_, fun h1 h2 hnan => ?_, f4, f5, f6, f7⟩,
    g1, g2, fun h1 h2 hne hna hnb => ?_, fun h1 h2 hnan => ?_, g4⟩
  · rw [f3 h1 h2 (XFloat.ne_eq_true_of_ne _ _ hne)]
    refine ⟨rfl, ?_⟩
    rcases XFloat.gt_total _ _ hne hna hnb with h | h
    · exact Or.inl ⟨h, by simp only [h, if_true]⟩
    · have h' := XFloat.gt_asymm _ _ h
      exact Or.inr ⟨h, by simp only [h', Bool.false_eq_true, if_false]⟩
  · have hne : XFloat.ne (distAt t.m_crowding_distances a) (distAt t.m_crowding_distances b)
        = true := by
      rcases hnan with h | h <;> rw [h]
      · exact XFloat.ne_nan_left _
      · exact XFloat.ne_nan_right _
    have hgt : XFloat.gt (distAt t.m_crowding_distances a) (distAt t.m_crowding_distances b)
        = false := by
      rcases hnan with h | h <;> rw [h]
      · exact XFloat.gt_nan_left _
      · exact XFloat.gt_nan_right _
    rw [f3 h1 h2 hne, hgt]
    rfl
  · rw [g3 h1 h2 (XFloat.ne_eq_true_of_ne _ _ hne)]
    refine ⟨rfl, ?_⟩
    rcases XFloat.gt_total _ _ hne hna hnb with h | h
    · exact Or.inl ⟨h, by simp only [h, if_true]⟩
    · have h' := XFloat.gt_asymm _ _ h
      exact Or.inr ⟨h, by simp only [h', Bool.false_eq_true, if_false]⟩
  · have hne : XFloat.ne (distAt e.m_crowding_distances a) (distAt e.m_crowding_distances b)
        = true := by
      rcases hnan with h | h <;> rw [h]
      · exact XFloat.ne_nan_left _
      · exact XFloat.ne_nan_right _
    have hgt : XFloat.gt (distAt e.m_crowding_distances a) (distAt e.m_crowding_distances b)
        = false := by
      rcases hnan with h | h <;> rw [h]
      · exact XFloat.gt_nan_left _
      · exact XFloat.gt_nan_right _
    rw [g3 h1 h2 hne, hgt]
    rfl

/-- C8 (amended) at `exampleTournament` and `exampleTournamentEvolver` with the candidates
`0` and `1`, which do not dominate each other and have the distances `1` and `2`. -/
theorem C8_tournament_decision_witness :
    ((0 < exampleTournament.m_population.length ∧ 1 < exampleTournament.m_population.length) ∧
      (0 < exampleTournament.m_evaluations.length ∧ 1 < exampleTournament.m_evaluations.length) ∧
      (0 < exampleTournament.m_crowding_distances.length ∧
        1 < exampleTournament.m_crowding_distances.length)) ∧
    (dominates (evalAt exampleTournament.m_evaluations 0)
        (evalAt exampleTournament.m_evaluations 1) ≠ .gt →
      dominates (evalAt exampleTournament.m_evaluations 1)
        (evalAt exampleTournament.m_evaluations 0) ≠ .gt →
      distAt exampleTournament.m_crowding_distances 0 ≠
        distAt exampleTournament.m_crowding_distances 1 →
      distAt exampleTournament.m_crowding_distances 0 ≠ XFloat.nan →
      distAt exampleTournament.m_crowding_distances 1 ≠ XFloat.nan →
      (Tournament.fight constRandom exampleTournament 0 1).2 = exampleTournament ∧
      ((XFloat.gt (distAt exampleTournament.m_crowding_distances 0)
            (distAt exampleTournament.m_crowding_distances 1) = true ∧
          (Tournament.fight constRandom exampleTournament 0 1).1 =
            exampleTournament.m_population.getD 0 default) ∨
        (XFloat.gt (distAt exampleTournament.m_crowding_distances 1)
            (distAt exampleTournament.m_crowding_distances 0) = true ∧
          (Tournament.fight constRandom exampleTournament 0 1).1 =
            exampleTournament.m_population.getD 1 default))) :=
  ⟨by decide,
    (C8_tournament_decision constRandom exampleTournament exampleTournamentEvolver 0 1
      (by decide) (by decide)).1.2.2.1⟩

/-- C10 (fails as stated): `Evolver::init(2)` on an evolver with empty tables does not fail:
it sets the population size to `2`, initialises the two candidates (the random source has
advanced twice) and evaluates them, although `2` is not divisible by `4`. -/
theorem C10_init_accepts_counterexample :
    2 % 4 ≠ 0 ∧ emptyEvolver.m_population_size = 0 ∧ emptyEvolver.m_rng = 0 ∧
    (Evolver.init stdSort exampleEvolverFunctions emptyEvolver 2).isSome = true ∧
    (Evolver.init stdSort exampleEvolverFunctions emptyEvolver 2).map
      (fun s => s.m_population_size) = some 2 ∧
    (Evolver.init stdSort exampleEvolverFunctions emptyEvolver 2).map
      (fun s => s.m_population) = some [0, 1, 0, 0] ∧
    (Evolver.init stdSort exampleEvolverFunctions emptyEvolver 2).map
      (fun s => s.m_rng) = some 2 := by
  decide!

/-- C10 (amended): `Evolver::init(P)` has no check of `P`: for a population size `P` that is
not divisible by `4` it completes, sets `m_population_size` to `P`, sizes the three tables
to `2P` and leaves `m_indices` a permutation of `0 .. 2P - 1`; the constructor of class
`TinyNSGA2` rejects a population whose size is not divisible by `4`, whatever the
operators. -/
theorem C10_only_constructor_checks_size {T : Type} [Inhabited T] {N : Nat} {R : Type}
    (S : SortAlg) (F : EvolverFunctions T N R) (self : Evolver T N R) (P : Nat)
    (hP : P % 4 ≠ 0) (F' : NSGA2Functions T N R) (population : List T) (rng : R)
    (hpop : population.length = P) :
    (∃ s', Evolver.init S F self P = some s' ∧ s'.m_population_size = P ∧
      s'.m_population.length = 2 * P ∧ s'.m_evaluations.length = 2 * P ∧
      s'.m_crowding_distances.length = 2 * P ∧ s'.m_indices.Perm (List.range (2 * P))) ∧
    TinyNSGA2.construct S F' population rng = none := by
  obtain ⟨s', h1, h2⟩ := init_spec S F self P
  exact ⟨⟨s', h1, h2.population_size, h2.population, h2.evaluations, h2.crowding_distances,
    h2.indices⟩, construct_rejects S F' population rng (by rw [hpop]; exact hP)⟩

/-- C10 (amended) at `P = 2` with `emptyEvolver` and a population of two candidates. -/
theorem C10_only_constructor_checks_size_witness :
    (2 % 4 ≠ 0 ∧ [(0 : ℚ), 1].length = 2) ∧
    (∃ s', Evolver.init stdSort exampleEvolverFunctions emptyEvolver 2 = some s' ∧
      s'.m_population_size = 2 ∧ s'.m_population.length = 2 * 2 ∧
      s'.m_evaluations.length = 2 * 2 ∧ s'.m_crowding_distances.length = 2 * 2 ∧
      s'.m_indices.Perm (List.range (2 * 2))) ∧
    TinyNSGA2.construct stdSort exampleFunctions1 [(0 : ℚ), 1] 0 = none :=
  ⟨by decide,
    C10_only_constructor_checks_size stdSort exampleEvolverFunctions emptyEvolver 2 (by decide)
      exampleFunctions1 [(0 : ℚ), 1] 0 (by decide)⟩

/-- C11: `evolve(0)` returns at once with the object as it was, for `Evolver::evolve` and
for `TinyNSGA2::evolve`: population, evaluations, crowding distances, index table and the
state of the random source are those from before the call. -/
theorem C11_evolve_zero_is_identity {T : Type} [Inhabited T] {N : Nat} {R : Type}
    (S : SortAlg) (G : RandomSource R) (F : EvolverFunctions T N R)
    (F' : NSGA2Functions T N R) (e : Evolver T N R) (t : TinyNSGA2 T N R) :
    Evolver.evolve S G F 0 e = some e ∧ TinyNSGA2.evolve S G F' 0 t = some t :=
  ⟨rfl, rfl⟩

/-- C12: the comparison `dominates b a` is the reverse of `dominates a b` (`greater` and
`less` change places, `equal` stays), and `dominates a a` is `equal`; the same holds for the
copy `Evolver::dominates`. -/
theorem C12_dominates_antisymmetric {V : Type} [LinearOrder V] {N : Nat} (a b : Fin N → V) :
    dominates b a = (dominates a b).swap ∧
    (dominates a b = .gt ↔ dominates b a = .lt) ∧
    (dominates a b = .eq ↔ dominates b a = .eq) ∧
    dominates a a = .eq ∧
    Evolver.dominates b a = (Evolver.dominates a b).swap ∧
    Evolver.dominates a a = .eq := by
  have h : dominates b a = (dominates a b).swap := by
    rw [dominates_eq_compare, dominates_eq_compare]
    cases adbFlag a b <;> cases adbFlag b a <;> rfl
  have h2 : dominates a a = .eq := (dominates_eq_iff a a).2 (Or.inl rfl)
  refine ⟨h, ?_, ?_, h2, ?_, ?_⟩
  · rw [h]; cases dominates a b <;> decide
  · rw [h]; cases dominates a b <;> decide
  · rw [evolver_dominates_eq, evolver_dominates_eq]; exact h
  · rw [evolver_dominates_eq]; exact h2

/-- C13: when all indices of `orig` have the same evaluation vector, `get_front` returns
all of them and leaves `orig` empty; when all indices at the positions `first .. last - 1`
of the index table have the same evaluation vector, `Evolver::nondominated_sort` returns
`front_end = last`. -/
theorem C13_all_equal_is_one_front {N : Nat} (evaluations : List (Fin N → ℚ))
    (orig m_indices : List Nat) (first last : Nat)
    (hsame : ∀ i ∈ orig, ∀ j ∈ orig, evalAt evaluations i = evalAt evaluations j)
    (hfl : first ≤ last) (hlast : last ≤ m_indices.length)
    (hsame' : ∀ p q, first ≤ p → p < last → first ≤ q → q < last →
      evalAt evaluations (m_indices.getD p 0) = evalAt evaluations (m_indices.getD q 0)) :
    (get_front evaluations orig).2 = [] ∧
    (get_front evaluations orig).1.Perm orig ∧
    (Evolver.nondominated_sort evaluations m_indices first last).2 = last := by
  have hinv := get_front_inv evaluations orig
  have hperm := get_front_perm evaluations orig
  have h2 : (get_front evaluations orig).2 = [] := by
    apply List.eq_nil_iff_forall_not_mem.2
    intro r hr
    obtain ⟨f, hf, hfr⟩ := hinv.2 r hr
    have hf' : f ∈ orig := hperm.mem_iff.1 (List.mem_append_left _ hf)
    have hr' : r ∈ orig := hperm.mem_iff.1 (List.mem_append_right _ hr)
    rw [Dom_iff, hsame f hf' r hr'] at hfr
    exact ParetoDom.irrefl' _ hfr
  refine ⟨h2, ?_, ?_⟩
  · rw [h2, List.append_nil] at hperm
    exact hperm
  · have O := Evolver.nondominated_sort_spec evaluations m_indices first last hfl hlast
    by_contra hne
    have hlt : (Evolver.nondominated_sort evaluations m_indices first last).2 < last :=
      lt_of_le_of_ne O.hi hne
    obtain ⟨q, hq1, hq2, hd⟩ := O.rem _ le_rfl hlt
    obtain ⟨p1, hp1, hp1', e1⟩ := O.bwd q hq1 (by omega)
    obtain ⟨p2, hp2, hp2', e2⟩ := O.bwd _ O.lo hlt
    rw [Dom_iff, e1, e2, hsame' p1 p2 hp1 hp1' hp2 hp2'] at hd
    exact ParetoDom.irrefl' _ hd

/-- C13 at `tieTable` (three candidates with the value `5`) and the index table
`[0, 1, 2]`. -/
theorem C13_all_equal_is_one_front_witness :
    (∀ i ∈ [0, 1, 2], ∀ j ∈ [0, 1, 2], evalAt tieTable i = evalAt tieTable j) ∧
    (get_front tieTable [0, 1, 2]).2 = [] ∧
    (get_front tieTable [0, 1, 2]).1.Perm [0, 1, 2] ∧
    (Evolver.nondominated_sort tieTable [0, 1, 2] 0 3).2 = 3 :=
  ⟨by decide,
    C13_all_equal_is_one_front tieTable [0, 1, 2] [0, 1, 2] 0 3 (by decide) (by decide)
      (by decide)
      (fun p q _ hp _ hq => by
        have hp' : p = 0 ∨ p = 1 ∨ p = 2 := by omega
        have hq' : q = 0 ∨ q = 1 ∨ q = 2 := by omega
        rcases hp' with rfl | rfl | rfl <;> rcases hq' with rfl | rfl | rfl <;> rfl)⟩

/-- C14 (the code departs from it): on the table `exampleTableQ` and the pool `[0, 1, 2]`
in this order, the list based `get_front` returns the set `{2}`, while the swap based
`Evolver::nondominated_sort` leaves the set `{1, 2}` at the positions before `front_end`:
candidate `1` is in the second set and not in the first one. -/
theorem C14_front_sets_differ :
    (get_front exampleTableQ [0, 1, 2]).1 = [2] ∧
    (Evolver.nondominated_sort exampleTableQ [0, 1, 2] 0 3).2 = 2 ∧
    (Evolver.nondominated_sort exampleTableQ [0, 1, 2] 0 3).1.take 2 = [1, 2] ∧
    1 ∉ (get_front exampleTableQ [0, 1, 2]).1 ∧
    1 ∈ (Evolver.nondominated_sort exampleTableQ [0, 1, 2] 0 3).1.take
      (Evolver.nondominated_sort exampleTableQ [0, 1, 2] 0 3).2 := by
  have h1 : get_front exampleTableQ [0, 1, 2] = ([2], [0, 1]) := by decide
  have h2 : Evolver.nondominated_sort exampleTableQ [0, 1, 2] 0 3 = ([1, 2, 0], 2) := by
    decide
  rw [h1, h2]
  decide

/-- C16: in exact arithmetic, let the members of the front `idxs` have pairwise distinct
values on every objective: for each objective `d` there is the ascending arrangement `L d`
of the front.  A member `m` that stands at an interior position `j d` of every `L d`
(neither minimum nor maximum on any objective; the front then has at least three members)
ends `assign_crowding_distance` with the distance
`Σ d, (value of L d [j d + 1] - value of L d [j d - 1]) / (value of the last - value of
the first of L d)`, whatever the table of distances held before the call and whatever
order `idxs` had.  `Evolver::assign_crowding_distance` on a range of the index table
holding `idxs` gives the same distance. -/
theorem C16_interior_distance_formula {N : Nat} (S : SortAlg)
    (evaluations : List (Fin N → ℚ)) (crowding_distances : List XFloat) (idxs : List Nat)
    (L : Fin N → List Nat) (j : Fin N → Nat) (m : Nat) (hm : m ∈ idxs)
    (hvalid : m < crowding_distances.length)
    (hL : ∀ d, (L d).Perm idxs ∧
      (L d).Pairwise (fun a b => evalAt evaluations a d < evalAt evaluations b d) ∧
      0 < j d ∧ j d + 1 < (L d).length ∧ (L d).getD (j d) 0 = m) :
    (∃ cd', assign_crowding_distance S evaluations crowding_distances idxs = some cd' ∧
      distAt cd' m = XFloat.fin (∑ d : Fin N,
        (evalAt evaluations ((L d).getD (j d + 1) 0) d
          - evalAt evaluations ((L d).getD (j d - 1) 0) d) /
        (evalAt evaluations ((L d).getD ((L d).length - 1) 0) d
          - evalAt evaluations ((L d).getD 0 0) d))) ∧
    ∀ (m_indices : List Nat) (first last : Nat), first < last → last ≤ m_indices.length →
      (m_indices.drop first).take (last - first) = idxs →
      ∃ c, Evolver.assign_crowding_distance S evaluations crowding_distances m_indices
          first last = some c ∧
        distAt c.1 m = XFloat.fin (∑ d : Fin N,
          (evalAt evaluations ((L d).getD (j d + 1) 0) d
            - evalAt evaluations ((L d).getD (j d - 1) 0) d) /
          (evalAt evaluations ((L d).getD ((L d).length - 1) 0) d
            - evalAt evaluations ((L d).getD 0 0) d)) := by
  obtain ⟨st', h1, h2⟩ := crowdingRounds_interior S evaluations idxs L j m hL (List.finRange N)
    (crowdingReset crowding_distances idxs, idxs) 0 (List.Perm.refl _)
    (by rw [crowdingReset_length]; exact hvalid)
    (distAt_crowdingReset idxs m crowding_distances hvalid (Or.inl hm))
  rw [zero_add, ← Fin.sum_univ_def] at h2
  refine ⟨⟨st'.1, ?_, h2⟩, fun m_indices first last hfl hlast hslice => ?_⟩
  · simp only [assign_crowding_distance, h1, Option.map_some']
  · refine ⟨(st'.1, m_indices.take first ++ st'.2 ++ m_indices.drop last), ?_, h2⟩
    rw [evolver_assign_crowding_distance_eq S evaluations crowding_distances m_indices first
      last hfl hlast, hslice, h1]
    rfl

/-- C16 at `elitismPool` with the front `[6, 4, 1, 0]` and its member `4`: the ascending
arrangements are `[0, 4, 6, 1]` and `[1, 6, 4, 0]`, and the distance is
`(4 - 0) / (6 - 0) + (7 - 2) / (7 - 0) = 29 / 21`, from a table that held `NaN`. -/
theorem C16_interior_distance_formula_witness :
    (∀ d : Fin 2, (![[0, 4, 6, 1], [1, 6, 4, 0]] d).Perm [6, 4, 1, 0] ∧
      (![[0, 4, 6, 1], [1, 6, 4, 0]] d).Pairwise
        (fun a b => evalAt elitismPool a d < evalAt elitismPool b d) ∧
      0 < ![1, 2] d ∧ ![1, 2] d + 1 < (![[0, 4, 6, 1], [1, 6, 4, 0]] d).length ∧
      (![[0, 4, 6, 1], [1, 6, 4, 0]] d).getD (![1, 2] d) 0 = 4) ∧
    ∃ cd', assign_crowding_distance stdSort elitismPool (List.replicate 8 XFloat.nan)
        [6, 4, 1, 0] = some cd' ∧ distAt cd' 4 = XFloat.fin (29 / 21) := by
  have hL : ∀ d : Fin 2, (![[0, 4, 6, 1], [1, 6, 4, 0]] d).Perm [6, 4, 1, 0] ∧
      (![[0, 4, 6, 1], [1, 6, 4, 0]] d).Pairwise
        (fun a b => evalAt elitismPool a d < evalAt elitismPool b d) ∧
      0 < ![1, 2] d ∧ ![1, 2] d + 1 < (![[0, 4, 6, 1], [1, 6, 4, 0]] d).length ∧
      (![[0, 4, 6, 1], [1, 6, 4, 0]] d).getD (![1, 2] d) 0 = 4 := by decide
  obtain ⟨cd', h1, h2⟩ := (C16_interior_distance_formula stdSort elitismPool
    (List.replicate 8 XFloat.nan) [6, 4, 1, 0] ![[0, 4, 6, 1], [1, 6, 4, 0]] ![1, 2] 4
    (by decide) (by decide) hL).1
  refine ⟨hL, cd', h1, ?_⟩
  rw [h2]
  congr 1
  rw [Fin.sum_univ_two]
  decide!

/-- C18: `get_front` is total; for a non-empty `orig` it returns a non-empty front and
leaves `orig` strictly shorter.  So the loop of `assign_crowding_distances` ends: with room
for as many rounds as `orig` has members it returns a table, it makes at most that many
front extractions, and the fronts it hands to `assign_crowding_distance` are all
non-empty. -/
theorem C18_front_extraction_makes_progress {N : Nat} (S : SortAlg)
    (evaluations : List (Fin N → ℚ)) (orig : List Nat) (crowding_distances : List XFloat)
    (fuel : Nat) (hfuel : orig.length ≤ fuel) :
    (orig ≠ [] → (get_front evaluations orig).1 ≠ [] ∧
      (get_front evaluations orig).2.length < orig.length) ∧
    (∃ fronts cd', get_fronts evaluations fuel orig = some fronts ∧
      fronts.length ≤ orig.length ∧ (∀ f ∈ fronts, f ≠ []) ∧
      assign_crowding_distances_loop S evaluations fuel orig crowding_distances = some cd' ∧
      fronts.foldlM (fun c f => assign_crowding_distance S evaluations c f)
        crowding_distances = some cd') ∧
    ∃ cd', assign_crowding_distances S evaluations crowding_distances = some cd' := by
  refine ⟨fun hne => ?_, ?_, ?_⟩
  · have h1 := get_front_ne_nil evaluations orig hne
    have h2 := get_front_length evaluations orig
    have h3 : 0 < (get_front evaluations orig).1.length := List.length_pos.2 h1
    exact ⟨h1, by omega⟩
  · obtain ⟨fronts, hf, hperm, hne⟩ := get_fronts_spec evaluations fuel orig hfuel
    obtain ⟨cd', hcd, _⟩ :=
      assign_crowding_distances_loop_some S evaluations fuel orig crowding_distances hfuel
    refine ⟨fronts, cd', hf, ?_, hne, hcd, ?_⟩
    · rw [← hperm.length_eq]
      exact length_le_length_flatten fronts hne
    · rw [assign_crowding_distances_loop_eq, hf] at hcd
      exact hcd
  · obtain ⟨cd', hcd, _⟩ := assign_crowding_distances_loop_some S evaluations
      evaluations.length (List.range evaluations.length) crowding_distances (by simp)
    exact ⟨cd', hcd⟩

/-- C18 at `exampleTableQ` with `orig = [0, 1, 2]` and room for three rounds. -/
theorem C18_front_extraction_makes_progress_witness :
    [0, 1, 2].length ≤ 3 ∧
    (get_front exampleTableQ [0, 1, 2]).1 ≠ [] ∧
    (get_front exampleTableQ [0, 1, 2]).2.length < [0, 1, 2].length ∧
    ∃ cd', assign_crowding_distances stdSort exampleTableQ
      [XFloat.fin 0, XFloat.fin 0, XFloat.fin 0] = some cd' :=
  have h := C18_front_extraction_makes_progress stdSort exampleTableQ [0, 1, 2]
    [XFloat.fin 0, XFloat.fin 0, XFloat.fin 0] 3 (by decide)
  ⟨by decide, (h.1 (by decide)).1, (h.1 (by decide)).2, h.2.2⟩

/-- C19: `init(P)` completes and leaves `m_indices` a permutation of `0 .. 2P - 1`, and
every later sequence of calls `evolve(g)` completes and leaves it one: the positions
`0 .. 2P - 1` hold pairwise distinct slots below `2P`, so the slots at the positions
`0 .. P - 1` are distinct and disjoint from those at the positions `P .. 2P - 1`. -/
theorem C19_index_table_stays_permutation {T : Type} [Inhabited T] {N : Nat} {R : Type}
    (S : SortAlg) (G : RandomSource R) (F : EvolverFunctions T N R) (e : Evolver T N R)
    (P : Nat) (generations : List Nat) :
    ∃ s s', Evolver.init S F e P = some s ∧ s.m_indices.Perm (List.range (2 * P)) ∧
      generations.foldlM (fun obj g => Evolver.evolve S G F g obj) s = some s' ∧
      s'.m_indices.Perm (List.range (2 * P)) ∧
      (∀ p, p < 2 * P → s'.m_indices.getD p 0 < 2 * P) ∧
      ∀ p q, p < q → q < 2 * P → s'.m_indices.getD p 0 ≠ s'.m_indices.getD q 0 := by
  obtain ⟨s, hs, hsized⟩ := init_spec S F e P
  have hall : ∀ (gs : List Nat) (s : Evolver T N R), EvolverSized s P →
      ∃ s', gs.foldlM (fun obj g => Evolver.evolve S G F g obj) s = some s' ∧
        EvolverSized s' P := by
    intro gs
    induction gs with
    | nil => exact fun s h => ⟨s, rfl, h⟩
    | cons g gs ih =>
      intro s h
      obtain ⟨s1, h1, h1'⟩ := evolve_sized S G F P g s h
      obtain ⟨s2, h2, h2'⟩ := ih s1 h1'
      exact ⟨s2, by simp only [List.foldlM_cons, h1, Option.bind_eq_bind, Option.some_bind, h2],
        h2'⟩
  obtain ⟨s', hs', hsized'⟩ := hall generations s hsized
  have hlen := evolverSized_length hsized'
  refine ⟨s, s', hs, hsized.indices, hs', hsized'.indices, fun p hp => ?_, fun p q hpq hq he => ?_⟩
  · have := hsized'.indices.mem_iff.1 (getD_mem_nat s'.m_indices p (by omega))
    exact List.mem_range.1 this
  · have hnd : s'.m_indices.Nodup := hsized'.indices.nodup_iff.2 (List.nodup_range _)
    have := getD_inj_of_nodup s'.m_indices hnd p q (by omega) (by omega) he
    omega

/-- C20 (the code departs from it): on `elitismPool` with `P = 4` exactly the four
candidates `0`, `1`, `4`, `6` are dominated by no other candidate.  The first call of
`Evolver::nondominated_sort` in the selection loop returns a front of five members, which
holds candidate `3` although candidate `4` dominates it; after the sort by distance the
selection loop leaves candidate `3` at position `3` and candidate `4` at position `4`, so a
non-dominated candidate is outside the new population.  On the same pool `get_better_half`
passes the candidates `6`, `4`, `1`, `0` to its callback. -/
theorem C20_selection_drops_nondominated_member :
    (List.range 8).filter (fun i => (List.range 8).all fun j =>
      decide (Evolver.dominates (evalAt elitismPool j) (evalAt elitismPool i) ≠ .gt)) =
        [0, 1, 4, 6] ∧
    Evolver.nondominated_sort elitismPool (List.range 8) 0 8 = ([0, 1, 3, 4, 6, 5, 2, 7], 5) ∧
    Evolver.dominates (evalAt elitismPool 4) (evalAt elitismPool 3) = .gt ∧
    (Evolver.select stdSort 4 elitismEvolver 0).map (fun s => s.m_indices) =
      some [1, 0, 6, 3, 4, 5, 2, 7] ∧
    (get_better_half_calls stdSort elitismPool 4 (List.range 8)
      (List.replicate 8 (XFloat.fin 0)) 0).map (fun q => q.2.map Prod.snd) =
      some [6, 4, 1, 0] := by
  refine ⟨by decide, by decide, by decide, by decide!, by decide!⟩
